import Mathlib

/-!
# podman-volume-stratis: a verification development

A shallow embedding of the name validation (`internal/validation`), the size
codec (`parseSize` of `internal/driver`, `formatSize` of `internal/stratis`),
the volume driver (`internal/driver`) with its collaborators, the lookup of a
mount point of `internal/mount`, the field decoding of `internal/procmounts`,
the merge of the configuration (`internal/config`, `cmd`), and the two backends
of `internal/stratis` (the bus backend and the CLI backend with its parsers),
followed by theorems about them.

Go strings are embedded as Lean `String`s (valid UTF-8): `len(s)` is
`String.utf8ByteSize`, and ranging over a string ranges over `String.data`.
Go `error` values are embedded as `GoError`.
-/

/-- A Go `error` value: the `stratis.ErrNotFound` sentinel, an error made from a
message alone (`fmt.Errorf` without `%w`, or an error of the operating system),
or an error wrapping another one (`fmt.Errorf("context: %w", err)`). -/
inductive GoError where
  | errNotFound : GoError
  | msg (text : String) : GoError
  | wrap (context : String) (inner : GoError) : GoError
  deriving DecidableEq, Repr

deriving instance DecidableEq for Except

namespace GoError

/-- Go `errors.Is(err, stratis.ErrNotFound)`: walks the chain of wrapped errors. -/
def isNotFound : GoError → Bool
  | errNotFound => true
  | msg _ => false
  | wrap _ inner => isNotFound inner

end GoError

namespace validation

/-- MinNameLength is the minimum length for a volume name. -/
def MinNameLength : Nat := 2

/-- MaxNameLength is the maximum length for a volume name. -/
def MaxNameLength : Nat := 65

/-- The character class `[a-zA-Z0-9]` of `dockerNamePattern`. -/
def classAlnum (c : Char) : Bool :=
  ('a' ≤ c && c ≤ 'z') || ('A' ≤ c && c ≤ 'Z') || ('0' ≤ c && c ≤ '9')

/-- The character class `[a-zA-Z0-9_.-]` of `dockerNamePattern`. -/
def classNameChar (c : Char) : Bool :=
  ('a' ≤ c && c ≤ 'z') || ('A' ≤ c && c ≤ 'Z') || ('0' ≤ c && c ≤ '9') ||
    c == '_' || c == '.' || c == '-'

/-- The anchored pattern `^[a-zA-Z0-9][a-zA-Z0-9_.-]*$`, as `MatchString`: one
rune of the first class, then any number of runes of the second class, up to
the end of the text. -/
def dockerNamePattern (name : String) : Bool :=
  match name.data with
  | [] => false
  | c :: cs => classAlnum c && cs.all classNameChar

/-- ValidateVolumeName: the length checks (on the byte length, as Go `len`)
come first, then the pattern. -/
def ValidateVolumeName (name : String) : Except GoError Unit :=
  if name.utf8ByteSize < MinNameLength then
    .error (.msg "volume name must be at least 2 characters")
  else if name.utf8ByteSize > MaxNameLength then
    .error (.msg "volume name must be at most 65 characters")
  else if !dockerNamePattern name then
    .error (.msg ("volume name must start with alphanumeric and contain only " ++
      "alphanumeric, underscore, dot, or hyphen characters"))
  else
    .ok ()

end validation

/-! ## Go standard library: strings, strconv and float64

Only non-negative float64 values occur in the size codec. They are embedded as
the rationals they denote; `roundFloat64` is IEEE 754 round-to-nearest-even at
53 bits of precision, with the subnormal range and an unbounded exponent above
(the caller compares with `maxFloat64` to see an overflow to +Inf). -/

namespace strings

/-- Go `unicode.IsSpace`: the Unicode White_Space property. -/
def isSpace (c : Char) : Bool :=
  c == '\t' || c == '\n' || c.toNat == 0x0B || c.toNat == 0x0C || c == '\r' || c == ' ' ||
  c.toNat == 0x85 || c.toNat == 0xA0 || c.toNat == 0x1680 ||
  (0x2000 ≤ c.toNat && c.toNat ≤ 0x200A) || c.toNat == 0x2028 || c.toNat == 0x2029 ||
  c.toNat == 0x202F || c.toNat == 0x205F || c.toNat == 0x3000

/-- Go `strings.TrimSpace` on the runes of a string. -/
def trimSpaceRunes (cs : List Char) : List Char :=
  ((cs.dropWhile isSpace).reverse.dropWhile isSpace).reverse

/-- Go `strings.TrimSpace`: the string without leading and trailing white space. -/
def TrimSpace (s : String) : String := ⟨trimSpaceRunes s.data⟩

/-- Go `unicode.ToUpper` as far as a comparison with ASCII text can see it: the
ASCII letters, and the two runes outside ASCII whose upper case is an ASCII
letter (U+0131 dotless i gives I, U+017F long s gives S). Every other rune
outside ASCII has an upper case outside ASCII and is left as it is here. -/
def toUpperRune (c : Char) : Char :=
  if 'a' ≤ c ∧ c ≤ 'z' then Char.ofNat (c.toNat - 32)
  else if c.toNat = 0x131 then 'I'
  else if c.toNat = 0x17F then 'S'
  else c

/-- Go `strings.ToUpper`. -/
def ToUpper (s : String) : String := ⟨s.data.map toUpperRune⟩

end strings

namespace strconv

/-- The character is one of the decimal digits 0 to 9. -/
def isDigit (c : Char) : Bool := '0' ≤ c && c ≤ '9'

/-- The value of a decimal digit. -/
def digitValue (c : Char) : Nat := c.toNat - 48

/-- The number written by a run of decimal digits (0 for the empty run). -/
def decimalValue (ds : List Char) : Nat :=
  ds.foldl (fun acc c => 10 * acc + digitValue c) 0

/-- The syntax and exact value of a decimal literal without sign and exponent,
as `readFloat` reads it: digits with at most one dot and at least one digit.
Any other text is answered `none`; `driver.parseSize` passes digits and dots
only. -/
def readDecimal (cs : List Char) : Option ℚ :=
  let ip := cs.takeWhile isDigit
  match cs.dropWhile isDigit with
  | [] => if ip.isEmpty then none else some (decimalValue ip)
  | c :: fp =>
    if c == '.' && fp.all isDigit && !(ip.isEmpty && fp.isEmpty) then
      some ((decimalValue (ip ++ fp) : ℚ) / 10 ^ fp.length)
    else none

/-- The nearest integer to a rational, ties to the even one. -/
def roundHalfEven (q : ℚ) : ℤ :=
  let f := ⌊q⌋
  if q - f < 1 / 2 then f
  else if 1 / 2 < q - f then f + 1
  else if f % 2 = 0 then f else f + 1

/-- The float64 nearest to a non-negative rational (round to nearest, ties to
even, 53 significant bits, subnormals below 2^-1022, no upper limit). -/
def roundFloat64 (q : ℚ) : ℚ :=
  if q ≤ 0 then 0
  else
    let e : ℤ := max (Int.log 2 q) (-1022)
    (roundHalfEven (q / 2 ^ (e - 52)) : ℚ) * 2 ^ (e - 52)

/-- The largest finite float64, (2^53 - 1) * 2^971. -/
def maxFloat64 : ℚ := (2 ^ 53 - 1) * 2 ^ 971

/-- Go `strconv.ParseFloat(s, 64)` on a text of digits and dots: a syntax error,
a range error when the nearest float64 is +Inf, or the nearest float64. -/
def ParseFloat (s : String) : Except GoError ℚ :=
  match readDecimal s.data with
  | none => .error (.msg "strconv.ParseFloat: invalid syntax")
  | some q =>
    if maxFloat64 < roundFloat64 q then .error (.msg "strconv.ParseFloat: value out of range")
    else .ok (roundFloat64 q)

/-- Go `a * b` on float64: the exact product, rounded. -/
def mulFloat64 (a b : ℚ) : ℚ := roundFloat64 (a * b)

/-- Go `uint64(x)` for a non-negative float64 `x`: truncation when the value fits;
otherwise the language leaves the result to the implementation, here `conv x`. -/
def float64ToUint64 (conv : ℚ → Nat) (x : ℚ) : Nat :=
  if x < 2 ^ 64 then ⌊x⌋.toNat else conv x

end strconv

namespace driver

/-- The loop of `parseSize` over the runes of `s`: a digit or a dot extends
`numPart` up to and including it; the first other rune ends the loop with
`unitPart` the trimmed rest of the string from that rune on. Returns
`(numPart, unitPart)`. -/
def scanSize : List Char → List Char → List Char × List Char
  | [], numPart => (numPart, [])
  | c :: rest, numPart =>
    if ('0' ≤ c && c ≤ '9') || c == '.' then scanSize rest (numPart ++ [c])
    else (numPart, strings.trimSpaceRunes (c :: rest))

/-- The `switch unitPart` of `parseSize`: the multiplier of a unit in upper case.
The multipliers are whole numbers below 2^53, hence float64 values. -/
def unitMultiplier (unitPart : String) : Option Nat :=
  if unitPart = "" ∨ unitPart = "B" then some 1
  else if unitPart = "K" ∨ unitPart = "KB" then some 1000
  else if unitPart = "KI" ∨ unitPart = "KIB" then some 1024
  else if unitPart = "M" ∨ unitPart = "MB" then some (1000 * 1000)
  else if unitPart = "MI" ∨ unitPart = "MIB" then some (1024 * 1024)
  else if unitPart = "G" ∨ unitPart = "GB" then some (1000 * 1000 * 1000)
  else if unitPart = "GI" ∨ unitPart = "GIB" then some (1024 * 1024 * 1024)
  else if unitPart = "T" ∨ unitPart = "TB" then some (1000 * 1000 * 1000 * 1000)
  else if unitPart = "TI" ∨ unitPart = "TIB" then some (1024 * 1024 * 1024 * 1024)
  else none

/-- parseSize parses a size string with IEC or SI units. `conv` is the result
the platform gives to `uint64(x)` for a float64 that does not fit. -/
def parseSize (conv : ℚ → Nat) (s : String) : Except GoError Nat :=
  let s := strings.TrimSpace s
  if s = "" then .error (.msg "empty size")
  else
    let (numPart, unitPart) := scanSize s.data []
    let numPart := if unitPart = [] ∧ numPart = [] then s.data else numPart
    match strconv.ParseFloat ⟨numPart⟩ with
    | .error err => .error (.wrap "invalid number" err)
    | .ok num =>
      if num < 0 then .error (.msg "size cannot be negative")
      else
        let unitPart := strings.ToUpper ⟨unitPart⟩
        match unitMultiplier unitPart with
        | none => .error (.msg ("unknown unit: " ++ unitPart))
        | some multiplier =>
          .ok (strconv.float64ToUint64 conv (strconv.mulFloat64 num (multiplier : ℚ)))

end driver

namespace stratis

/-- formatSize formats a size in bytes to a string suitable for stratis
(e.g. "1GiB"); `%d` is the decimal representation. -/
def formatSize (bytes : Nat) : String :=
  let gib := 1024 * 1024 * 1024
  let mib := 1024 * 1024
  let kib := 1024
  if bytes ≥ gib ∧ bytes % gib = 0 then toString (bytes / gib) ++ "GiB"
  else if bytes ≥ mib ∧ bytes % mib = 0 then toString (bytes / mib) ++ "MiB"
  else if bytes ≥ kib ∧ bytes % kib = 0 then toString (bytes / kib) ++ "KiB"
  else toString bytes ++ "B"

end stratis

/-! ## The documented size syntax

The unit table of the specification and the two parts of a size string, for the
statements about `parseSize`. -/

namespace strings

/-- The spellings of a lower-case text in every letter case (ASCII). -/
def caseVariants : List Char → List (List Char)
  | [] => [[]]
  | x :: xs => (caseVariants xs).flatMap fun v => [x :: v, Char.ofNat (x.toNat - 32) :: v]

end strings

namespace driver

/-- The documented unit table: each unit with its multiplier. -/
def unitTable : List (String × Nat) :=
  [("", 1), ("B", 1),
   ("K", 1000), ("KB", 1000), ("Ki", 1024), ("KiB", 1024),
   ("M", 1000 ^ 2), ("MB", 1000 ^ 2), ("Mi", 1024 ^ 2), ("MiB", 1024 ^ 2),
   ("G", 1000 ^ 3), ("GB", 1000 ^ 3), ("Gi", 1024 ^ 3), ("GiB", 1024 ^ 3),
   ("T", 1000 ^ 4), ("TB", 1000 ^ 4), ("Ti", 1024 ^ 4), ("TiB", 1024 ^ 4)]

/-- What `parseSize` needs of a unit suffix: no white space in it, no digit or
dot at its start, and the multiplier of the table after upper-casing. -/
def unitFacts (v : List Char) (m : Nat) : Bool :=
  v.all (fun c => !strings.isSpace c) &&
  (match v with
    | [] => true
    | c :: _ => !(('0' ≤ c && c ≤ '9') || c == '.')) &&
  decide (unitMultiplier (strings.ToUpper ⟨v⟩) = some m)

/-- The runes `parseSize` counts to the number: digits and the dot. -/
def numChar (c : Char) : Bool := ('0' ≤ c && c ≤ '9') || c == '.'

/-- The numeric prefix of a size string: the leading digits and dots of the
trimmed string. -/
def numericPart (s : String) : List Char :=
  (strings.TrimSpace s).data.takeWhile numChar

/-- The unit suffix of a size string: what follows the numeric prefix, trimmed. -/
def unitSuffix (s : String) : List Char :=
  strings.trimSpaceRunes ((strings.TrimSpace s).data.dropWhile numChar)

end driver

/-! ## The volume driver and its collaborators

The driver talks to three collaborators: the Stratis manager (`stratis.Manager`),
the mounter (`mount.Mounter`) and the operating system (packages `os` and
`filepath`). Each is a record of handlers over a state `σ` of the world, which a
call may change. A driver operation is a computation `M σ α`: it threads the
state of the world and records, in order, every call it makes on a collaborator.
The mutex of the driver and the log output are left out. -/

namespace stratis

/-- Filesystem represents a Stratis filesystem. -/
structure Filesystem where
  Name : String
  Pool : String
  DevicePath : String
  Total : Nat
  Used : Nat
  Free : Nat
  SizeLimit : Option Nat
  UUID : String
  deriving DecidableEq, Repr

/-- Manager defines the interface for Stratis filesystem management operations.
A `(*Filesystem, error)` result is an error or a pointer, which may be nil. -/
structure Manager (σ : Type) where
  PoolExists : σ → Except GoError Bool × σ
  List : σ → Except GoError (List Filesystem) × σ
  Create : String → Option Nat → σ → Except GoError (Option Filesystem) × σ
  Delete : String → σ → Option GoError × σ
  GetByName : String → σ → Except GoError (Option Filesystem) × σ

end stratis

namespace mount

/-- Mounter defines the interface for mount/unmount operations. `GetMountPoint`
returns the pair `(string, error)` of the Go method: the mount point, empty if
the device is not mounted, and the error, `none` for nil. The interface does not
say which string comes with an error. -/
structure Mounter (σ : Type) where
  Mount : String → String → String → σ → Option GoError × σ
  Unmount : String → σ → Option GoError × σ
  IsMounted : String → σ → Except GoError Bool × σ
  GetMountPoint : String → σ → (String × Option GoError) × σ

end mount

namespace driver

/-- The operating system as the driver uses it: `os.Stat` (answering whether the
path is a directory), `os.ReadDir` (the entry names), `os.Remove`,
`os.RemoveAll`, `os.MkdirAll`, the test `os.IsNotExist` on errors, and
`filepath.Join`. -/
structure OS (σ : Type) where
  Stat : String → σ → Except GoError Bool × σ
  ReadDir : String → σ → Except GoError (List String) × σ
  Remove : String → σ → Option GoError × σ
  RemoveAll : String → σ → Option GoError × σ
  MkdirAll : String → Nat → σ → Option GoError × σ
  IsNotExist : GoError → Bool
  Join : String → String → String

/-- A call of the driver on one of its collaborators. -/
inductive Call where
  | getByName (name : String)
  | create (name : String) (sizeLimit : Option Nat)
  | delete (name : String)
  | list
  | mount (source target fsType : String)
  | unmount (target : String)
  | isMounted (target : String)
  | getMountPoint (source : String)
  | stat (path : String)
  | readDir (path : String)
  | remove (path : String)
  | removeAll (path : String)
  | mkdirAll (path : String) (perm : Nat)
  deriving DecidableEq, Repr

/-- A computation over the world: from the state and the calls made so far to a
value, the state after, and the calls made so far after. -/
def M (σ α : Type) : Type := σ → List Call → α × σ × List Call

instance (σ : Type) : Monad (M σ) where
  pure a := fun s t => (a, s, t)
  bind m f := fun s t => match m s t with
    | (a, s1, t1) => f a s1 t1

/-- Makes the call `c`, answered by the handler `h`, and records it. -/
def call {σ α : Type} (c : Call) (h : σ → α × σ) : M σ α :=
  fun s t => match h s with
    | (a, s1) => (a, s1, t ++ [c])

/-- What a driver operation returns: a value, an error, or a run-time panic on
the dereference of a nil `*Filesystem`. -/
inductive Result (α : Type) where
  | ok (value : α)
  | error (err : GoError)
  | panic
  deriving DecidableEq, Repr

/-- Driver implements the Docker volume plugin interface. -/
structure Driver (σ : Type) where
  mountPath : String
  stratis : stratis.Manager σ
  mounter : mount.Mounter σ
  os : OS σ

variable {σ : Type}

/-- mountPointPath returns the mount point path for a volume. -/
def Driver.mountPointPath (d : Driver σ) (name : String) : String :=
  d.os.Join d.mountPath name

/-- prepareMountPoint prepares the mount point directory; `none` is the nil error. -/
def Driver.prepareMountPoint (d : Driver σ) (path : String) : M σ (Option GoError) := do
  let create : M σ (Option GoError) := do
    match ← call (.mkdirAll path 0o755) (d.os.MkdirAll path 0o755) with
    | some err => pure (some (.wrap "create mount point" err))
    | none => pure none
  match ← call (.stat path) (d.os.Stat path) with
  | .ok isDir =>
    if !isDir then
      pure (some (.msg ("mount point " ++ path ++ " exists but is not a directory")))
    else
      match ← call (.readDir path) (d.os.ReadDir path) with
      | .error err => pure (some (.wrap "read directory" err))
      | .ok entries =>
        if entries.length > 0 then
          pure (some (.msg ("mount point " ++ path ++ " exists and is not empty")))
        else
          match ← call (.remove path) (d.os.Remove path) with
          | some err => pure (some (.wrap "remove existing directory" err))
          | none => create
  | .error err =>
    if !d.os.IsNotExist err then pure (some (.wrap "stat mount point" err))
    else create

/-- Remove removes a volume. -/
def Driver.Remove (d : Driver σ) (name : String) : M σ (Result Unit) := do
  match ← call (.getByName name) (d.stratis.GetByName name) with
  | .error err =>
    if err.isNotFound then pure (.error (.msg ("volume " ++ name ++ " not found")))
    else pure (.error (.wrap "get volume" err))
  | .ok fs =>
    let mountPoint := d.mountPointPath name
    let finish : M σ (Result Unit) := do
      let _ ← call (.removeAll mountPoint) (d.os.RemoveAll mountPoint)
      match fs with
      | none => pure .panic
      | some fs =>
        match ← call (.delete fs.Name) (d.stratis.Delete fs.Name) with
        | some err => pure (.error (.wrap "delete filesystem" err))
        | none => pure (.ok ())
    match ← call (.isMounted mountPoint) (d.mounter.IsMounted mountPoint) with
    | .error err => pure (.error (.wrap "check mount status" err))
    | .ok mounted =>
      if mounted then
        match ← call (.unmount mountPoint) (d.mounter.Unmount mountPoint) with
        | some err => pure (.error (.wrap "unmount" err))
        | none => finish
      else finish

/-- Mount mounts a volume. -/
def Driver.Mount (d : Driver σ) (name _id : String) : M σ (Result String) := do
  match ← call (.getByName name) (d.stratis.GetByName name) with
  | .error err =>
    if err.isNotFound then pure (.error (.msg ("volume " ++ name ++ " not found")))
    else pure (.error (.wrap "get volume" err))
  | .ok none => pure .panic
  | .ok (some fs) =>
    let mountPoint := d.mountPointPath name
    match ← call (.getMountPoint fs.DevicePath) (d.mounter.GetMountPoint fs.DevicePath) with
    | (_, some err) => pure (.error (.wrap "check existing mount" err))
    | (existingMount, none) =>
      if existingMount ≠ "" then
        if existingMount = mountPoint then pure (.ok mountPoint)
        else pure (.error (.msg ("volume " ++ name ++ " is mounted at " ++ existingMount ++
          " instead of " ++ mountPoint)))
      else
        match ← d.prepareMountPoint mountPoint with
        | some err => pure (.error (.wrap "prepare mount point" err))
        | none =>
          match ← call (.mount fs.DevicePath mountPoint "xfs")
              (d.mounter.Mount fs.DevicePath mountPoint "xfs") with
          | some err => pure (.error (.wrap "mount" err))
          | none => pure (.ok mountPoint)

/-- Unmount unmounts a volume. -/
def Driver.Unmount (d : Driver σ) (name _id : String) : M σ (Result Unit) := do
  match ← call (.getByName name) (d.stratis.GetByName name) with
  | .error err =>
    if err.isNotFound then pure (.error (.msg ("volume " ++ name ++ " not found")))
    else pure (.error (.wrap "get volume" err))
  | .ok none => pure .panic
  | .ok (some fs) =>
    let mountPoint := d.mountPointPath name
    match ← call (.getMountPoint fs.DevicePath) (d.mounter.GetMountPoint fs.DevicePath) with
    | (_, some err) => pure (.error (.wrap "check mount status" err))
    | (existingMount, none) =>
      if existingMount = "" then pure (.ok ())
      else if existingMount ≠ mountPoint then
        pure (.error (.msg ("volume " ++ name ++ " is mounted at " ++ existingMount ++
          " instead of expected " ++ mountPoint)))
      else
        match ← call (.unmount mountPoint) (d.mounter.Unmount mountPoint) with
        | some err => pure (.error (.wrap "unmount" err))
        | none =>
          let _ ← call (.remove mountPoint) (d.os.Remove mountPoint)
          pure (.ok ())

end driver

/-! ## A small world for concrete runs

One filesystem `vol1` in the pool; the state of the world is the mount table, a
list of pairs of a device and its mount point. -/

namespace demo

/-- The filesystem of the example in `cli.go`. -/
def vol1 : stratis.Filesystem :=
  { Name := "vol1", Pool := "podman_vols", DevicePath := "/dev/stratis/podman_vols/vol1",
    Total := 1073741824, Used := 77594624, Free := 996147200, SizeLimit := none,
    UUID := "5944af0c-f520-4773-9006-edcd79a66d50" }

/-- A manager that knows `vol1` only. -/
def manager : stratis.Manager (List (String × String)) :=
  { PoolExists := fun s => (.ok true, s)
    List := fun s => (.ok [vol1], s)
    Create := fun _ _ s => (.error (.msg "create failed"), s)
    Delete := fun _ s => (none, s)
    GetByName := fun name s =>
      (if name = "vol1" then .ok (some vol1) else .error .errNotFound, s) }

/-- A mounter over the mount table. -/
def mounter : mount.Mounter (List (String × String)) :=
  { Mount := fun source target _ s => (none, s ++ [(source, target)])
    Unmount := fun target s =>
      (if s.any (fun e => e.2 == target) then none else some (.msg "not mounted"),
        s.filter (fun e => e.2 != target))
    IsMounted := fun target s => (.ok (s.any (fun e => e.2 == target)), s)
    GetMountPoint := fun source s =>
      (((match s.find? (fun e => e.1 == source) with
        | some e => e.2
        | none => ""), none), s) }

/-- A mounter over the mount table whose unmount always fails. -/
def busyMounter : mount.Mounter (List (String × String)) :=
  { mounter with Unmount := fun _ s => (some (.msg "device or resource busy"), s) }

/-- An operating system without any directory, where every call succeeds except
`RemoveAll`. -/
def os : driver.OS (List (String × String)) :=
  { Stat := fun _ s => (.error (.msg "no such file or directory"), s)
    ReadDir := fun _ s => (.ok [], s)
    Remove := fun _ s => (none, s)
    RemoveAll := fun _ s => (some (.msg "permission denied"), s)
    MkdirAll := fun _ _ s => (none, s)
    IsNotExist := fun err => err == .msg "no such file or directory"
    Join := fun a b => a ++ "/" ++ b }

/-- The driver of the small world, with base mount directory `/mnt`. -/
def driver : driver.Driver (List (String × String)) :=
  { mountPath := "/mnt", stratis := manager, mounter := mounter, os := os }

/-- The driver of the small world with the mounter whose unmount fails. -/
def busyDriver : driver.Driver (List (String × String)) :=
  { mountPath := "/mnt", stratis := manager, mounter := busyMounter, os := os }

/-- The mount table with `vol1` at its canonical mount point. -/
def mountedCanonical : List (String × String) :=
  [("/dev/stratis/podman_vols/vol1", "/mnt/vol1")]

/-- The mount table with `vol1` at another mount point. -/
def mountedElsewhere : List (String × String) :=
  [("/dev/stratis/podman_vols/vol1", "/media/vol1")]

end demo

/-! ## The volume driver: Create, Path, Get and List -/

namespace driver

variable {σ : Type}

/-- A value of the status map of a volume (`map[string]any`): a `uint64` or a
string. -/
inductive StatusValue where
  | uint64 (n : Nat)
  | str (s : String)
  deriving DecidableEq, Repr

/-- The `volume.Volume` of the plugin protocol. The status map is the list of its
entries; the nil map is the empty list. -/
structure Volume where
  Name : String
  Mountpoint : String
  Status : List (String × StatusValue)
  deriving DecidableEq, Repr

/-- The option of a create request under a key (`req.Options[key]`): the empty
string when the key is absent. -/
def optionValue (options : List (String × String)) (key : String) : String :=
  (options.lookup key).getD ""

/-- Create creates a new volume. `conv` is the argument of `parseSize`; the `%q`
of the size error is written with plain double quotes. -/
def Driver.Create (d : Driver σ) (conv : ℚ → Nat) (name : String)
    (options : List (String × String)) : M σ (Result Unit) := do
  -- 1. Validate name
  match validation.ValidateVolumeName name with
  | .error err => pure (.error err)
  | .ok _ =>
    -- 2. Parse size from options
    let sizeStr := optionValue options "size"
    let parsed : Except GoError (Option Nat) :=
      if sizeStr ≠ "" then
        match parseSize conv sizeStr with
        | .error err => .error (.wrap ("invalid size \"" ++ sizeStr ++ "\"") err)
        | .ok size => .ok (some size)
      else .ok none
    match parsed with
    | .error err => pure (.error err)
    | .ok sizeLimit =>
      -- 4. Create filesystem
      let create : M σ (Result Unit) := do
        match ← call (.create name sizeLimit) (d.stratis.Create name sizeLimit) with
        | .error err => pure (.error (.wrap "create filesystem" err))
        | .ok fs =>
          match sizeLimit, fs with
          | some _, _ => pure (.ok ())
          | none, some _ => pure (.ok ())
          | none, none => pure .panic
      -- 3. Check uniqueness
      match ← call (.getByName name) (d.stratis.GetByName name) with
      | .ok (some _) => pure (.error (.msg ("volume " ++ name ++ " already exists")))
      | .ok none => create
      | .error err =>
        if !err.isNotFound then pure (.error (.wrap "check existing volume" err))
        else create

/-- Path returns the mount path for a volume. -/
def Driver.Path (d : Driver σ) (name : String) : M σ (Result String) := do
  match ← call (.getByName name) (d.stratis.GetByName name) with
  | .error err =>
    if err.isNotFound then pure (.error (.msg ("volume " ++ name ++ " not found")))
    else pure (.error (.wrap "get volume" err))
  | .ok none => pure .panic
  | .ok (some fs) =>
    let mountPoint := d.mountPointPath name
    match ← call (.getMountPoint fs.DevicePath) (d.mounter.GetMountPoint fs.DevicePath) with
    | (_, some err) => pure (.error (.wrap "check mount status" err))
    | (existingMount, none) =>
      if existingMount = "" then
        pure (.error (.msg ("volume " ++ name ++ " is not mounted")))
      else if existingMount ≠ mountPoint then
        pure (.error (.msg ("volume " ++ name ++ " is mounted at " ++ existingMount ++
          " instead of expected " ++ mountPoint)))
      else pure (.ok mountPoint)

/-- The mount point reported for a volume by `Get` and `List`: the canonical one
if the lookup returned it, the empty string otherwise. -/
def currentMountPoint (existingMount mountPoint : String) : String :=
  if existingMount = mountPoint then mountPoint else ""

/-- Get returns information about a volume. After a failed lookup of the mount
point, `existingMount` is set to the empty string. -/
def Driver.Get (d : Driver σ) (name : String) : M σ (Result Volume) := do
  match ← call (.getByName name) (d.stratis.GetByName name) with
  | .error err =>
    if err.isNotFound then pure (.error (.msg ("volume " ++ name ++ " not found")))
    else pure (.error (.wrap "get volume" err))
  | .ok none => pure .panic
  | .ok (some fs) =>
    let mountPoint := d.mountPointPath name
    let existingMount ←
      match ← call (.getMountPoint fs.DevicePath) (d.mounter.GetMountPoint fs.DevicePath) with
      | (_, some _) => pure ""
      | (existingMount, none) => pure existingMount
    let status : List (String × StatusValue) :=
      [("total", .uint64 fs.Total), ("used", .uint64 fs.Used), ("free", .uint64 fs.Free),
       ("device", .str fs.DevicePath)]
    let status :=
      match fs.SizeLimit with
      | some limit => status ++ [("sizeLimit", .uint64 limit)]
      | none => status
    pure (.ok { Name := name, Mountpoint := currentMountPoint existingMount mountPoint,
                Status := status })

/-- The loop of `List` over the filesystems: one volume each, appended to
`volumes`. The error of a lookup is dropped (`existingMount, _ :=`), and the
string that came with it is compared like any other. -/
def Driver.listVolumes (d : Driver σ) :
    List stratis.Filesystem → List Volume → M σ (List Volume)
  | [], volumes => pure volumes
  | fs :: rest, volumes => do
    let mountPoint := d.mountPointPath fs.Name
    let lookup ← call (.getMountPoint fs.DevicePath) (d.mounter.GetMountPoint fs.DevicePath)
    let existingMount := lookup.1
    d.listVolumes rest (volumes ++
      [{ Name := fs.Name, Mountpoint := currentMountPoint existingMount mountPoint,
         Status := [] }])

/-- List returns all volumes. -/
def Driver.List (d : Driver σ) : M σ (Result (List Volume)) := do
  match ← call .list d.stratis.List with
  | .error err => pure (.error (.wrap "list filesystems" err))
  | .ok filesystems =>
    let volumes ← d.listVolumes filesystems []
    pure (.ok volumes)

end driver

/-! ## More of the small world -/

namespace demo

/-- A mounter over the mount table whose lookup of a mount point always fails. -/
def blindMounter : mount.Mounter (List (String × String)) :=
  { mounter with GetMountPoint := fun _ s => (("", some (.msg "unable to parse mounts")), s) }

/-- The driver of the small world over `blindMounter`. -/
def blindDriver : driver.Driver (List (String × String)) :=
  { mountPath := "/mnt", stratis := manager, mounter := blindMounter, os := os }

end demo

namespace procmounts

/-- Entry represents an entry in /proc/mounts. -/
structure Entry where
  Device : String
  MountPoint : String
  FSType : String
  Options : String
  deriving DecidableEq, Repr

end procmounts

namespace mount

/-- SyscallMounter implements Mounter using Linux syscalls. Of the world its
`GetMountPoint` uses `filepath.EvalSymlinks` and `procmounts.Parse` (the read of
`/proc/mounts`), two handlers here. -/
structure SyscallMounter (σ : Type) where
  basePath : String
  EvalSymlinks : String → σ → Except GoError String × σ
  Parse : σ → Except GoError (List procmounts.Entry) × σ

/-- GetMountPoint returns the mount point for a source device. -/
def SyscallMounter.GetMountPoint {σ : Type} (m : SyscallMounter σ) (source : String)
    (s : σ) : (String × Option GoError) × σ :=
  -- Resolve source to absolute path
  match m.EvalSymlinks source s with
  | (resolved, s1) =>
    let absSource :=
      match resolved with
      | .ok path => path
      -- If we can't resolve, try with original path
      | .error _ => source
    match m.Parse s1 with
    | (.error err, s2) => (("", some (.wrap "unable to parse mounts" err)), s2)
    | (.ok mounts, s2) =>
      -- Check both the original path and resolved path
      match mounts.find? (fun mount => mount.Device == source || mount.Device == absSource) with
      | some mount => ((mount.MountPoint, none), s2)
      | none => (("", none), s2)

end mount

namespace demo

/-- The `SyscallMounter` of the small world: no symbolic links, and the mount
table of the world read as `/proc/mounts`. -/
def syscallMounter : mount.SyscallMounter (List (String × String)) :=
  { basePath := "/mnt"
    EvalSymlinks := fun source s => (.ok source, s)
    Parse := fun s => (.ok (s.map (fun e => procmounts.Entry.mk e.1 e.2 "xfs" "rw")), s) }

/-- The `SyscallMounter` of a world whose `/proc/mounts` cannot be read. -/
def unreadableMounter : mount.SyscallMounter (List (String × String)) :=
  { syscallMounter with
    Parse := fun s => (.error (.msg "open /proc/mounts: permission denied"), s) }

/-- The driver of the small world whose lookups of a mount point are those of
the `SyscallMounter` `m`. -/
def syscallDriver (m : mount.SyscallMounter (List (String × String))) :
    driver.Driver (List (String × String)) :=
  { mountPath := "/mnt", stratis := manager
    mounter := { mounter with GetMountPoint := m.GetMountPoint }, os := os }

end demo

/-! ## The CLI backend: `GetByName`

The external tool is a handler of the world: given the arguments of the
command, it answers the combined output and, when the command failed, the text
of the error of `os/exec` (which is never the sentinel `ErrNotFound` of this
repository). -/

namespace GoError

/-- Go `err.Error()`: the text of an error. -/
def Error : GoError → String
  | errNotFound => "filesystem not found"
  | msg text => text
  | wrap context inner => context ++ ": " ++ inner.Error

end GoError

namespace strings

/-- Go `strings.Contains` on the runes of two strings. -/
def containsRunes : List Char → List Char → Bool
  | [], substr => substr.isEmpty
  | c :: cs, substr => substr.isPrefixOf (c :: cs) || containsRunes cs substr

/-- Go `strings.Contains`: whether `substr` is within `s`. -/
def Contains (s substr : String) : Bool := containsRunes s.data substr.data

/-- Go `strings.Join`. -/
def Join (elems : List String) (sep : String) : String := sep.intercalate elems

end strings

namespace stratis

variable {σ : Type}

/-- CLIManager implements Manager using the stratis CLI. `run` is the command
`stratis` with `CombinedOutput`; `Quote` is the `%q` of `fmt` (`strconv.Quote`). -/
structure CLIManager (σ : Type) where
  pool : String
  run : List String → σ → (String × Option String) × σ
  Quote : String → String

/-- The method `stratis` of the manager: runs a stratis command and returns the
output, with the error
`fmt.Errorf("stratis %s: %w (output: %q)", strings.Join(args, " "), err, output)`
when the command failed. The text after `%w` is kept with the text of the
wrapped error of `os/exec`. -/
def CLIManager.stratis (m : CLIManager σ) (args : List String) (s : σ) :
    (String × Option GoError) × σ :=
  match m.run args s with
  | ((output, none), s1) => ((output, none), s1)
  | ((output, some execErr), s1) =>
    ((output, some (.wrap ("stratis " ++ strings.Join args " ")
      (.msg (execErr ++ " (output: " ++ m.Quote output ++ ")")))), s1)

/-- GetByName returns the filesystem with the given name. The parser of the
detailed report, `parseDetailedOutput`, is an argument. -/
def CLIManager.GetByName (m : CLIManager σ)
    (parseDetailedOutput : String → Except GoError (Option Filesystem)) (name : String)
    (s : σ) : Except GoError (Option Filesystem) × σ :=
  match m.stratis ["fs", "list", "--name=" ++ name, m.pool] s with
  | ((_, some err), s1) =>
    -- Check if it's a "filesystem not found" error
    if strings.Contains err.Error "filesystem which does not exist" then
      (.error .errNotFound, s1)
    else (.error (.wrap "get filesystem" err), s1)
  | ((output, none), s1) => (parseDetailedOutput output, s1)

end stratis

/-! ## The bus backend

A Go map is embedded as the list of its entries, in the order in which the
`range` statement visits them; a lookup `m[key]` is `List.lookup`. A value held
in an `any` is embedded as far as the type assertions of the code can tell it
apart. The connection is a record of handlers over the state of the world, one
for each method the manager calls. -/

namespace dbus

/-- A Go value inside an `any`: a `string`, a `dbus.ObjectPath`, a `bool`, a
`uint16`, or a value of any other type. -/
inductive Value where
  | str (s : String)
  | objectPath (p : String)
  | bool (b : Bool)
  | uint16 (n : Nat)
  | other
  deriving DecidableEq, Repr

/-- The value of a `dbus.Variant`: a single value, or a `[]any` of values. -/
inductive Variant where
  | value (v : Value)
  | slice (items : List Value)
  deriving DecidableEq, Repr

/-- The properties of an interface: `map[string]dbus.Variant`. -/
abbrev Props := List (String × Variant)

/-- The interfaces of an object: `map[string]map[string]dbus.Variant`. -/
abbrev Interfaces := List (String × Props)

/-- The managed objects: `map[dbus.ObjectPath]map[string]map[string]dbus.Variant`. -/
abbrev ManagedObjects := List (String × Interfaces)

/-- The `dbus.Call` a method call returns: its error and its body. -/
structure CallResult where
  Err : Option GoError
  Body : List Value
  deriving DecidableEq, Repr

/-- The answer to `GetManagedObjects`: the call failed, the body could not be
stored into the map, or the map. -/
inductive ManagedObjectsReply where
  | callErr (err : GoError)
  | storeErr (err : GoError)
  | objects (result : ManagedObjects)
  deriving DecidableEq, Repr

end dbus

namespace fmt

/-- Go `fmt.Sscanf(s, "%d", &n)` for `n` a `uint64`: leading white space is
skipped (a newline is an error), then the longest run of decimal digits is read
(`scanNumber` with the digits `0123456789`) and handed to `strconv.ParseUint` in
base 10, which rejects a number that does not fit 64 bits; what follows the
run, an underscore included, is ignored. `none` is an error, in which case `n`
is left as it was. -/
def sscanUint64 (s : String) : Option Nat :=
  match s.data.dropWhile (fun c => strings.isSpace c && c != '\n') with
  | [] => none
  | c :: rest =>
    if c == '\n' then none
    else
      let tok := (c :: rest).takeWhile strconv.isDigit
      if tok.isEmpty then none
      else if strconv.decimalValue tok < 2 ^ 64 then some (strconv.decimalValue tok)
      else none

end fmt

namespace stratis

variable {σ : Type}

/-- The name of the pool interface. -/
def dbusPoolInterface : String := "org.storage.stratis3.pool.r8"

/-- The name of the filesystem interface. -/
def dbusFilesystemInterface : String := "org.storage.stratis3.filesystem.r8"

/-- A `(bool, string)` tuple of a create request. -/
structure optionalString where
  HasValue : Bool
  Value : String
  deriving DecidableEq, Repr

/-- The specification of one filesystem in a `CreateFilesystems` call. -/
structure filesystemSpec where
  Name : String
  Size : optionalString
  SizeLimit : optionalString
  deriving DecidableEq, Repr

/-- DBusConnection abstracts the godbus connection: the three method calls of
the manager, on the root object and on the pool object at the given path. -/
structure DBusConnection (σ : Type) where
  GetManagedObjects : σ → dbus.ManagedObjectsReply × σ
  CreateFilesystems : String → List filesystemSpec → σ → dbus.CallResult × σ
  DestroyFilesystems : String → List String → σ → dbus.CallResult × σ

/-- DBusManager implements Manager using the stratisd DBus API. The cached pool
path `poolPath` is part of the state. `Sleep` is `time.Sleep`, in milliseconds:
what happens to the world meanwhile. -/
structure DBusManager (σ : Type) where
  pool : String
  conn : DBusConnection σ
  Sleep : Nat → σ → σ

/-- What the manager does to the world: a method call on the bus, or a sleep. -/
inductive BusCall where
  | getManagedObjects
  | createFilesystems (poolPath : String) (specs : List filesystemSpec)
  | destroyFilesystems (poolPath : String) (fsPaths : List String)
  | sleep (milliseconds : Nat)
  deriving DecidableEq, Repr

/-- The state a method of the manager works on: the cached pool path of the
manager, the world, and the calls made so far. -/
structure BusState (σ : Type) where
  poolPath : String
  world : σ
  calls : List BusCall
  deriving DecidableEq, Repr

/-- A computation of the manager over its state. -/
def Bus (σ α : Type) : Type := BusState σ → α × BusState σ

instance (σ : Type) : Monad (Bus σ) where
  pure a := fun st => (a, st)
  bind m f := fun st => match m st with
    | (a, st1) => f a st1

/-- Makes the call `c`, answered by the handler `h`, and records it. -/
def busCall {α : Type} (c : BusCall) (h : σ → α × σ) : Bus σ α :=
  fun st => match h st.world with
    | (a, w1) => (a, { st with world := w1, calls := st.calls ++ [c] })

/-- getManagedObjects calls GetManagedObjects on the ObjectManager interface. -/
def DBusManager.getManagedObjects (m : DBusManager σ) :
    Bus σ (Except GoError dbus.ManagedObjects) := do
  match ← busCall .getManagedObjects m.conn.GetManagedObjects with
  | .callErr err => pure (.error (.wrap "GetManagedObjects" err))
  | .storeErr err => pure (.error (.wrap "store GetManagedObjects result" err))
  | .objects result => pure (.ok result)

/-- The loop of `findPoolPath` over the objects: the path of the first object
with the pool interface whose `Name` is the string `pool`. -/
def scanPool (pool : String) : dbus.ManagedObjects → Option String
  | [] => none
  | (path, interfaces) :: rest =>
    match interfaces.lookup dbusPoolInterface with
    | none => scanPool pool rest
    | some poolProps =>
      match poolProps.lookup "Name" with
      | some (.value (.str name)) => if name = pool then some path else scanPool pool rest
      | _ => scanPool pool rest

/-- findPoolPath finds the object path for our configured pool; the `%q` of the
error is written with plain double quotes. -/
def DBusManager.findPoolPath (m : DBusManager σ) : Bus σ (Except GoError String) :=
  fun st =>
    -- Return cached path if available
    if st.poolPath ≠ "" then (.ok st.poolPath, st)
    else
      match m.getManagedObjects st with
      | (.error err, st1) => (.error err, st1)
      | (.ok objects, st1) =>
        match scanPool m.pool objects with
        | some path => (.ok path, { st1 with poolPath := path })
        | none => (.error (.msg ("pool \"" ++ m.pool ++ "\" not found")), st1)

/-- The string a property holds (`v.Value().(string)`), the empty string when
the property is absent or not a string: the field of the record stays empty. -/
def stringProp (props : dbus.Props) (key : String) : String :=
  match props.lookup key with
  | some (.value (.str x)) => x
  | _ => ""

/-- extractOptionalString extracts an optional string from a (bool, string)
tuple variant; `none` is nil. -/
def extractOptionalString (v : dbus.Variant) : Option String :=
  match v with
  | .slice [hasValue, val] =>
    match hasValue with
    | .bool true =>
      match val with
      | .str x => some x
      | _ => none
    | _ => none
  | _ => none

/-- parseFilesystemFromProps creates a Filesystem from DBus property map; `pool`
is the pool of the manager. -/
def parseFilesystemFromProps (pool : String) (props : dbus.Props) :
    Except GoError (Option Filesystem) :=
  -- Name (required)
  let name := stringProp props "Name"
  if name = "" then .error (.msg "missing Name property")
  else
    let uuid := stringProp props "Uuid"
    -- Devnode (required)
    let devnode := stringProp props "Devnode"
    if devnode = "" then .error (.msg "missing Devnode property")
    else
      -- Size - stored as string representation of bytes
      let total : Nat :=
        match props.lookup "Size" with
        | some (.value (.str sizeStr)) => (fmt.sscanUint64 sizeStr).getD 0
        | _ => 0
      -- Used - optional property (bool, string) tuple
      let used : Nat :=
        match props.lookup "Used" with
        | some v =>
          match extractOptionalString v with
          | some usedStr => (fmt.sscanUint64 usedStr).getD 0
          | none => 0
        | none => 0
      -- Calculate Free
      let free : Nat := if total > used then total - used else 0
      -- SizeLimit - optional property (bool, string) tuple
      let sizeLimit : Option Nat :=
        match props.lookup "SizeLimit" with
        | some v =>
          match extractOptionalString v with
          | some limitStr => fmt.sscanUint64 limitStr
          | none => none
        | none => none
      .ok (some { Name := name, Pool := pool, DevicePath := devnode, Total := total,
                  Used := used, Free := free, SizeLimit := sizeLimit, UUID := uuid })

/-- The loop of `GetByName` over the objects: the record of the first object with
the filesystem interface whose `Pool` is the object path `poolPath` and whose
`Name` is the string `name`; `ErrNotFound` when there is none. -/
def scanFilesystem (pool poolPath name : String) :
    dbus.ManagedObjects → Except GoError (Option Filesystem)
  | [] => .error .errNotFound
  | (_, interfaces) :: rest =>
    match interfaces.lookup dbusFilesystemInterface with
    | none => scanFilesystem pool poolPath name rest
    | some fsProps =>
      -- Check pool
      match fsProps.lookup "Pool" with
      | some (.value (.objectPath fsPoolPath)) =>
        if fsPoolPath ≠ poolPath then scanFilesystem pool poolPath name rest
        else
          -- Check name
          match fsProps.lookup "Name" with
          | some (.value (.str fsName)) =>
            if fsName ≠ name then scanFilesystem pool poolPath name rest
            else parseFilesystemFromProps pool fsProps
          | _ => scanFilesystem pool poolPath name rest
      | _ => scanFilesystem pool poolPath name rest

/-- GetByName returns the filesystem with the given name. -/
def DBusManager.GetByName (m : DBusManager σ) (name : String) :
    Bus σ (Except GoError (Option Filesystem)) := do
  match ← m.findPoolPath with
  | .error err => pure (.error (.wrap "find pool" err))
  | .ok poolPath =>
    match ← m.getManagedObjects with
    | .error err => pure (.error (.wrap "get managed objects" err))
    | .ok objects => pure (scanFilesystem m.pool poolPath name objects)

/-- checkReturnCode checks the stratisd return code tuple (return_code, message). -/
def checkReturnCode (returnCode : Nat) (message : String) : Option GoError :=
  if returnCode = 0 then none
  else some (.msg ("stratisd error (code " ++ toString returnCode ++ "): " ++ message))

/-- The loop `for i := range 10` at the end of `Create`, with `remaining`
iterations to go and `last` the values of `fs` and `err` so far: an attempt
that succeeds ends the loop; after an attempt that fails the manager sleeps
100 milliseconds, unless it was the last one. -/
def DBusManager.pollCreated (m : DBusManager σ) (name : String) :
    Nat → Except GoError (Option Filesystem) → Bus σ (Except GoError (Option Filesystem))
  | 0, last => pure last
  | remaining + 1, _ => do
    match ← m.GetByName name with
    | .ok fs => pure (.ok fs)
    | .error err =>
      if remaining > 0 then
        let _ ← busCall (.sleep 100) (fun w => ((), m.Sleep 100 w))
      m.pollCreated name remaining (.error err)

/-- The filesystem specs `Create` builds for `CreateFilesystems`: with a limit,
the initial size and the limit are both set to it (`%d`). -/
def createSpecs (name : String) (sizeLimit : Option Nat) : List filesystemSpec :=
  let hasLimit := sizeLimit.isSome
  let limitStr :=
    match sizeLimit with
    | some limit => toString limit
    | none => ""
  [{ Name := name, Size := { HasValue := hasLimit, Value := limitStr },
     SizeLimit := { HasValue := hasLimit, Value := limitStr } }]

/-- Create creates a new filesystem with the given name and optional size limit.
The error for a return code of another type (`%T`) carries no type name here. -/
def DBusManager.Create (m : DBusManager σ) (name : String) (sizeLimit : Option Nat) :
    Bus σ (driver.Result Filesystem) := do
  match ← m.findPoolPath with
  | .error err => pure (.error (.wrap "find pool" err))
  | .ok poolPath =>
    let specs := createSpecs name sizeLimit
    let call ← busCall (.createFilesystems poolPath specs)
      (m.conn.CreateFilesystems poolPath specs)
    match call.Err with
    | some err => pure (.error (.wrap "CreateFilesystems" err))
    | none =>
      match call.Body with
      | _ :: code :: msg :: _ =>
        match code with
        | .uint16 returnCode =>
          let message :=
            match msg with
            | .str s => s
            | _ => ""
          match checkReturnCode returnCode message with
          | some err => pure (.error (.wrap "create filesystem" err))
          | none =>
            -- Invalidate pool path cache to refresh on next query
            let _ ← (fun st => ((), { st with poolPath := "" }) : Bus σ Unit)
            match ← m.pollCreated name 10 (.ok none) with
            | .error err => pure (.error (.wrap "get created filesystem" err))
            | .ok none => pure .panic
            | .ok (some fs) => pure (.ok fs)
        | _ => pure (.error (.msg "unexpected return code type"))
      | _ => pure (.error (.msg "unexpected response format from CreateFilesystems"))

/-- The state after an attempt of `GetByName` that failed and the sleep of 100
milliseconds that follows it in the loop of `Create`. -/
def DBusManager.afterFailedAttempt (m : DBusManager σ) (name : String)
    (st : BusState σ) : BusState σ :=
  { (m.GetByName name st).2 with
    world := m.Sleep 100 (m.GetByName name st).2.world
    calls := (m.GetByName name st).2.calls ++ [.sleep 100] }

/-- Whether an object of the graph has the filesystem interface with the `Pool`
property the object path `poolPath` and the `Name` property the string `name`. -/
def isFilesystemOf (poolPath name : String) (object : String × dbus.Interfaces) : Bool :=
  match object.2.lookup dbusFilesystemInterface with
  | some props =>
    props.lookup "Pool" == some (.value (.objectPath poolPath)) &&
      props.lookup "Name" == some (.value (.str name))
  | none => false

end stratis

/-! ## A small bus for concrete runs

The state of the world is the number of `GetManagedObjects` calls answered so
far; the filesystem `vol1` is in the graph from the call number `visibleFrom`
on. -/

namespace demo

/-- The object path of the pool. -/
def poolPath : String := "/org/storage/stratis3/pool/1"

/-- The pool object `test-pool`. -/
def poolObject : String × dbus.Interfaces :=
  (poolPath, [(stratis.dbusPoolInterface, [("Name", .value (.str "test-pool"))])])

/-- The properties of the filesystem `vol1` of the tests. -/
def vol1Props : dbus.Props :=
  [("Name", .value (.str "vol1")), ("Pool", .value (.objectPath poolPath)),
   ("Uuid", .value (.str "uuid-1")),
   ("Devnode", .value (.str "/dev/stratis/test-pool/vol1")),
   ("Size", .value (.str "1073741824")),
   ("Used", .slice [.bool true, .str "77594624"]),
   ("SizeLimit", .slice [.bool false, .str ""])]

/-- The filesystem object `vol1`. -/
def vol1Object : String × dbus.Interfaces :=
  ("/org/storage/stratis3/filesystem/1", [(stratis.dbusFilesystemInterface, vol1Props)])

/-- A filesystem object `vol1` of the pool without device node. -/
def bareObject : String × dbus.Interfaces :=
  ("/org/storage/stratis3/filesystem/2",
    [(stratis.dbusFilesystemInterface,
      [("Name", .value (.str "vol1")), ("Pool", .value (.objectPath poolPath))])])

/-- A filesystem object `vol1` of another pool. -/
def foreignObject : String × dbus.Interfaces :=
  ("/org/storage/stratis3/filesystem/3",
    [(stratis.dbusFilesystemInterface,
      [("Name", .value (.str "vol1")),
       ("Pool", .value (.objectPath "/org/storage/stratis3/pool/2")),
       ("Devnode", .value (.str "/dev/stratis/other-pool/vol1"))])])

/-- A connection that answers a graph made of the pool and, from the call number
`visibleFrom` on, the objects `late`; `CreateFilesystems` returns code 0. -/
def conn (visibleFrom : Nat) (late : dbus.ManagedObjects) : stratis.DBusConnection Nat :=
  { GetManagedObjects := fun n =>
      (.objects (if n + 1 ≥ visibleFrom then poolObject :: late else [poolObject]), n + 1)
    CreateFilesystems := fun _ _ n => ({ Err := none, Body := [.other, .uint16 0, .str ""] }, n)
    DestroyFilesystems := fun _ _ n =>
      ({ Err := none, Body := [.other, .uint16 0, .str ""] }, n) }

/-- The manager of the pool `test-pool` over `conn`. -/
def busManager (visibleFrom : Nat) (late : dbus.ManagedObjects) : stratis.DBusManager Nat :=
  { pool := "test-pool", conn := conn visibleFrom late, Sleep := fun _ n => n }

/-- The state of a manager that has made no call yet. -/
def busStart : stratis.BusState Nat := { poolPath := "", world := 0, calls := [] }

/-- The record of `vol1` as the bus backend returns it. -/
def busVol1 : stratis.Filesystem :=
  { Name := "vol1", Pool := "test-pool", DevicePath := "/dev/stratis/test-pool/vol1",
    Total := 1073741824, Used := 77594624, Free := 996147200, SizeLimit := none,
    UUID := "uuid-1" }

/-- A CLI manager whose tool fails for every name but `vol1`: with the message of
a missing filesystem for `ghost`, with another message otherwise. -/
def cliManager : stratis.CLIManager Unit :=
  { pool := "podman_vols"
    run := fun args s =>
      if args = ["fs", "list", "--name=vol1", "podman_vols"] then (("Name: vol1", none), s)
      else if args = ["fs", "list", "--name=ghost", "podman_vols"] then
        (("ERROR: list requested a filesystem which does not exist", some "exit status 1"), s)
      else (("ERROR: stratisd is not running", some "exit status 1"), s)
    Quote := fun s => "\"" ++ s ++ "\"" }

end demo

/-! ## Configuration: file values and command-line flags -/

namespace config

/-- DefaultConfigPath is the default location for the config file. -/
def DefaultConfigPath : String := "/etc/containers/plugin-volume-stratis.conf"

/-- DefaultSocketPath is the default Unix socket path for Podman. -/
def DefaultSocketPath : String := "/run/podman/plugins/volume-stratis.sock"

/-- DefaultMountPath is the default base directory for mounting volumes. -/
def DefaultMountPath : String := "/mnt"

/-- DefaultBackend is the default stratis backend. -/
def DefaultBackend : String := "dbus"

/-- Config holds the plugin configuration. -/
structure Config where
  Pool : String
  MountPath : String
  SocketPath : String
  Backend : String
  deriving DecidableEq, Repr

/-- Merge merges CLI flags into the config, with CLI flags taking precedence over
config file values. Empty CLI values are ignored. -/
def Config.Merge (c : Config) (pool mountPath socketPath backend : String) : Config :=
  let c := if pool ≠ "" then { c with Pool := pool } else c
  let c := if mountPath ≠ "" then { c with MountPath := mountPath } else c
  let c := if socketPath ≠ "" then { c with SocketPath := socketPath } else c
  if backend ≠ "" then { c with Backend := backend } else c

/-- ApplyDefaults applies default values for any unset fields. -/
def Config.ApplyDefaults (c : Config) : Config :=
  let c := if c.MountPath = "" then { c with MountPath := DefaultMountPath } else c
  let c := if c.SocketPath = "" then { c with SocketPath := DefaultSocketPath } else c
  if c.Backend = "" then { c with Backend := DefaultBackend } else c

end config

namespace main

/-- The string flags of the command as given on the command line: `none` for a
flag that was omitted. -/
structure Flags where
  pool : Option String
  mountPath : Option String
  socket : Option String
  config : Option String
  backend : Option String
  deriving DecidableEq, Repr

/-- The value `cmd.String` returns for a string flag: the text given on the
command line, or the `Value` the flag was declared with (the empty string for a
flag declared without one). -/
def flagString (given : Option String) (value : String) : String :=
  given.getD value

/-- The call of `Merge` in `run`, on the configuration `Load` returned: the four
arguments are the values of the flags `pool` (declared without a `Value`),
`mount-path`, `socket` and `backend` (declared with the defaults). -/
def mergeFlags (flags : Flags) (cfg : config.Config) : config.Config :=
  cfg.Merge (flagString flags.pool "") (flagString flags.mountPath config.DefaultMountPath)
    (flagString flags.socket config.DefaultSocketPath)
    (flagString flags.backend config.DefaultBackend)

/-- The configuration `run` validates and uses, from the one `Load` returned:
after `Merge` and `ApplyDefaults`. -/
def runConfig (flags : Flags) (cfg : config.Config) : config.Config :=
  (mergeFlags flags cfg).ApplyDefaults

end main

namespace stratis

variable {σ : Type}

/-- The arguments of the command `Create` runs: `fs create`, the size limit
written by `formatSize` after `--size` when there is one, the pool and the name. -/
def CLIManager.createArgs (m : CLIManager σ) (name : String) (sizeLimit : Option Nat) :
    List String :=
  let args := ["fs", "create"]
  let args :=
    match sizeLimit with
    | some limit => args ++ ["--size", formatSize limit]
    | none => args
  args ++ [m.pool, name]

/-- Create creates a new filesystem with the given name and optional size limit.
The parser of the detailed report is an argument, as for `GetByName`; the
record `GetByName` returned is dereferenced before it is returned. -/
def CLIManager.Create (m : CLIManager σ)
    (parseDetailedOutput : String → Except GoError (Option Filesystem)) (name : String)
    (sizeLimit : Option Nat) (s : σ) : driver.Result Filesystem × σ :=
  match m.stratis (m.createArgs name sizeLimit) s with
  | ((_, some err), s1) => (.error (.wrap "create filesystem" err), s1)
  | ((_, none), s1) =>
    -- Get the created filesystem
    match m.GetByName parseDetailedOutput name s1 with
    | (.error err, s2) => (.error (.wrap "get created filesystem" err), s2)
    | (.ok none, s2) => (.panic, s2)
    | (.ok (some fs), s2) => (.ok fs, s2)

end stratis

/-! ## The mount table: decoding of a field -/

namespace strings

/-- The scan of `strings.ReplaceAll` for a non-empty `old`, over the runes that
are left, with `skip` runes of the last match still to pass: the matches are
taken from left to right and do not overlap; every match is replaced by `new`,
every other rune is kept. -/
def replaceAllFrom (old new : List Char) : Nat → List Char → List Char
  | _, [] => []
  | skip + 1, _ :: cs => replaceAllFrom old new skip cs
  | 0, c :: cs =>
    if old.isPrefixOf (c :: cs) then new ++ replaceAllFrom old new (old.length - 1) cs
    else c :: replaceAllFrom old new 0 cs

/-- Go `strings.ReplaceAll`: a copy of `s` with all non-overlapping instances of
`old` replaced by `new`. An empty `old` matches at the beginning of the string
and after each rune. -/
def ReplaceAll (s old new : String) : String :=
  if old = "" then ⟨new.data ++ s.data.flatMap (fun c => c :: new.data)⟩
  else ⟨replaceAllFrom old.data new.data 0 s.data⟩

end strings

namespace procmounts

/-- unescapeField unescapes special characters in mount fields: /proc/mounts
escapes spaces as \040, tabs as \011, etc. -/
def unescapeField (s : String) : String :=
  let s := strings.ReplaceAll s "\\040" " "
  let s := strings.ReplaceAll s "\\011" "\t"
  let s := strings.ReplaceAll s "\\012" "\n"
  let s := strings.ReplaceAll s "\\134" "\\"
  s

/-- The code the mount table writes for a character, in the words of the
specification: a backslash is written \134, a space \040, a tab \011 and a
newline \012; every other character is written as it is. -/
def escapeRune (c : Char) : List Char :=
  if c = '\\' then ['\\', '1', '3', '4']
  else if c = ' ' then ['\\', '0', '4', '0']
  else if c = '\t' then ['\\', '0', '1', '1']
  else if c = '\n' then ['\\', '0', '1', '2']
  else [c]

/-- The text of `s` in which the characters of `coded` are written with their
code and the others as they are. -/
def escapeRunes (coded : List Char) (s : List Char) : List Char :=
  s.flatMap (fun c => if c ∈ coded then escapeRune c else [c])

/-- The mount-table escaping of a string, in the words of the specification:
each backslash, space, tab and newline is replaced by its code. -/
def escapeField (s : String) : String :=
  ⟨escapeRunes ['\\', ' ', '\t', '\n'] s.data⟩

end procmounts

/-! ## The bus backend: `Delete` -/

namespace stratis

variable {σ : Type}

/-- The loop of `findFilesystemPath` over the objects: the path of the first
object with the filesystem interface whose `Pool` is the object path `poolPath`
and whose `Name` is the string `name`; `ErrNotFound` when there is none. -/
def scanFilesystemPath (poolPath name : String) : dbus.ManagedObjects → Except GoError String
  | [] => .error .errNotFound
  | (path, interfaces) :: rest =>
    match interfaces.lookup dbusFilesystemInterface with
    | none => scanFilesystemPath poolPath name rest
    | some fsProps =>
      -- Check pool
      match fsProps.lookup "Pool" with
      | some (.value (.objectPath fsPoolPath)) =>
        if fsPoolPath ≠ poolPath then scanFilesystemPath poolPath name rest
        else
          -- Check name
          match fsProps.lookup "Name" with
          | some (.value (.str fsName)) =>
            if fsName = name then .ok path else scanFilesystemPath poolPath name rest
          | _ => scanFilesystemPath poolPath name rest
      | _ => scanFilesystemPath poolPath name rest

/-- findFilesystemPath finds the DBus object path for a filesystem by name. -/
def DBusManager.findFilesystemPath (m : DBusManager σ) (name : String) :
    Bus σ (Except GoError String) := do
  match ← m.findPoolPath with
  | .error err => pure (.error err)
  | .ok poolPath =>
    match ← m.getManagedObjects with
    | .error err => pure (.error err)
    | .ok objects => pure (scanFilesystemPath poolPath name objects)

/-- Delete removes the filesystem with the given name. -/
def DBusManager.Delete (m : DBusManager σ) (name : String) : Bus σ (Option GoError) := do
  match ← m.findPoolPath with
  | .error err => pure (some (.wrap "find pool" err))
  | .ok poolPath =>
    -- First, find the filesystem path
    match ← m.findFilesystemPath name with
    | .error err => pure (some (.wrap "find filesystem" err))
    | .ok fsPath =>
      let call ← busCall (.destroyFilesystems poolPath [fsPath])
        (m.conn.DestroyFilesystems poolPath [fsPath])
      match call.Err with
      | some err => pure (some (.wrap "DestroyFilesystems" err))
      | none =>
        match call.Body with
        | _ :: code :: msg :: _ =>
          match code with
          | .uint16 returnCode =>
            let message :=
              match msg with
              | .str s => s
              | _ => ""
            match checkReturnCode returnCode message with
            | some err => pure (some (.wrap "delete filesystem" err))
            | none =>
              -- Invalidate pool path cache
              let _ ← (fun st => ((), { st with poolPath := "" }) : Bus σ Unit)
              pure none
          | _ => pure (some (.msg "unexpected return code type"))
        | _ => pure (some (.msg "unexpected response format from DestroyFilesystems"))

/-- Whether a mutating call succeeded, as `Create` and `Delete` read its reply:
no call error, a body of at least three values, and the return code 0 as a
`uint16` in the second place. -/
def callSucceeded (reply : dbus.CallResult) : Bool :=
  match reply.Err, reply.Body with
  | none, _ :: .uint16 0 :: _ :: _ => true
  | _, _ => false

end stratis

namespace demo

/-- A connection that answers the graph of the pool and `vol1`, and whose
mutating calls fail: `CreateFilesystems` with the return code 1,
`DestroyFilesystems` with a call error. -/
def failingConn : stratis.DBusConnection Nat :=
  { GetManagedObjects := fun n => (.objects [poolObject, vol1Object], n + 1)
    CreateFilesystems := fun _ _ n =>
      ({ Err := none, Body := [.other, .uint16 1, .str "pool is full"] }, n)
    DestroyFilesystems := fun _ _ n =>
      ({ Err := some (.msg "connection closed"), Body := [] }, n) }

/-- The manager of the pool `test-pool` over `failingConn`. -/
def failingBusManager : stratis.DBusManager Nat :=
  { pool := "test-pool", conn := failingConn, Sleep := fun _ n => n }

end demo

/-! ## The CLI backend: the parsers of the reports

The parsers read the output of the tool with `bufio.Scanner`, `strings` and one
regular expression. `strconv.ParseFloat` is applied to any token of a report;
it is a parameter of the parsers, together with the two other parts of the
platform their results depend on. -/

namespace bufio

/-- MaxScanTokenSize is the maximum size used to buffer a token: the size of the
buffer of a `Scanner` made by `NewScanner`. -/
def MaxScanTokenSize : Nat := 64 * 1024

/-- dropCR drops a terminal \r from the data. -/
def dropCR (data : List Char) : List Char :=
  if data.getLast? = some '\r' then data.dropLast else data

/-- The tokens `Scan` yields with the split function `ScanLines`, over the text
that is left, `cur` being the bytes of the line read so far. A line ends at a
newline or at the end of the text; a last line that is empty is not a token. A
line must fit in the buffer together with its newline, and a last line without
newline must leave room for the read that finds the end of the text: a line of
`MaxScanTokenSize` bytes or more ends the scan (`ErrTooLong`), and `Scan`
returns false from then on. -/
def scanLinesFrom : List Char → List Char → List (List Char)
  | [], cur =>
    if cur = [] then []
    else if String.utf8Len cur ≥ MaxScanTokenSize then []
    else [dropCR cur]
  | c :: rest, cur =>
    if c = '\n' then
      if String.utf8Len cur ≥ MaxScanTokenSize then []
      else dropCR cur :: scanLinesFrom rest []
    else scanLinesFrom rest (cur ++ [c])

/-- The texts `scanner.Text()` returns in the loop `for scanner.Scan()` over a
scanner made by `bufio.NewScanner(strings.NewReader(text))`. -/
def scanLines (text : String) : List String :=
  (scanLinesFrom text.data []).map String.mk

end bufio

namespace strings

/-- The loop of `strings.FieldsFunc` over the runes that are left, `cur` being
the field read so far. -/
def fieldsFuncFrom (f : Char → Bool) : List Char → List Char → List (List Char)
  | [], cur => if cur = [] then [] else [cur]
  | c :: rest, cur =>
    if f c then
      if cur = [] then fieldsFuncFrom f rest [] else cur :: fieldsFuncFrom f rest []
    else fieldsFuncFrom f rest (cur ++ [c])

/-- Go `strings.FieldsFunc`: splits the string at each run of code points
satisfying `f`. -/
def FieldsFunc (s : String) (f : Char → Bool) : List String :=
  (fieldsFuncFrom f s.data []).map String.mk

/-- Go `strings.Fields`: splits the string around each instance of one or more
consecutive white space characters, as defined by `unicode.IsSpace`. -/
def Fields (s : String) : List String := FieldsFunc s isSpace

/-- The scan of `strings.Split` for a non-empty separator, over the runes that
are left, with `skip` runes of the last separator still to pass and `cur` the
piece read so far. -/
def splitFrom (sep : List Char) : Nat → List Char → List Char → List (List Char)
  | _, [], cur => [cur]
  | skip + 1, _ :: cs, cur => splitFrom sep skip cs cur
  | 0, c :: cs, cur =>
    if sep.isPrefixOf (c :: cs) then cur :: splitFrom sep (sep.length - 1) cs []
    else splitFrom sep 0 cs (cur ++ [c])

/-- Go `strings.Split`: slices `s` into all substrings separated by `sep`. An
empty `sep` splits after each rune. -/
def Split (s sep : String) : List String :=
  if sep = "" then s.data.map (fun c => String.mk [c])
  else (splitFrom sep.data 0 s.data []).map String.mk

/-- Go `strings.HasPrefix`. -/
def HasPrefix (s pre : String) : Bool := pre.data.isPrefixOf s.data

/-- Go `strings.CutPrefix`: `s` without the leading `pre` and whether it was
there; without it, `s` itself and false. -/
def CutPrefix (s pre : String) : String × Bool :=
  if HasPrefix s pre then (⟨s.data.drop pre.data.length⟩, true) else (s, false)

/-- The search of `strings.Cut` for the first instance of a non-empty separator:
the text before it, `before` included, and the text after it. -/
def cutFrom (sep : List Char) : List Char → List Char → Option (List Char × List Char)
  | [], _ => none
  | c :: cs, before =>
    if sep.isPrefixOf (c :: cs) then some (before, (c :: cs).drop sep.length)
    else cutFrom sep cs (before ++ [c])

/-- Go `strings.Cut`: slices `s` around the first instance of `sep`, returning
the text before and after it and whether it was found; without it, `s`, the
empty string and false. -/
def Cut (s sep : String) : String × String × Bool :=
  if sep = "" then ("", s, true)
  else
    match cutFrom sep.data s.data [] with
    | some (before, after) => (⟨before⟩, ⟨after⟩, true)
    | none => (s, "", false)

end strings

namespace strconv

/-- A float64 value: a finite number (an exact rational; the sign of a zero is
not kept), an infinity, or a NaN. -/
inductive Float64 where
  | finite (q : ℚ)
  | inf (negative : Bool)
  | nan
  deriving DecidableEq

/-- Go `a * b` on float64 for a finite whole multiplier `b > 0`: the exact
product rounded to the nearest float64, an infinity when that is beyond the
largest finite float64. -/
def Float64.mulNat (a : Float64) (b : Nat) : Float64 :=
  match a with
  | .finite q =>
    if q < 0 then
      if maxFloat64 < roundFloat64 (-(q * b)) then .inf true
      else .finite (-(roundFloat64 (-(q * b))))
    else
      if maxFloat64 < roundFloat64 (q * b) then .inf false
      else .finite (roundFloat64 (q * b))
  | .inf negative => .inf negative
  | .nan => .nan

/-- Go `uint64(x)` for a float64 `x`: the fraction is discarded; when the result
does not fit (a negative whole part, 2^64 or more, an infinity, a NaN) the
language leaves it to the implementation, here `conv x`. -/
def Float64.toUint64 (conv : Float64 → Nat) (x : Float64) : Nat :=
  match x with
  | .finite q => if -1 < q ∧ q < 2 ^ 64 then ⌊q⌋.toNat else conv x
  | _ => conv x

end strconv

namespace regexp

/-- The class `\s` of a Go regular expression: tab, newline, form feed, carriage
return and space; `\S` is every other character. -/
def isSpace (c : Char) : Bool :=
  c == '\t' || c == '\n' || c.toNat == 0x0C || c == '\r' || c == ' '

end regexp

namespace stratis

variable {σ : Type}

/-- The end of the pattern of a table line, `\s+(/dev/\S+)\s+(\S+)\s*$`, against
the whole text `t`: the device and the UUID when it matches. Every repetition
is followed by a character of the other class or by the end of the text, so
each takes the whole run. -/
def matchDeviceUUID (t : List Char) : Option (List Char × List Char) :=
  let t1 := t.dropWhile regexp.isSpace
  let path := (t1.drop 5).takeWhile (fun c => !regexp.isSpace c)
  let t2 := (t1.drop 5).dropWhile (fun c => !regexp.isSpace c)
  let t3 := t2.dropWhile regexp.isSpace
  let uuid := t3.takeWhile (fun c => !regexp.isSpace c)
  let t4 := t3.dropWhile (fun c => !regexp.isSpace c)
  if t.takeWhile regexp.isSpace = [] then none
  else if !("/dev/".data.isPrefixOf t1) then none
  else if path = [] then none
  else if t2.takeWhile regexp.isSpace = [] then none
  else if uuid = [] then none
  else if t4.all regexp.isSpace then some ("/dev/".data ++ path, uuid)
  else none

/-- The group `(.+?)` followed by the end of the pattern, against the whole text
that is left: the group takes the fewest characters, at least one and no
newline, after which the end of the pattern matches. `taken` is what the group
holds so far. Returns the group, the device and the UUID. -/
def matchSizeInfo : List Char → List Char → Option (List Char × List Char × List Char)
  | [], _ => none
  | c :: rest, taken =>
    if c = '\n' then none
    else
      match matchDeviceUUID rest with
      | some (device, uuid) => some (taken ++ [c], device, uuid)
      | none => matchSizeInfo rest (taken ++ [c])

/-- The `\s+` before the group `(.+?)`, against the text `t` that starts with a
run of at least `most` white space characters: the repetition takes as many as
it can, `most` first and then fewer, down to one, until the rest of the pattern
matches. -/
def matchFromSizeInfo (t : List Char) : Nat → Option (List Char × List Char × List Char)
  | 0 => none
  | most + 1 =>
    match matchSizeInfo (t.drop (most + 1)) [] with
    | some groups => some groups
    | none => matchFromSizeInfo t most

/-- The submatches of `^(\S+)\s+(\S+)\s+(.+?)\s+(/dev/\S+)\s+(\S+)\s*$` in a line,
as `FindStringSubmatch` returns them (the match a backtracking search finds
first): pool, name, size info, device and UUID; `none` when the line does not
match. The first two groups and the white space after the first are followed by
a character of the other class, so each takes the whole run. -/
def matchTableLine (line : List Char) :
    Option (List Char × List Char × List Char × List Char × List Char) :=
  let pool := line.takeWhile (fun c => !regexp.isSpace c)
  let r1 := line.dropWhile (fun c => !regexp.isSpace c)
  let r2 := r1.dropWhile regexp.isSpace
  let name := r2.takeWhile (fun c => !regexp.isSpace c)
  let r3 := r2.dropWhile (fun c => !regexp.isSpace c)
  if pool = [] then none
  else if r1.takeWhile regexp.isSpace = [] then none
  else if name = [] then none
  else
    match matchFromSizeInfo r3 (r3.takeWhile regexp.isSpace).length with
    | some (sizeInfo, device, uuid) => some (pool, name, sizeInfo, device, uuid)
    | none => none

/-- What the parsers of the CLI backend take from the platform:
`strconv.ParseFloat(s, 64)`, the result of `uint64(x)` for a float64 that does
not fit, and the `%q` of `fmt`. -/
structure Platform where
  ParseFloat : String → Except GoError strconv.Float64
  Convert : strconv.Float64 → Nat
  Quote : String → String

/-- The `switch unit` of `parseSize`: the multiplier of a unit in upper case. -/
def unitMultiplier (unit : String) : Option Nat :=
  if unit = "B" then some 1
  else if unit = "KIB" then some 1024
  else if unit = "MIB" then some (1024 * 1024)
  else if unit = "GIB" then some (1024 * 1024 * 1024)
  else if unit = "TIB" then some (1024 * 1024 * 1024 * 1024)
  else if unit = "KB" then some 1000
  else if unit = "MB" then some (1000 * 1000)
  else if unit = "GB" then some (1000 * 1000 * 1000)
  else if unit = "TB" then some (1000 * 1000 * 1000 * 1000)
  else none

/-- parseSize parses a size string like "1 GiB" or "74 MiB" to bytes. -/
def parseSize (p : Platform) (s : String) : Except GoError Nat :=
  match strings.Fields s with
  | [value, unit] =>
    match p.ParseFloat value with
    | .error err => .error (.wrap "parse value" err)
    | .ok value =>
      let unit := strings.ToUpper unit
      match unitMultiplier unit with
      | none => .error (.msg ("unknown unit " ++ p.Quote unit))
      | some multiplier => .ok ((value.mulNat multiplier).toUint64 p.Convert)
  | _ => .error (.msg ("expected 'value unit' format, got " ++ p.Quote s))

/-- parseSizeInfo parses the size info string. Format:
"1 GiB / 74 MiB / 950 MiB / None" or "1 GiB / 74 MiB / 950 MiB / 1 GiB".
Returns total, used, free and the size limit. -/
def parseSizeInfo (p : Platform) (s : String) : Except GoError (Nat × Nat × Nat × Option Nat) :=
  match strings.Split s " / " with
  | [part0, part1, part2, part3] =>
    match parseSize p (strings.TrimSpace part0) with
    | .error err => .error (.wrap "parse total" err)
    | .ok total =>
      match parseSize p (strings.TrimSpace part1) with
      | .error err => .error (.wrap "parse used" err)
      | .ok used =>
        match parseSize p (strings.TrimSpace part2) with
        | .error err => .error (.wrap "parse free" err)
        | .ok free =>
          let limitStr := strings.TrimSpace part3
          if limitStr ≠ "None" then
            match parseSize p limitStr with
            | .error err => .error (.wrap "parse limit" err)
            | .ok limit => .ok (total, used, free, some limit)
          else .ok (total, used, free, none)
  | parts =>
    .error (.msg ("expected 4 parts separated by ' / ', got " ++ toString parts.length))

/-- parseFilesystemTableLine parses a single line from the table output. A
result without error is a record, never nil. -/
def parseFilesystemTableLine (p : Platform) (line : String) : Except GoError Filesystem :=
  match matchTableLine line.data with
  | none => .error (.msg "line does not match expected format")
  | some (pool, name, sizeInfo, devicePath, uuid) =>
    -- Parse the size info: "1 GiB / 74 MiB / 950 MiB / None"
    match parseSizeInfo p ⟨sizeInfo⟩ with
    | .error err => .error (.wrap "parse size info" err)
    | .ok (total, used, free, sizeLimit) =>
      .ok { Name := ⟨name⟩, Pool := ⟨pool⟩, DevicePath := ⟨devicePath⟩, Total := total,
            Used := used, Free := free, SizeLimit := sizeLimit, UUID := ⟨uuid⟩ }

/-- The loop of `parseFilesystemTable` over the lines that are left, after
`lineNum` lines, with the records appended so far. -/
def tableLines (p : Platform) : Nat → List String → List Filesystem → List Filesystem
  | _, [], filesystems => filesystems
  | lineNum, line :: rest, filesystems =>
    -- Skip header line
    if lineNum + 1 = 1 ∨ strings.TrimSpace line = "" then
      tableLines p (lineNum + 1) rest filesystems
    else
      match parseFilesystemTableLine p line with
      | .error _ => tableLines p (lineNum + 1) rest filesystems
      | .ok fs => tableLines p (lineNum + 1) rest (filesystems ++ [fs])

/-- parseFilesystemTable parses the table output from stratis fs list. -/
def parseFilesystemTable (p : Platform) (output : String) : Except GoError (List Filesystem) :=
  .ok (tableLines p 0 (bufio.scanLines output) [])

/-- List returns all filesystems in the pool. -/
def CLIManager.List (m : CLIManager σ) (p : Platform) (s : σ) :
    Except GoError (List Filesystem) × σ :=
  match m.stratis ["fs", "list", m.pool] s with
  | ((_, some err), s1) => (.error (.wrap "list filesystems" err), s1)
  | ((output, none), s1) => (parseFilesystemTable p output, s1)

/-- The body of the loop of `parseDetailedOutput`: the record after the line
`text` of the report. -/
def detailedLine (p : Platform) (fs : Filesystem) (text : String) : Filesystem :=
  let line := strings.TrimSpace text
  match strings.CutPrefix line "UUID:" with
  | (val, true) => { fs with UUID := strings.TrimSpace val }
  | (_, false) =>
  match strings.CutPrefix line "Name:" with
  | (val, true) => { fs with Name := strings.TrimSpace val }
  | (_, false) =>
  match strings.CutPrefix line "Pool:" with
  | (val, true) => { fs with Pool := strings.TrimSpace val }
  | (_, false) =>
  match strings.CutPrefix line "Device:" with
  | (val, true) => { fs with DevicePath := strings.TrimSpace val }
  | (_, false) =>
  match strings.CutPrefix line "Logical size of thin device:" with
  | (val, true) =>
    match parseSize p (strings.TrimSpace val) with
    | .ok size => { fs with Total := size }
    | .error _ => fs
  | (_, false) =>
  if strings.HasPrefix line "Total used" then
    -- "Total used (including XFS metadata): 74 MiB"
    match strings.Cut line ":" with
    | (_, val, true) =>
      match parseSize p (strings.TrimSpace val) with
      | .ok size => { fs with Used := size }
      | .error _ => fs
    | (_, _, false) => fs
  else
  match strings.CutPrefix line "Free:" with
  | (val, true) =>
    match parseSize p (strings.TrimSpace val) with
    | .ok size => { fs with Free := size }
    | .error _ => fs
  | (_, false) =>
  match strings.CutPrefix line "Size Limit:" with
  | (val, true) =>
    if strings.TrimSpace val ≠ "None" then
      match parseSize p (strings.TrimSpace val) with
      | .ok limit => { fs with SizeLimit := some limit }
      | .error _ => fs
    else fs
  | (_, false) => fs

/-- The units of the sizes in a report, with their multipliers. -/
def sizeUnits : List (String × Nat) :=
  [("B", 1), ("KiB", 1024), ("MiB", 1024 ^ 2), ("GiB", 1024 ^ 3), ("TiB", 1024 ^ 4),
   ("KB", 1000), ("MB", 1000 ^ 2), ("GB", 1000 ^ 3), ("TB", 1000 ^ 4)]

/-- The multiplier of a unit of a report (0 for any other text). -/
def unitBytes (unit : String) : Nat := (sizeUnits.lookup unit).getD 0

/-- A size as a report writes it, '<number> <unit>': here a whole number, a
space and a unit. -/
def sizeText (n : Nat) (unit : String) : String := toString n ++ " " ++ unit

/-- The number of bytes a size of a report stands for. -/
def sizeBytes (n : Nat) (unit : String) : Nat := n * unitBytes unit

/-- Whether `n` and `unit` make a size of a report that float64 holds exactly: a
unit of the table and fewer than 2^53 bytes. -/
def isSize (n : Nat) (unit : String) : Bool :=
  decide (unit ∈ sizeUnits.map Prod.fst) && decide (sizeBytes n unit < 2 ^ 53)

/-- The size limit as a report writes it: `None` or a size. -/
def limitText (limit : Option (Nat × String)) : String :=
  match limit with
  | none => "None"
  | some (n, unit) => sizeText n unit

/-- The number of bytes the size limit of a report stands for, if any. -/
def limitBytes (limit : Option (Nat × String)) : Option Nat :=
  limit.map (fun l => sizeBytes l.1 l.2)

/-- Whether the size limit of a report is `None` or a size that float64 holds
exactly. -/
def isLimit (limit : Option (Nat × String)) : Bool :=
  match limit with
  | none => true
  | some (n, unit) => isSize n unit

/-- The size info column of a table row: total, used, free and limit, joined by
a slash between spaces. -/
def sizeInfoText (total used free limit : String) : String :=
  total ++ " / " ++ used ++ " / " ++ free ++ " / " ++ limit

/-- The white space between two columns of a table row: one space and `extra`
more. -/
def gap (extra : Nat) : String := ⟨List.replicate (extra + 1) ' '⟩

/-- A row of the table: pool, name, size info, device and UUID, with white space
between the columns. -/
def tableRow (pool name sizeInfo device uuid : String) (g1 g2 g3 g4 : Nat) : String :=
  pool ++ gap g1 ++ name ++ gap g2 ++ sizeInfo ++ gap g3 ++ device ++ gap g4 ++ uuid

/-- A word: a text that is not empty and holds no white space. -/
def isWord (s : String) : Bool := s.data ≠ [] && s.data.all (fun c => !strings.isSpace c)

/-- The lines of a report, in the words of the specification: the pieces of the
text between its newlines, each without a carriage return at its end; what
follows the last newline is a line unless it is empty. -/
def reportLines (text : String) : List String :=
  let pieces := strings.Split text "\n"
  (if pieces.getLast? = some "" then pieces.dropLast else pieces).map
    (fun piece => ⟨bufio.dropCR piece.data⟩)

/-- The record `&Filesystem{}`: every field has its zero value. -/
def emptyFilesystem : Filesystem :=
  { Name := "", Pool := "", DevicePath := "", Total := 0, Used := 0, Free := 0,
    SizeLimit := none, UUID := "" }

/-- parseDetailedOutput parses the detailed output from stratis fs list --name. -/
def parseDetailedOutput (p : Platform) (output : String) : Except GoError (Option Filesystem) :=
  let fs := (bufio.scanLines output).foldl (detailedLine p) emptyFilesystem
  if fs.Name = "" then .error (.msg "failed to parse filesystem details")
  else .ok (some fs)

end stratis

namespace demo

/-- A platform for concrete runs: `ParseFloat` as far as texts of digits and
dots go (any other text is answered as a syntax error), 0 for a float64 that
does not fit, and plain double quotes. -/
def platform : stratis.Platform :=
  { ParseFloat := fun s =>
      match strconv.ParseFloat s with
      | .ok q => .ok (.finite q)
      | .error err => .error err
    Convert := fun _ => 0
    Quote := fun s => "\"" ++ s ++ "\"" }

/-- The header of the table of `stratis fs list` in the comment of
`parseFilesystemTable`. -/
def tableHeader : String :=
  "Pool          Filesystem   Total / Used / Free / Limit       Device                          UUID"

/-- The row of the table in the comment of `parseFilesystemTable`. -/
def tableRowLine : String :=
  "podman_vols   vol1         1 GiB / 74 MiB / 950 MiB / None   /dev/stratis/podman_vols/vol1   ad719e64-ae83-4997-bf2e-787c7824be0e"

/-- The table of `stratis fs list` in the comment of `parseFilesystemTable`. -/
def tableReport : String :=
  tableHeader ++ "\n" ++ tableRowLine ++ "\n"

/-- The detailed report in the comment of `parseDetailedOutput`. -/
def detailedReport : String :=
  "UUID: 5944af0c-f520-4773-9006-edcd79a66d50\n" ++
  "Name: vol1\n" ++
  "Pool: podman_vols\n" ++
  "\n" ++
  "Device: /dev/stratis/podman_vols/vol1\n" ++
  "\n" ++
  "Created: Jan 11 2026 01:50\n" ++
  "\n" ++
  "Snapshot origin: None\n" ++
  "\n" ++
  "Sizes:\n" ++
  "\n" ++
  "\tLogical size of thin device: 1 GiB\n" ++
  "\tTotal used (including XFS metadata): 74 MiB\n" ++
  "\tFree: 950 MiB\n" ++
  "\n" ++
  "\tSize Limit: None\n"

end demo

/-! ## The detailed report, in the words of the specification -/

namespace stratis

/-- The keys of the detailed report that `parseDetailedOutput` reads. -/
inductive DetailKey where
  | UUID
  | Name
  | Pool
  | Device
  | LogicalSize
  | TotalUsed
  | Free
  | SizeLimit
  deriving DecidableEq, Repr

/-- The eight keys. -/
def DetailKey.all : List DetailKey :=
  [.UUID, .Name, .Pool, .Device, .LogicalSize, .TotalUsed, .Free, .SizeLimit]

/-- What a detailed report says about a filesystem: the four texts, the three
sizes and the size limit as a number and a unit, and the note the report
writes in parentheses after `Total used`. -/
structure Details where
  UUID : String
  Name : String
  Pool : String
  Device : String
  Total : Nat × String
  Used : Nat × String
  Free : Nat × String
  Limit : Option (Nat × String)
  usedNote : String
  deriving DecidableEq, Repr

/-- The key of a line of the report. -/
def Details.key (d : Details) : DetailKey → String
  | .UUID => "UUID"
  | .Name => "Name"
  | .Pool => "Pool"
  | .Device => "Device"
  | .LogicalSize => "Logical size of thin device"
  | .TotalUsed => "Total used" ++ d.usedNote
  | .Free => "Free"
  | .SizeLimit => "Size Limit"

/-- The value of a line of the report. -/
def Details.value (d : Details) : DetailKey → String
  | .UUID => d.UUID
  | .Name => d.Name
  | .Pool => d.Pool
  | .Device => d.Device
  | .LogicalSize => sizeText d.Total.1 d.Total.2
  | .TotalUsed => sizeText d.Used.1 d.Used.2
  | .Free => sizeText d.Free.1 d.Free.2
  | .SizeLimit => limitText d.Limit

/-- The line 'Key: value' of the report for a key, without indentation. -/
def Details.line (d : Details) (k : DetailKey) : String :=
  d.key k ++ ": " ++ d.value k

/-- Whether a value is a text of one line without white space around it. -/
def isValue (v : String) : Bool :=
  !v.data.contains '\n' && strings.TrimSpace v == v

/-- Whether the values of a report are well formed: the four texts are values,
the name is not empty, the sizes and the limit are sizes that float64 holds
exactly, and the note after `Total used` holds no colon and no newline. -/
def Details.wellFormed (d : Details) : Bool :=
  isValue d.UUID && isValue d.Name && d.Name != "" && isValue d.Pool && isValue d.Device &&
  isSize d.Total.1 d.Total.2 && isSize d.Used.1 d.Used.2 && isSize d.Free.1 d.Free.2 &&
  isLimit d.Limit && !d.usedNote.data.contains ':' && !d.usedNote.data.contains '\n'

/-- Whether a line, without the white space around it, starts with none of the
keys `parseDetailedOutput` looks for: a blank line, or a line of the report the
parser has no use for. -/
def hasNoKey (line : String) : Bool :=
  let t := strings.TrimSpace line
  !strings.HasPrefix t "UUID:" && !strings.HasPrefix t "Name:" &&
  !strings.HasPrefix t "Pool:" && !strings.HasPrefix t "Device:" &&
  !strings.HasPrefix t "Logical size of thin device:" && !strings.HasPrefix t "Total used" &&
  !strings.HasPrefix t "Free:" && !strings.HasPrefix t "Size Limit:"

/-- Whether a line is, up to the white space around it, the line of the report
for the key `k`. -/
def Details.isLine (d : Details) (k : DetailKey) (line : String) : Bool :=
  strings.TrimSpace line == strings.TrimSpace (d.line k)

/-- Whether the lines are those of a report with the details `d`: every line is
the 'Key: value' line of one of the eight keys, possibly indented, or a line
without any of the keys, and every key has its line. -/
def Details.describedBy (d : Details) (lines : List String) : Bool :=
  lines.all (fun line => hasNoKey line || DetailKey.all.any (fun k => d.isLine k line)) &&
  DetailKey.all.all (fun k => lines.any (fun line => d.isLine k line))

/-- The record of the details of a report. -/
def Details.record (d : Details) : Filesystem :=
  { Name := d.Name, Pool := d.Pool, DevicePath := d.Device,
    Total := sizeBytes d.Total.1 d.Total.2, Used := sizeBytes d.Used.1 d.Used.2,
    Free := sizeBytes d.Free.1 d.Free.2, SizeLimit := limitBytes d.Limit, UUID := d.UUID }

/-- The record after the line of the report for a key: the field of the key
holds the value of the report; the line `Size Limit: None` leaves the record as
it is. -/
def Details.set (d : Details) (k : DetailKey) (fs : Filesystem) : Filesystem :=
  match k with
  | .UUID => { fs with UUID := d.UUID }
  | .Name => { fs with Name := d.Name }
  | .Pool => { fs with Pool := d.Pool }
  | .Device => { fs with DevicePath := d.Device }
  | .LogicalSize => { fs with Total := sizeBytes d.Total.1 d.Total.2 }
  | .TotalUsed => { fs with Used := sizeBytes d.Used.1 d.Used.2 }
  | .Free => { fs with Free := sizeBytes d.Free.1 d.Free.2 }
  | .SizeLimit =>
    match limitBytes d.Limit with
    | some limit => { fs with SizeLimit := some limit }
    | none => fs

end stratis

namespace demo

/-- The details of the report in the comment of `parseDetailedOutput`. -/
def details : stratis.Details :=
  { UUID := "5944af0c-f520-4773-9006-edcd79a66d50", Name := "vol1", Pool := "podman_vols",
    Device := "/dev/stratis/podman_vols/vol1", Total := (1, "GiB"), Used := (74, "MiB"),
    Free := (950, "MiB"), Limit := none, usedNote := " (including XFS metadata)" }

end demo

namespace stratis

/-- The name a detailed report gives, as `parseDetailedOutput` reads it from the
lines: the trimmed text after `Name:` of the last line that starts with it,
white space aside; the empty string without such a line. -/
def readName (lines : List String) : String :=
  lines.foldl (fun name line =>
    if strings.HasPrefix (strings.TrimSpace line) "Name:" then
      strings.TrimSpace ⟨(strings.TrimSpace line).data.drop 5⟩
    else name) ""

/-- The record of a line after the first of the table, if the line gives one:
none for a blank line and for a line `parseFilesystemTableLine` rejects. -/
def rowRecord (p : Platform) (line : String) : Option Filesystem :=
  if strings.TrimSpace line = "" then none
  else
    match parseFilesystemTableLine p line with
    | .ok fs => some fs
    | .error _ => none

end stratis

namespace demo

/-- A line of `n` letters. -/
def longLine (n : Nat) : String := ⟨List.replicate n 'a'⟩

/-- The table of `tableReport` with a line of 64 KiB between the header and the
row. -/
def longTableReport : String :=
  tableHeader ++ "\n" ++ longLine bufio.MaxScanTokenSize ++ "\n" ++ (tableRowLine ++ "\n")

/-- A detailed report whose first line, a comment of 64 KiB, comes before the
lines of `detailedReport`. -/
def longDetailedReport : String :=
  longLine bufio.MaxScanTokenSize ++ "\n" ++ detailedReport

/-- The report of `detailedReport` with an empty name. -/
def namelessReport : String :=
  "UUID: 5944af0c-f520-4773-9006-edcd79a66d50\n" ++
  "Name: \n" ++
  "Pool: podman_vols\n" ++
  "\n" ++
  "Device: /dev/stratis/podman_vols/vol1\n" ++
  "\n" ++
  "\tLogical size of thin device: 1 GiB\n" ++
  "\tTotal used (including XFS metadata): 74 MiB\n" ++
  "\tFree: 950 MiB\n" ++
  "\n" ++
  "\tSize Limit: None\n"

end demo

namespace stratis

/-- The row of the table for the details of a filesystem, with the white space
given between its columns. -/
def Details.row (d : Details) (g1 g2 g3 g4 : Nat) : String :=
  tableRow d.Pool d.Name
    (sizeInfoText (sizeText d.Total.1 d.Total.2) (sizeText d.Used.1 d.Used.2)
      (sizeText d.Free.1 d.Free.2) (limitText d.Limit))
    d.Device d.UUID g1 g2 g3 g4

/-- Whether the details fit a row of the table: pool, name and UUID are words,
and the device is `/dev/` followed by a word. -/
def Details.fitsRow (d : Details) : Bool :=
  isWord d.Pool && isWord d.Name && isWord d.UUID &&
  "/dev/".data.isPrefixOf d.Device.data && isWord ⟨d.Device.data.drop 5⟩

/-- Whether a property map of the bus describes the filesystem of the details:
the `Name` and the `Devnode`, the `Size` and the `Used` size in bytes as decimal
strings, the second with its flag set, and the `SizeLimit` in bytes with its
flag set, or no limit with the flag not set. -/
def Details.inProps (d : Details) (props : dbus.Props) : Bool :=
  props.lookup "Name" == some (.value (.str d.Name)) &&
  props.lookup "Devnode" == some (.value (.str d.Device)) &&
  props.lookup "Size" == some (.value (.str (toString (sizeBytes d.Total.1 d.Total.2)))) &&
  props.lookup "Used"
    == some (.slice [.bool true, .str (toString (sizeBytes d.Used.1 d.Used.2))]) &&
  props.lookup "SizeLimit"
    == some (.slice
        (match limitBytes d.Limit with
          | some limit => [.bool true, .str (toString limit)]
          | none => [.bool false, .str ""]))

end stratis

namespace demo

/-- The properties of the filesystem `vol1` of the pool `podman_vols` on the bus. -/
def podmanVol1Props : dbus.Props :=
  [("Name", .value (.str "vol1")), ("Pool", .value (.objectPath poolPath)),
   ("Uuid", .value (.str "5944af0cf52047739006edcd79a66d50")),
   ("Devnode", .value (.str "/dev/stratis/podman_vols/vol1")),
   ("Size", .value (.str "1073741824")),
   ("Used", .slice [.bool true, .str "77594624"]),
   ("SizeLimit", .slice [.bool false, .str ""])]

/-- The properties of a filesystem whose used size is above its size. -/
def overusedProps : dbus.Props :=
  [("Name", .value (.str "vol1")), ("Uuid", .value (.str "uuid-1")),
   ("Devnode", .value (.str "/dev/stratis/test-pool/vol1")),
   ("Size", .value (.str "100")),
   ("Used", .slice [.bool true, .str "200"])]

/-- The details of a report whose used size is above its total size. -/
def overusedDetails : stratis.Details :=
  { details with Total := (1, "GiB"), Used := (2, "GiB"), Free := (0, "B") }

end demo

/-! ## Sizes written with a fraction -/

namespace demo

/-- A table row whose total and free sizes are written with a fraction: 2.01 GB
is 2010000000 bytes. -/
def fractionRow : String :=
  "podman_vols vol1 2.01 GB / 0 B / 2.01 GB / None /dev/stratis/podman_vols/vol1 uuid-1"

/-- The detailed report of the filesystem of `fractionRow`. -/
def fractionReport : String :=
  "UUID: uuid-1\n" ++
  "Name: vol1\n" ++
  "Pool: podman_vols\n" ++
  "Device: /dev/stratis/podman_vols/vol1\n" ++
  "\tLogical size of thin device: 2.01 GB\n" ++
  "\tTotal used (including XFS metadata): 0 B\n" ++
  "\tFree: 2.01 GB\n" ++
  "\tSize Limit: None\n"

/-- The properties of the filesystem of `fractionRow` on the bus. -/
def fractionProps : dbus.Props :=
  [("Name", .value (.str "vol1")), ("Uuid", .value (.str "uuid-1")),
   ("Devnode", .value (.str "/dev/stratis/podman_vols/vol1")),
   ("Size", .value (.str "2010000000")),
   ("Used", .slice [.bool true, .str "0"]),
   ("SizeLimit", .slice [.bool false, .str ""])]

/-- The record of the filesystem of `fractionRow` with the total and free size
`size`. -/
def fractionRecord (size : Nat) : stratis.Filesystem :=
  { Name := "vol1", Pool := "podman_vols", DevicePath := "/dev/stratis/podman_vols/vol1",
    Total := size, Used := 0, Free := size, SizeLimit := none, UUID := "uuid-1" }

/-- A table row whose total size, written with a fraction, is the used size:
1.005 KB is 1005 bytes. -/
def cutRow : String :=
  "podman_vols vol1 1.005 KB / 1005 B / 0 B / None /dev/stratis/podman_vols/vol1 uuid-1"

end demo

/-! # Theorems -/

/-! ## Name validation -/

namespace validation

/-- A list of one-byte (ASCII) characters is as long in bytes as in characters. -/
theorem utf8Len_of_ascii (cs : List Char) (h : ∀ c ∈ cs, c.val ≤ 127) :
    String.utf8Len cs = cs.length := by
  induction cs with
  | nil => rfl
  | cons c cs ih =>
    have hc : c.utf8Size = 1 := by
      have := h c (List.mem_cons_self _ _)
      simp [Char.utf8Size, this]
    simp [String.utf8Len_cons, hc, ih (fun x hx => h x (List.mem_cons_of_mem _ hx))]

theorem utf8ByteSize_eq_utf8Len (s : String) : s.utf8ByteSize = String.utf8Len s.data := by
  cases s; simp [String.utf8ByteSize]

theorem classNameChar_ascii (c : Char) (h : classNameChar c = true) : c.val ≤ 127 := by
  simp only [classNameChar, Bool.or_eq_true, Bool.and_eq_true, decide_eq_true_eq,
    beq_iff_eq] at h
  simp only [Char.le_def, UInt32.le_def] at *
  rcases h with (((((h|h)|h)|h)|h)|h)
  · have : ('z' : Char).val.val ≤ (127 : UInt32).val := by decide
    exact le_trans h.2 this
  · have : ('Z' : Char).val.val ≤ (127 : UInt32).val := by decide
    exact le_trans h.2 this
  · have : ('9' : Char).val.val ≤ (127 : UInt32).val := by decide
    exact le_trans h.2 this
  · subst h; decide
  · subst h; decide
  · subst h; decide

theorem classAlnum_imp_nameChar (c : Char) (h : classAlnum c = true) :
    classNameChar c = true := by
  simp only [classAlnum, classNameChar, Bool.or_eq_true] at *
  exact Or.inl (Or.inl (Or.inl h))

/-- A name accepted by the pattern is made of one-byte characters only. -/
theorem dockerNamePattern_bytes (s : String) (h : dockerNamePattern s = true) :
    s.utf8ByteSize = s.length := by
  rw [utf8ByteSize_eq_utf8Len, String.length]
  apply utf8Len_of_ascii
  unfold dockerNamePattern at h
  cases hd : s.data with
  | nil => rw [hd] at h; simp at h
  | cons c cs =>
    rw [hd] at h
    simp only [Bool.and_eq_true, List.all_eq_true] at h
    intro x hx
    rcases List.mem_cons.mp hx with rfl | hx
    · exact classNameChar_ascii _ (classAlnum_imp_nameChar _ h.1)
    · exact classNameChar_ascii _ (h.2 x hx)

theorem ValidateVolumeName_ok (s : String) :
    ValidateVolumeName s = .ok () ↔
      2 ≤ s.utf8ByteSize ∧ s.utf8ByteSize ≤ 65 ∧ dockerNamePattern s = true := by
  unfold ValidateVolumeName MinNameLength MaxNameLength
  by_cases h1 : s.utf8ByteSize < 2
  · simp [h1]
  · by_cases h2 : s.utf8ByteSize > 65
    · simp [h1, h2]
    · by_cases h3 : dockerNamePattern s = true
      · simp [h1, h2, h3]; omega
      · simp [h1, h2, h3]

theorem dockerNamePattern_iff (s : String) :
    dockerNamePattern s = true ↔
      ∃ c cs, s.data = c :: cs ∧
        (('a' ≤ c ∧ c ≤ 'z') ∨ ('A' ≤ c ∧ c ≤ 'Z') ∨ ('0' ≤ c ∧ c ≤ '9')) ∧
        ∀ x ∈ cs, ('a' ≤ x ∧ x ≤ 'z') ∨ ('A' ≤ x ∧ x ≤ 'Z') ∨ ('0' ≤ x ∧ x ≤ '9') ∨
          x = '_' ∨ x = '.' ∨ x = '-' := by
  unfold dockerNamePattern
  cases hd : s.data with
  | nil => simp
  | cons c cs =>
    simp only [Bool.and_eq_true, List.all_eq_true, classAlnum, classNameChar, Bool.or_eq_true,
      decide_eq_true_eq, beq_iff_eq, List.cons.injEq, or_assoc]
    constructor
    · rintro ⟨h1, h2⟩
      exact ⟨c, cs, ⟨rfl, rfl⟩, h1, h2⟩
    · rintro ⟨c', cs', ⟨rfl, rfl⟩, h1, h2⟩
      exact ⟨h1, h2⟩

/-- C1: `ValidateVolumeName s` succeeds if and only if `s` has between 2 and 65
characters, its first character is an ASCII letter or digit, and every
remaining character is an ASCII letter, a digit, an underscore, a dot or a
hyphen; the same holds with the length counted in bytes, as the code counts
it. The names "ab" and a name of 65 letters and digits are accepted; "a", "",
a name of 66 characters, "_volume", "-volume", ".volume", "my volume",
"my/volume" and "my:volume" are rejected. -/
theorem ValidateVolumeName_spec :
    (∀ s : String, ValidateVolumeName s = .ok () ↔
      (2 ≤ s.length ∧ s.length ≤ 65 ∧
        ∃ c cs, s.data = c :: cs ∧
          (('a' ≤ c ∧ c ≤ 'z') ∨ ('A' ≤ c ∧ c ≤ 'Z') ∨ ('0' ≤ c ∧ c ≤ '9')) ∧
          ∀ x ∈ cs, ('a' ≤ x ∧ x ≤ 'z') ∨ ('A' ≤ x ∧ x ≤ 'Z') ∨ ('0' ≤ x ∧ x ≤ '9') ∨
            x = '_' ∨ x = '.' ∨ x = '-')) ∧
    (∀ s : String, ValidateVolumeName s = .ok () ↔
      (2 ≤ s.utf8ByteSize ∧ s.utf8ByteSize ≤ 65 ∧
        ∃ c cs, s.data = c :: cs ∧
          (('a' ≤ c ∧ c ≤ 'z') ∨ ('A' ≤ c ∧ c ≤ 'Z') ∨ ('0' ≤ c ∧ c ≤ '9')) ∧
          ∀ x ∈ cs, ('a' ≤ x ∧ x ≤ 'z') ∨ ('A' ≤ x ∧ x ≤ 'Z') ∨ ('0' ≤ x ∧ x ≤ '9') ∨
            x = '_' ∨ x = '.' ∨ x = '-')) ∧
    ValidateVolumeName "ab" = .ok () ∧
    ValidateVolumeName
      "abcdefghijklmnopqrstuvwxyz1234567890abcdefghijklmnopqrstuvwxyz123" = .ok () ∧
    ValidateVolumeName "a" ≠ .ok () ∧
    ValidateVolumeName "" ≠ .ok () ∧
    ValidateVolumeName
      "abcdefghijklmnopqrstuvwxyz1234567890abcdefghijklmnopqrstuvwxyz1234" ≠ .ok () ∧
    ValidateVolumeName "_volume" ≠ .ok () ∧
    ValidateVolumeName "-volume" ≠ .ok () ∧
    ValidateVolumeName ".volume" ≠ .ok () ∧
    ValidateVolumeName "my volume" ≠ .ok () ∧
    ValidateVolumeName "my/volume" ≠ .ok () ∧
    ValidateVolumeName "my:volume" ≠ .ok () := by
  refine ⟨fun s => ?_, fun s => ?_, by decide, by decide, by decide, by decide, by decide,
    by decide, by decide, by decide, by decide, by decide, by decide⟩
  · rw [ValidateVolumeName_ok, ← dockerNamePattern_iff]
    constructor
    · rintro ⟨h1, h2, h3⟩
      rw [dockerNamePattern_bytes s h3] at h1 h2
      exact ⟨h1, h2, h3⟩
    · rintro ⟨h1, h2, h3⟩
      rw [← dockerNamePattern_bytes s h3] at h1 h2
      exact ⟨h1, h2, h3⟩
  · rw [ValidateVolumeName_ok, ← dockerNamePattern_iff]

end validation

/-! ## The float64 model is exact on integers below 2^53 -/

namespace strconv

theorem roundHalfEven_intCast (z : ℤ) : roundHalfEven (z : ℚ) = z := by
  simp [roundHalfEven]

/-- A natural number below 2^53 is a float64: rounding leaves it unchanged. -/
theorem roundFloat64_natCast (n : ℕ) (h : n < 2 ^ 53) : roundFloat64 (n : ℚ) = n := by
  unfold roundFloat64
  by_cases h0 : n = 0
  · subst h0; simp
  · have hpos : ¬ ((n : ℚ) ≤ 0) := by
      have : (0 : ℚ) < n := by exact_mod_cast Nat.pos_of_ne_zero h0
      exact not_le.mpr this
    rw [if_neg hpos]
    have hlog : Int.log 2 (n : ℚ) = (Nat.log 2 n : ℤ) := Int.log_natCast 2 n
    have hle : Nat.log 2 n < 53 := Nat.log_lt_of_lt_pow h0 h
    have he : max (Int.log 2 (n : ℚ)) (-1022) = (Nat.log 2 n : ℤ) := by
      rw [hlog]; omega
    simp only [he]
    obtain ⟨k, hk⟩ : ∃ k : ℕ, (Nat.log 2 n : ℤ) - 52 = -(k : ℤ) := ⟨52 - Nat.log 2 n, by omega⟩
    rw [hk, zpow_neg, zpow_natCast, div_inv_eq_mul]
    have hcast : (n : ℚ) * 2 ^ k = (((n * 2 ^ k : ℕ) : ℤ) : ℚ) := by push_cast; ring
    rw [hcast, roundHalfEven_intCast]
    push_cast
    field_simp

theorem float64ToUint64_natCast (conv : ℚ → Nat) (n : ℕ) (h : n < 2 ^ 64) :
    float64ToUint64 conv (n : ℚ) = n := by
  unfold float64ToUint64
  have : (n : ℚ) < 2 ^ 64 := by exact_mod_cast h
  rw [if_pos this]
  simp

end strconv

/-! ## Decimal digits: `%d` and `ParseFloat` agree -/

namespace strconv

theorem digitChar_facts (m : ℕ) (hm : m < 10) :
    isDigit (Nat.digitChar m) = true ∧ digitValue (Nat.digitChar m) = m := by
  interval_cases m <;> exact ⟨by decide, by decide⟩

theorem decimalValue_snoc (ds : List Char) (d : Char) :
    decimalValue (ds ++ [d]) = 10 * decimalValue ds + digitValue d := by
  simp [decimalValue, List.foldl_append]

/-- With enough fuel, `Nat.toDigitsCore 10` puts in front of the accumulator a
non-empty run of digits whose value is the number. -/
theorem toDigitsCore_run (fuel : ℕ) : ∀ (n : ℕ) (acc : List Char), n < fuel →
    ∃ ds : List Char, Nat.toDigitsCore 10 fuel n acc = ds ++ acc ∧ ds ≠ [] ∧
      (∀ c ∈ ds, isDigit c = true) ∧ decimalValue ds = n := by
  induction fuel with
  | zero => intro n acc h; omega
  | succ fuel ih =>
    intro n acc hn
    have hd := digitChar_facts (n % 10) (Nat.mod_lt _ (by decide))
    simp only [Nat.toDigitsCore]
    by_cases hq : n / 10 = 0
    · rw [if_pos hq]
      refine ⟨[Nat.digitChar (n % 10)], rfl, by simp, ?_, ?_⟩
      · intro c hc
        rw [List.mem_singleton.mp hc]; exact hd.1
      · have : decimalValue [Nat.digitChar (n % 10)] = digitValue (Nat.digitChar (n % 10)) := by
          simp [decimalValue]
        rw [this, hd.2]; omega
    · rw [if_neg hq]
      obtain ⟨ds, h1, _, h3, h4⟩ := ih (n / 10) (Nat.digitChar (n % 10) :: acc) (by omega)
      refine ⟨ds ++ [Nat.digitChar (n % 10)], by rw [h1]; simp, by simp, ?_, ?_⟩
      · intro c hc
        rcases List.mem_append.mp hc with hc | hc
        · exact h3 c hc
        · rw [List.mem_singleton.mp hc]; exact hd.1
      · rw [decimalValue_snoc, h4, hd.2]; omega

/-- The decimal representation of a number: a non-empty run of digits with the
number as value. -/
theorem toString_digits (n : ℕ) :
    (toString n).data ≠ [] ∧ (∀ c ∈ (toString n).data, isDigit c = true) ∧
      decimalValue (toString n).data = n := by
  obtain ⟨ds, h1, h2, h3, h4⟩ := toDigitsCore_run (n + 1) n [] (Nat.lt_succ_self n)
  have : (toString n).data = ds := by
    show (Nat.toDigits 10 n) = ds
    rw [Nat.toDigits, h1, List.append_nil]
  rw [this]
  exact ⟨h2, h3, h4⟩

theorem takeWhile_all {α : Type} (p : α → Bool) (l : List α) (h : ∀ x ∈ l, p x = true) :
    l.takeWhile p = l ∧ l.dropWhile p = [] := by
  induction l with
  | nil => simp
  | cons a l ih =>
    have ha := h a (List.mem_cons_self _ _)
    have := ih (fun x hx => h x (List.mem_cons_of_mem _ hx))
    simp [List.takeWhile, List.dropWhile, ha, this]

/-- A non-empty run of digits is read as its value. -/
theorem readDecimal_digits (ds : List Char) (hne : ds ≠ [])
    (hd : ∀ c ∈ ds, isDigit c = true) : readDecimal ds = some (decimalValue ds : ℚ) := by
  obtain ⟨h1, h2⟩ := takeWhile_all isDigit ds hd
  unfold readDecimal
  rw [h2, h1]
  cases ds with
  | nil => exact absurd rfl hne
  | cons a l => simp

/-- `ParseFloat` returns the number written by a run of digits when it is below 2^53. -/
theorem ParseFloat_digits (ds : List Char) (hne : ds ≠ [])
    (hd : ∀ c ∈ ds, isDigit c = true) (hlt : decimalValue ds < 2 ^ 53) :
    ParseFloat ⟨ds⟩ = .ok (decimalValue ds : ℚ) := by
  unfold ParseFloat
  rw [readDecimal_digits ds hne hd]
  simp only [roundFloat64_natCast _ hlt]
  have : ¬ (maxFloat64 < (decimalValue ds : ℚ)) := by
    have h1 : (decimalValue ds : ℚ) < 2 ^ 53 := by exact_mod_cast hlt
    have h2 : (2 : ℚ) ^ 53 ≤ maxFloat64 := by unfold maxFloat64; norm_num
    exact not_lt.mpr (le_of_lt (lt_of_lt_of_le h1 h2))
  rw [if_neg this]

end strconv

/-! ## Trimming, scanning and the unit table -/

namespace strings

theorem dropWhile_append_all {α : Type} (p : α → Bool) (ws l : List α)
    (h : ∀ x ∈ ws, p x = true) : (ws ++ l).dropWhile p = l.dropWhile p := by
  induction ws with
  | nil => rfl
  | cons a ws ih =>
    have ha := h a (List.mem_cons_self _ _)
    simp [List.dropWhile, ha, ih (fun x hx => h x (List.mem_cons_of_mem _ hx))]

theorem dropWhile_none {α : Type} (p : α → Bool) (l : List α)
    (h : ∀ x ∈ l.head?, p x = false) : l.dropWhile p = l := by
  cases l with
  | nil => rfl
  | cons a l => simp [List.dropWhile, h a (by simp)]

/-- White space around a text that neither starts nor ends with white space is
what `TrimSpace` removes. -/
theorem trimSpaceRunes_sandwich (ws1 body ws2 : List Char)
    (h1 : ∀ c ∈ ws1, isSpace c = true) (h2 : ∀ c ∈ ws2, isSpace c = true)
    (hb : ∀ c ∈ body, isSpace c = false) :
    trimSpaceRunes (ws1 ++ body ++ ws2) = body := by
  unfold trimSpaceRunes
  rw [List.append_assoc, dropWhile_append_all _ _ _ h1]
  cases body with
  | nil =>
    rw [List.nil_append, (strconv.takeWhile_all isSpace ws2 h2).2]
    rfl
  | cons b body =>
    rw [dropWhile_none isSpace (b :: body ++ ws2)]
    · rw [List.reverse_append, dropWhile_append_all _ _ _ (by simpa using h2)]
      rw [dropWhile_none isSpace (b :: body).reverse, List.reverse_reverse]
      intro x hx
      exact hb x (List.mem_reverse.mp (List.mem_of_mem_head? hx))
    · intro x hx
      simp at hx; subst hx; exact hb _ (List.mem_cons_self _ _)

theorem isDigit_not_space (c : Char) (h : strconv.isDigit c = true) : isSpace c = false := by
  simp only [strconv.isDigit, Bool.and_eq_true, decide_eq_true_eq, Char.le_def,
    UInt32.le_def] at h
  have h48 : 48 ≤ c.toNat := h.1
  have h57 : c.toNat ≤ 57 := h.2
  have hne : ∀ d : Char, d.toNat < 48 → c ≠ d := by
    intro d hd hcd; subst hcd; omega
  simp only [isSpace, Bool.or_eq_false_iff, Bool.and_eq_false_iff, beq_eq_false_iff_ne, ne_eq,
    decide_eq_false_iff_not]
  refine ⟨⟨⟨⟨⟨⟨⟨⟨⟨⟨⟨⟨⟨⟨?_, ?_⟩, ?_⟩, ?_⟩, ?_⟩, ?_⟩, ?_⟩, ?_⟩, ?_⟩, ?_⟩, ?_⟩, ?_⟩, ?_⟩, ?_⟩, ?_⟩
  all_goals first
    | exact hne _ (by decide)
    | omega

theorem toLower_eq_lower (c x : Char) (h : c.toLower = x) :
    c = x ∨ c = Char.ofNat (x.toNat - 32) := by
  unfold Char.toLower at h
  simp only at h
  split at h
  · rename_i hc
    right
    obtain ⟨k, hk⟩ : ∃ k, c.toNat = k := ⟨_, rfl⟩
    have hck : c = Char.ofNat k := by rw [← hk, Char.ofNat_toNat]
    rw [hk] at hc h
    rw [hck, ← h]
    obtain ⟨hc1, hc2⟩ := hc
    interval_cases k <;> decide
  · left; exact h

/-- A text is one of the case variants of its lower-case form. -/
theorem mem_caseVariants (l xs : List Char) (h : l.map Char.toLower = xs) :
    l ∈ caseVariants xs := by
  induction xs generalizing l with
  | nil =>
    have : l = [] := by simpa using h
    subst this; simp [caseVariants]
  | cons x xs ih =>
    cases l with
    | nil => simp at h
    | cons c l =>
      simp only [List.map_cons, List.cons.injEq] at h
      have hl := ih l h.2
      simp only [caseVariants, List.mem_flatMap, List.mem_cons, List.mem_singleton,
        List.not_mem_nil, or_false]
      refine ⟨l, hl, ?_⟩
      rcases toLower_eq_lower c x h.1 with hc | hc
      · left; rw [hc]
      · right; rw [hc]

end strings

namespace driver

theorem unitTable_facts : ∀ p ∈ unitTable,
    0 < p.2 ∧
    ∀ v ∈ strings.caseVariants (p.1.data.map Char.toLower), unitFacts v p.2 = true := by
  decide

/-- The loop of `parseSize` on a run of digits followed by a text that does not
start with a digit or a dot. -/
theorem scanSize_digits (ds u acc : List Char) (hd : ∀ c ∈ ds, strconv.isDigit c = true)
    (hu : ∀ c ∈ u.head?, (('0' ≤ c && c ≤ '9') || c == '.') = false) :
    scanSize (ds ++ u) acc = (acc ++ ds, strings.trimSpaceRunes u) := by
  induction ds generalizing acc with
  | nil =>
    cases u with
    | nil => simp [scanSize, strings.trimSpaceRunes]
    | cons c u =>
      have := hu c (by simp)
      simp [scanSize, this]
  | cons d ds ih =>
    have h1 : (('0' ≤ d && d ≤ '9') || d == '.') = true := by
      have := hd d (List.mem_cons_self _ _)
      simp only [strconv.isDigit] at this
      simp [this]
    rw [List.cons_append, scanSize, if_pos h1, ih _ (fun c hc => hd c (List.mem_cons_of_mem _ hc))]
    simp

/-- `parseSize` on a run of digits, worth less than 2^53 after multiplication,
followed by a unit with the facts of `unitFacts`, inside white space. -/
theorem parseSize_digits_unit (conv : ℚ → Nat) (ws1 ds u ws2 : List Char) (m : Nat)
    (h1 : ∀ c ∈ ws1, strings.isSpace c = true) (h2 : ∀ c ∈ ws2, strings.isSpace c = true)
    (hne : ds ≠ []) (hd : ∀ c ∈ ds, strconv.isDigit c = true)
    (hu : unitFacts u m = true) (hm : 0 < m) (hlt : strconv.decimalValue ds * m < 2 ^ 53) :
    parseSize conv ⟨ws1 ++ ds ++ u ++ ws2⟩ = .ok (strconv.decimalValue ds * m) := by
  simp only [unitFacts, Bool.and_eq_true, List.all_eq_true, Bool.not_eq_true',
    decide_eq_true_eq] at hu
  obtain ⟨⟨hu1, hu2⟩, hu3⟩ := hu
  have hbody : ∀ c ∈ ds ++ u, strings.isSpace c = false := by
    intro c hc
    rcases List.mem_append.mp hc with hc | hc
    · exact strings.isDigit_not_space c (hd c hc)
    · exact hu1 c hc
  have htrim : strings.TrimSpace ⟨ws1 ++ ds ++ u ++ ws2⟩ = ⟨ds ++ u⟩ := by
    have := strings.trimSpaceRunes_sandwich ws1 (ds ++ u) ws2 h1 h2 hbody
    simp only [strings.TrimSpace]
    rw [← this]; simp
  have hu2' : ∀ c ∈ u.head?, (('0' ≤ c && c ≤ '9') || c == '.') = false := by
    intro c hc
    cases u with
    | nil => simp at hc
    | cons a u =>
      simp only [List.head?_cons, Option.mem_def, Option.some.injEq] at hc
      subst hc
      simp only [Bool.not_eq_true'] at hu2
      exact hu2
  have hutrim : strings.trimSpaceRunes u = u := by
    have := strings.trimSpaceRunes_sandwich [] u [] (by simp) (by simp) hu1
    simpa using this
  have hs : (⟨ds ++ u⟩ : String) ≠ "" := by
    intro h
    have := congrArg String.data h
    simp at this
    exact hne this.1
  have hn : strconv.decimalValue ds < 2 ^ 53 :=
    lt_of_le_of_lt (Nat.le_mul_of_pos_right _ hm) hlt
  have hmul : strconv.mulFloat64 (strconv.decimalValue ds : ℚ) (m : ℚ)
      = ((strconv.decimalValue ds * m : ℕ) : ℚ) := by
    unfold strconv.mulFloat64
    rw [← Nat.cast_mul, strconv.roundFloat64_natCast _ hlt]
  unfold parseSize
  simp only [htrim]
  rw [if_neg hs]
  simp only [scanSize_digits ds u [] hd hu2', List.nil_append, hutrim]
  have hcond : ¬ (u = [] ∧ ds = []) := fun h => hne h.2
  rw [if_neg hcond]
  simp only [strconv.ParseFloat_digits ds hne hd hn]
  have hnonneg : ¬ ((strconv.decimalValue ds : ℚ) < 0) := not_lt.mpr (Nat.cast_nonneg _)
  rw [if_neg hnonneg]
  simp only [hu3, hmul]
  rw [strconv.float64ToUint64_natCast conv _ (lt_trans hlt (by norm_num))]

/-- C2: for every number n and every unit u of the documented table, written
in any letter case, with n times the multiplier below 2^53, `parseSize` applied
to the decimal digits of n followed by u, inside any white space, returns
exactly n times the multiplier. -/
theorem parseSize_unit_table (conv : ℚ → Nat) (n : ℕ) (u t : String) (m : ℕ)
    (ws1 ws2 : String) (ht : (t, m) ∈ unitTable)
    (hu : u.data.map Char.toLower = t.data.map Char.toLower)
    (h1 : ∀ c ∈ ws1.data, strings.isSpace c = true)
    (h2 : ∀ c ∈ ws2.data, strings.isSpace c = true)
    (hlt : n * m < 2 ^ 53) :
    parseSize conv (ws1 ++ toString n ++ u ++ ws2) = .ok (n * m) := by
  obtain ⟨hne, hd, hv⟩ := strconv.toString_digits n
  obtain ⟨hm, hfacts⟩ := unitTable_facts (t, m) ht
  have huf : unitFacts u.data m = true :=
    hfacts u.data (strings.mem_caseVariants u.data _ hu)
  have key := parseSize_digits_unit conv ws1.data (toString n).data u.data ws2.data m
    h1 h2 hne hd huf hm (by rw [hv]; exact hlt)
  rw [hv] at key
  have hs : ws1 ++ toString n ++ u ++ ws2
      = ⟨ws1.data ++ (toString n).data ++ u.data ++ ws2.data⟩ := by
    apply String.ext; simp
  rw [hs]; exact key

/-- C2, at concrete inputs: `parseSize("1GiB") = 1073741824`,
`parseSize("500MB") = 500000000`, and a lower-case unit inside white space. -/
theorem parseSize_unit_table_witness :
    parseSize (fun _ => 0) "1GiB" = .ok 1073741824 ∧
    parseSize (fun _ => 0) "500MB" = .ok 500000000 ∧
    parseSize (fun _ => 0) " 42kib\t" = .ok 43008 := by
  have e1 : ("" ++ toString 1 ++ "GiB" ++ "" : String) = "1GiB" := by decide
  have e2 : ("" ++ toString 500 ++ "MB" ++ "" : String) = "500MB" := by decide
  have e3 : (" " ++ toString 42 ++ "kib" ++ "\t" : String) = " 42kib\t" := by decide
  have w1 := parseSize_unit_table (fun _ => 0) 1 "GiB" "GiB" (1024 ^ 3) "" "" (by decide)
    (by decide) (by decide) (by decide) (by norm_num)
  have w2 := parseSize_unit_table (fun _ => 0) 500 "MB" "MB" (1000 ^ 2) "" "" (by decide)
    (by decide) (by decide) (by decide) (by norm_num)
  have w3 := parseSize_unit_table (fun _ => 0) 42 "kib" "KiB" 1024 " " "\t" (by decide)
    (by decide) (by decide) (by decide) (by norm_num)
  rw [e1] at w1
  rw [e2] at w2
  rw [e3] at w3
  exact ⟨w1, w2, w3⟩

end driver

/-! ## Errors of `parseSize` -/

namespace strings

theorem dropWhile_head_not {α : Type} (p : α → Bool) (l : List α) :
    ∀ x ∈ (l.dropWhile p).head?, p x = false := by
  induction l with
  | nil => simp
  | cons a l ih =>
    by_cases ha : p a = true
    · simpa [List.dropWhile, ha] using ih
    · simp [List.dropWhile, ha]

/-- A non-empty result of `dropWhile` on the reversed list, reversed back,
starts like the list. -/
theorem head_reverse_dropWhile_reverse {α : Type} (p : α → Bool) (l : List α) :
    ((l.reverse.dropWhile p).reverse = []) ∨
      ((l.reverse.dropWhile p).reverse).head? = l.head? := by
  obtain ⟨pre, hpre⟩ : ∃ pre, l.reverse = pre ++ l.reverse.dropWhile p :=
    ⟨l.reverse.takeWhile p, (List.takeWhile_append_dropWhile p l.reverse).symm⟩
  have hl : l = (l.reverse.dropWhile p).reverse ++ pre.reverse := by
    have := congrArg List.reverse hpre
    simpa using this
  cases hr : (l.reverse.dropWhile p).reverse with
  | nil => left; rfl
  | cons a r =>
    right
    rw [hr] at hl
    rw [hl]; simp

/-- The result of `TrimSpace` does not start with white space. -/
theorem trimSpaceRunes_head (cs : List Char) :
    ∀ x ∈ (trimSpaceRunes cs).head?, isSpace x = false := by
  unfold trimSpaceRunes
  rcases head_reverse_dropWhile_reverse isSpace (cs.dropWhile isSpace) with h | h
  · rw [h]; simp
  · rw [h]; exact dropWhile_head_not isSpace cs

/-- A text that starts with a rune that is not white space does not trim to nothing. -/
theorem trimSpaceRunes_cons_ne_nil (c : Char) (cs : List Char) (hc : isSpace c = false) :
    trimSpaceRunes (c :: cs) ≠ [] := by
  unfold trimSpaceRunes
  rw [dropWhile_none isSpace (c :: cs) (by intro x hx; simp at hx; subst hx; exact hc)]
  intro h
  have h2 : (c :: cs).reverse.dropWhile isSpace = [] := by simpa using h
  have h3 : ∀ x ∈ (c :: cs).reverse, isSpace x = true := by
    intro x hx
    by_contra hx2
    have : x ∈ (c :: cs).reverse.dropWhile isSpace := by
      have hsplit := List.takeWhile_append_dropWhile isSpace (c :: cs).reverse
      rw [h2, List.append_nil] at hsplit
      rw [← hsplit] at hx
      exact absurd (List.mem_takeWhile_imp hx) hx2
    rw [h2] at this
    simp at this
  have := h3 c (by simp)
  rw [hc] at this
  cases this

theorem trimSpaceRunes_all_space (cs : List Char) (h : ∀ c ∈ cs, isSpace c = true) :
    trimSpaceRunes cs = [] := by
  unfold trimSpaceRunes
  rw [(strconv.takeWhile_all isSpace cs h).2]
  rfl

end strings

namespace driver

/-- The loop of `parseSize` splits a string into its leading digits and dots
and the trimmed rest. -/
theorem scanSize_eq (cs acc : List Char) :
    scanSize cs acc = (acc ++ cs.takeWhile numChar,
      strings.trimSpaceRunes (cs.dropWhile numChar)) := by
  induction cs generalizing acc with
  | nil => simp [scanSize, strings.trimSpaceRunes]
  | cons c cs ih =>
    by_cases hc : (('0' ≤ c && c ≤ '9') || c == '.') = true
    · rw [scanSize, if_pos hc, ih]
      simp [List.takeWhile, List.dropWhile, numChar, hc]
    · rw [scanSize, if_neg hc]
      simp [List.takeWhile, List.dropWhile, numChar, hc]

/-- The fallback `numPart = s` of `parseSize` is never taken: a trimmed, non-empty
string without leading digit or dot has a non-empty unit part. -/
theorem scanSize_fallback_dead (s : String) (hs : strings.TrimSpace s ≠ "") :
    ¬ ((scanSize (strings.TrimSpace s).data []).2 = [] ∧
       (scanSize (strings.TrimSpace s).data []).1 = []) := by
  rintro ⟨h2, h1⟩
  rw [scanSize_eq] at h1 h2
  simp only [List.nil_append] at h1 h2
  cases ht : (strings.TrimSpace s).data with
  | nil =>
    apply hs
    apply String.ext
    rw [ht]
  | cons c cs =>
    have hsp : strings.isSpace c = false := by
      have := strings.trimSpaceRunes_head s.data c
      simp only [strings.TrimSpace] at ht
      rw [ht] at this
      exact this (by simp)
    rw [ht] at h1 h2
    have hc : numChar c = false := by
      by_contra hc
      simp [List.takeWhile, hc] at h1
    rw [List.dropWhile, hc] at h2
    exact strings.trimSpaceRunes_cons_ne_nil c cs hsp h2

/-- The statement of `parseSize` with the loop and the dead fallback resolved. -/
theorem parseSize_eq (conv : ℚ → Nat) (s : String) :
    parseSize conv s =
      if strings.TrimSpace s = "" then .error (.msg "empty size")
      else
        match strconv.ParseFloat ⟨numericPart s⟩ with
        | .error err => .error (.wrap "invalid number" err)
        | .ok num =>
          if num < 0 then .error (.msg "size cannot be negative")
          else
            match unitMultiplier (strings.ToUpper ⟨unitSuffix s⟩) with
            | none => .error (.msg ("unknown unit: " ++ strings.ToUpper ⟨unitSuffix s⟩))
            | some multiplier =>
              .ok (strconv.float64ToUint64 conv (strconv.mulFloat64 num (multiplier : ℚ))) := by
  unfold parseSize
  by_cases hs : strings.TrimSpace s = ""
  · simp [hs]
  · have hdead := scanSize_fallback_dead s hs
    simp only [hs, if_false]
    rw [if_neg hdead]
    simp only [scanSize_eq, List.nil_append, numericPart, unitSuffix]

end driver

namespace strconv

/-- A dyadic rational n / 2^k with n below 2^53 and k at most 1074 is a
float64: rounding leaves it unchanged. -/
theorem roundFloat64_dyadic (n k : ℕ) (hn : n < 2 ^ 53) (hk : k ≤ 1074) :
    roundFloat64 ((n : ℚ) / 2 ^ k) = (n : ℚ) / 2 ^ k := by
  unfold roundFloat64
  by_cases h0 : n = 0
  · subst h0; simp
  · have hnpos : (0 : ℚ) < n := by exact_mod_cast Nat.pos_of_ne_zero h0
    have hqpos : (0 : ℚ) < (n : ℚ) / 2 ^ k := div_pos hnpos (by positivity)
    rw [if_neg (not_le.mpr hqpos)]
    have hlog : Int.log 2 ((n : ℚ) / 2 ^ k) < 53 - (k : ℤ) := by
      rw [← Int.lt_zpow_iff_log_lt (by norm_num) hqpos]
      have h53 : (n : ℚ) < 2 ^ 53 := by exact_mod_cast hn
      have hz : (((2 : ℕ) : ℚ)) ^ (53 - (k : ℤ)) = 2 ^ 53 / 2 ^ k := by
        rw [zpow_sub₀ (by norm_num), zpow_natCast]
        norm_num
      rw [hz]
      exact div_lt_div_of_pos_right h53 (by positivity)
    obtain ⟨j, hj⟩ : ∃ j : ℕ,
        max (Int.log 2 ((n : ℚ) / 2 ^ k)) (-1022) - 52 = -((k : ℤ) + j) := by
      refine ⟨(52 - (k : ℤ) - max (Int.log 2 ((n : ℚ) / 2 ^ k)) (-1022)).toNat, ?_⟩
      rw [Int.toNat_of_nonneg (by omega)]
      ring
    simp only [hj]
    rw [zpow_neg, div_inv_eq_mul]
    have hpow : (2 : ℚ) ^ ((k : ℤ) + (j : ℤ)) = 2 ^ k * 2 ^ j := by
      rw [zpow_add₀ (by norm_num), zpow_natCast, zpow_natCast]
    rw [hpow]
    have hcast : (n : ℚ) / 2 ^ k * (2 ^ k * 2 ^ j) = (((n * 2 ^ j : ℕ) : ℤ) : ℚ) := by
      push_cast; field_simp; ring
    rw [hcast, roundHalfEven_intCast]
    push_cast
    field_simp
    ring

end strconv

namespace driver

/-- C3, as stated, fails: ".5GiB" has no leading digit (its first character is
a dot), and `parseSize` returns 536870912 for it, not an error. -/
theorem parseSize_leading_dot :
    ".5GiB".data.head? = some '.' ∧ strconv.isDigit '.' = false ∧
    parseSize (fun _ => 0) ".5GiB" = .ok 536870912 := by
  refine ⟨by decide, by decide, ?_⟩
  rw [parseSize_eq]
  have h1 : strings.TrimSpace ".5GiB" ≠ "" := by decide
  have h2 : numericPart ".5GiB" = ['.', '5'] := by decide
  have h3 : strings.ToUpper ⟨unitSuffix ".5GiB"⟩ = "GIB" := by decide
  have t1 : List.takeWhile strconv.isDigit ['.', '5'] = [] := by decide
  have t2 : List.dropWhile strconv.isDigit ['.', '5'] = ['.', '5'] := by decide
  have t3 : (('.' : Char) == '.' && ['5'].all strconv.isDigit &&
      !(([] : List Char).isEmpty && ['5'].isEmpty)) = true := by decide
  have t4 : strconv.decimalValue ([] ++ ['5']) = 5 := by decide
  have h4 : strconv.readDecimal ['.', '5'] = some (((1 : ℕ) : ℚ) / 2 ^ 1) := by
    unfold strconv.readDecimal
    simp only [t1, t2, t3, t4, if_true]
    norm_num
  have h5 : strconv.ParseFloat ⟨['.', '5']⟩ = .ok (((1 : ℕ) : ℚ) / 2 ^ 1) := by
    unfold strconv.ParseFloat
    simp only [h4, strconv.roundFloat64_dyadic 1 1 (by norm_num) (by norm_num)]
    rw [if_neg]
    unfold strconv.maxFloat64
    norm_num
  have h6 : unitMultiplier "GIB" = some (1024 * 1024 * 1024) := by decide
  have h7 : strconv.mulFloat64 (((1 : ℕ) : ℚ) / 2 ^ 1) ((1024 * 1024 * 1024 : ℕ) : ℚ)
      = ((536870912 : ℕ) : ℚ) := by
    unfold strconv.mulFloat64
    rw [← strconv.roundFloat64_natCast 536870912 (by norm_num)]
    congr 1
    norm_num
  rw [if_neg h1, h2, h3]
  simp only [h5, h6, h7]
  rw [if_neg (by norm_num), strconv.float64ToUint64_natCast _ _ (by norm_num)]

end driver

namespace strconv

/-- A text without any digit is not a number for `ParseFloat`. -/
theorem readDecimal_no_digit (l : List Char) (h : ∀ c ∈ l, isDigit c = false) :
    readDecimal l = none := by
  unfold readDecimal
  cases l with
  | nil => simp
  | cons a l =>
    have ha := h a (List.mem_cons_self _ _)
    simp only [List.takeWhile, List.dropWhile, ha]
    cases l with
    | nil => simp
    | cons b l =>
      have hb := h b (List.mem_cons_of_mem _ (List.mem_cons_self _ _))
      simp [hb]

end strconv

namespace driver

theorem unitTable_upper :
    unitTable.map (fun p => strings.ToUpper p.1) =
      ["", "B", "K", "KB", "KI", "KIB", "M", "MB", "MI", "MIB", "G", "GB", "GI", "GIB",
       "T", "TB", "TI", "TIB"] := by
  decide

/-- The `switch` of `parseSize` has no multiplier for a text outside the unit table. -/
theorem unitMultiplier_none (x : String)
    (h : x ∉ unitTable.map (fun p => strings.ToUpper p.1)) : unitMultiplier x = none := by
  rw [unitTable_upper] at h
  simp only [List.mem_cons, List.mem_singleton, List.not_mem_nil, or_false, not_or] at h
  unfold unitMultiplier
  simp [h]

/-- C3 (amended): `parseSize` returns an error, and no value, for every input that
is empty or white space only, for every input that starts with a minus sign
after trimming, for every input whose numeric prefix (the leading digits and
dots of the trimmed input) contains no digit, and for every input whose unit
suffix (the trimmed rest), upper-cased as `strings.ToUpper` does, is not one of
the documented units. -/
theorem parseSize_errors (conv : ℚ → Nat) (s : String) :
    ((∀ c ∈ s.data, strings.isSpace c = true) → ∃ e, parseSize conv s = .error e) ∧
    ((strings.TrimSpace s).data.head? = some '-' → ∃ e, parseSize conv s = .error e) ∧
    ((∀ c ∈ numericPart s, strconv.isDigit c = false) →
      ∃ e, parseSize conv s = .error e) ∧
    (strings.ToUpper ⟨unitSuffix s⟩ ∉ unitTable.map (fun p => strings.ToUpper p.1) →
      ∃ e, parseSize conv s = .error e) := by
  have hnum : (∀ c ∈ numericPart s, strconv.isDigit c = false) →
      ∃ e, parseSize conv s = .error e := by
    intro h
    rw [parseSize_eq]
    by_cases hs : strings.TrimSpace s = ""
    · exact ⟨_, if_pos hs⟩
    · rw [if_neg hs]
      have : strconv.ParseFloat ⟨numericPart s⟩
          = .error (.msg "strconv.ParseFloat: invalid syntax") := by
        unfold strconv.ParseFloat
        rw [strconv.readDecimal_no_digit _ h]
      rw [this]
      exact ⟨_, rfl⟩
  refine ⟨?_, ?_, hnum, ?_⟩
  · intro h
    rw [parseSize_eq]
    have hs : strings.TrimSpace s = "" := by
      apply String.ext
      exact strings.trimSpaceRunes_all_space s.data h
    exact ⟨_, if_pos hs⟩
  · intro h
    apply hnum
    have : numericPart s = [] := by
      unfold numericPart
      cases ht : (strings.TrimSpace s).data with
      | nil => rfl
      | cons a l =>
        rw [ht] at h
        simp only [List.head?_cons, Option.some.injEq] at h
        subst h
        rfl
    rw [this]
    simp
  · intro h
    rw [parseSize_eq]
    by_cases hs : strings.TrimSpace s = ""
    · exact ⟨_, if_pos hs⟩
    · rw [if_neg hs]
      cases hp : strconv.ParseFloat ⟨numericPart s⟩ with
      | error err => exact ⟨_, rfl⟩
      | ok num =>
        by_cases hneg : num < 0
        · exact ⟨_, if_pos hneg⟩
        · simp only [if_neg hneg, unitMultiplier_none _ h]
          exact ⟨_, rfl⟩

/-- C3 (amended), at concrete inputs: a blank input, "-5", "GiB", "10PiB" and
"10XB" are errors. -/
theorem parseSize_errors_witness :
    (∃ e, parseSize (fun _ => 0) " \t" = .error e) ∧
    (∃ e, parseSize (fun _ => 0) "-5" = .error e) ∧
    (∃ e, parseSize (fun _ => 0) "GiB" = .error e) ∧
    (∃ e, parseSize (fun _ => 0) "10PiB" = .error e) ∧
    (∃ e, parseSize (fun _ => 0) "10XB" = .error e) :=
  ⟨(parseSize_errors (fun _ => 0) " \t").1 (by decide),
   (parseSize_errors (fun _ => 0) "-5").2.1 (by decide),
   (parseSize_errors (fun _ => 0) "GiB").2.2.1 (by decide),
   (parseSize_errors (fun _ => 0) "10PiB").2.2.2 (by decide),
   (parseSize_errors (fun _ => 0) "10XB").2.2.2 (by decide)⟩

/-- The upper case of the dotless i (U+0131) is the ASCII letter I, so a unit
spelled with it is read as the unit spelled with i. -/
theorem unitMultiplier_dotless_i :
    unitMultiplier (strings.ToUpper ⟨['K', Char.ofNat 0x131, 'b']⟩) = some 1024 := by
  decide

end driver

/-! ## Formatting sizes -/

namespace stratis

theorem formatSize_gib (b : ℕ) (h0 : 0 < b) (h : b % 1024 ^ 3 = 0) :
    formatSize b = toString (b / 1024 ^ 3) ++ "GiB" := by
  unfold formatSize
  have : b ≥ 1024 * 1024 * 1024 ∧ b % (1024 * 1024 * 1024) = 0 := by
    constructor <;> omega
  simp only [this, and_self, if_true]
  rfl

theorem formatSize_bytes (b : ℕ) (h : b = 0 ∨ b % 1024 ≠ 0) :
    formatSize b = toString b ++ "B" := by
  unfold formatSize
  have h1 : ¬ (b ≥ 1024 * 1024 * 1024 ∧ b % (1024 * 1024 * 1024) = 0) := by omega
  have h2 : ¬ (b ≥ 1024 * 1024 ∧ b % (1024 * 1024) = 0) := by omega
  have h3 : ¬ (b ≥ 1024 ∧ b % 1024 = 0) := by omega
  simp only [h1, h2, h3, if_false]

/-- C4, as stated, fails: one TiB is a multiple of TiB, and `formatSize` writes it
in GiB, not as "1TiB"; zero is a multiple of every unit and is written "0B". -/
theorem formatSize_no_tib :
    formatSize (1024 ^ 4) = "1024GiB" ∧
    formatSize (1024 ^ 4) ≠ toString (1024 ^ 4 / 1024 ^ 4) ++ "TiB" ∧
    formatSize 0 = "0B" := by
  decide

/-- C4 (amended): for every positive byte count b, `formatSize b` is the decimal
quotient b/u followed by the unit name, where u is the largest of GiB (1024^3),
MiB (1024^2) and KiB (1024) that divides b with zero remainder; it is the
decimal b followed by "B" when none of them divides b, and when b is 0. -/
theorem formatSize_spec (b : ℕ) :
    (0 < b → 1024 ^ 3 ∣ b → formatSize b = toString (b / 1024 ^ 3) ++ "GiB") ∧
    (0 < b → 1024 ^ 2 ∣ b → ¬ 1024 ^ 3 ∣ b →
      formatSize b = toString (b / 1024 ^ 2) ++ "MiB") ∧
    (0 < b → 1024 ∣ b → ¬ 1024 ^ 2 ∣ b → formatSize b = toString (b / 1024) ++ "KiB") ∧
    (¬ 1024 ∣ b → formatSize b = toString b ++ "B") ∧
    (b = 0 → formatSize b = "0B") := by
  refine ⟨?_, ?_, ?_, ?_, ?_⟩
  · intro h0 h
    exact formatSize_gib b h0 (Nat.mod_eq_zero_of_dvd h)
  · intro h0 h hn
    have h' := Nat.mod_eq_zero_of_dvd h
    have hn' : b % 1024 ^ 3 ≠ 0 := fun e => hn (Nat.dvd_of_mod_eq_zero e)
    unfold formatSize
    have h1 : ¬ (b ≥ 1024 * 1024 * 1024 ∧ b % (1024 * 1024 * 1024) = 0) := by omega
    have h2 : b ≥ 1024 * 1024 ∧ b % (1024 * 1024) = 0 := by constructor <;> omega
    simp only [h1, h2, and_self, if_true, if_false]
    rfl
  · intro h0 h hn
    have h' := Nat.mod_eq_zero_of_dvd h
    have hn' : b % 1024 ^ 2 ≠ 0 := fun e => hn (Nat.dvd_of_mod_eq_zero e)
    unfold formatSize
    have h1 : ¬ (b ≥ 1024 * 1024 * 1024 ∧ b % (1024 * 1024 * 1024) = 0) := by omega
    have h2 : ¬ (b ≥ 1024 * 1024 ∧ b % (1024 * 1024) = 0) := by omega
    have h3 : b ≥ 1024 ∧ b % 1024 = 0 := by constructor <;> omega
    simp only [h1, h2, h3, and_self, if_true, if_false]
  · intro hn
    have hn' : b % 1024 ≠ 0 := fun e => hn (Nat.dvd_of_mod_eq_zero e)
    exact formatSize_bytes b (Or.inr hn')
  · intro h
    subst h
    decide

/-- C4 (amended), at concrete inputs: 3 GiB, 5 MiB, 7 KiB and 1000 bytes. -/
theorem formatSize_spec_witness :
    formatSize 3221225472 = "3GiB" ∧ formatSize 5242880 = "5MiB" ∧
    formatSize 7168 = "7KiB" ∧ formatSize 1000 = "1000B" := by
  have w1 := (formatSize_spec 3221225472).1 (by norm_num) (by norm_num)
  have w2 := (formatSize_spec 5242880).2.1 (by norm_num) (by norm_num) (by norm_num)
  have w3 := (formatSize_spec 7168).2.2.1 (by norm_num) (by norm_num) (by norm_num)
  have w4 := (formatSize_spec 1000).2.2.2.1 (by norm_num)
  have e1 : toString (3221225472 / 1024 ^ 3) ++ "GiB" = "3GiB" := by decide
  have e2 : toString (5242880 / 1024 ^ 2) ++ "MiB" = "5MiB" := by decide
  have e3 : toString (7168 / 1024) ++ "KiB" = "7KiB" := by decide
  have e4 : toString 1000 ++ "B" = "1000B" := by decide
  rw [e1] at w1
  rw [e2] at w2
  rw [e3] at w3
  rw [e4] at w4
  exact ⟨w1, w2, w3, w4⟩

/-- C6: for every byte count b that is not a multiple of 1024, `formatSize b` is
exactly the decimal representation of b followed by "B". -/
theorem formatSize_unaligned (b : ℕ) (h : ¬ 1024 ∣ b) : formatSize b = toString b ++ "B" := by
  have hn : b % 1024 ≠ 0 := fun e => h (Nat.dvd_of_mod_eq_zero e)
  exact formatSize_bytes b (Or.inr hn)

/-- C6, at a concrete input: 1536 bytes, a multiple of 512 only. -/
theorem formatSize_unaligned_witness : formatSize 1536 = "1536B" := by
  have w := formatSize_unaligned 1536 (by norm_num)
  have e : toString 1536 ++ "B" = "1536B" := by decide
  rw [e] at w
  exact w

end stratis

/-! ## Formatting after parsing -/

namespace driver

/-- C5: for every n with 1 ≤ n < 2^23, `formatSize (parseSize (n GiB))` is the
decimal n followed by "GiB". -/
theorem formatSize_parseSize_gib (conv : ℚ → Nat) (n : ℕ) (h1 : 1 ≤ n) (h2 : n < 2 ^ 23) :
    (parseSize conv (toString n ++ "GiB")).map stratis.formatSize
      = .ok (toString n ++ "GiB") := by
  obtain ⟨hne, hd, hv⟩ := strconv.toString_digits n
  have key := parseSize_digits_unit conv [] (toString n).data "GiB".data [] (1024 ^ 3)
    (by simp) (by simp) hne hd (by decide) (by norm_num) (by rw [hv]; omega)
  rw [hv] at key
  have hs : toString n ++ "GiB" = ⟨[] ++ (toString n).data ++ "GiB".data ++ []⟩ := by
    apply String.ext; simp
  rw [hs, key]
  show Except.ok (stratis.formatSize (n * 1024 ^ 3)) = _
  rw [stratis.formatSize_gib _ (by omega) (by omega), Nat.mul_div_cancel _ (by norm_num)]
  exact congrArg _ hs

/-- C5, at concrete inputs: `formatSize(parseSize("1GiB")) = "1GiB"`, and the
largest n covered. -/
theorem formatSize_parseSize_gib_witness :
    (parseSize (fun _ => 0) "1GiB").map stratis.formatSize = .ok "1GiB" ∧
    (parseSize (fun _ => 0) "8388607GiB").map stratis.formatSize = .ok "8388607GiB" := by
  have w1 := formatSize_parseSize_gib (fun _ => 0) 1 (by norm_num) (by norm_num)
  have w2 := formatSize_parseSize_gib (fun _ => 0) 8388607 (by norm_num) (by norm_num)
  have e1 : toString 1 ++ "GiB" = "1GiB" := by decide
  have e2 : toString 8388607 ++ "GiB" = "8388607GiB" := by decide
  rw [e1] at w1
  rw [e2] at w2
  exact ⟨w1, w2⟩

end driver

/-! ## Mount, Unmount and Remove -/

namespace driver

variable {σ : Type}

theorem bind_apply {α β : Type} (m : M σ α) (f : α → M σ β) (s : σ) (t : List Call) :
    (m >>= f) s t = f (m s t).1 (m s t).2.1 (m s t).2.2 := rfl

theorem pure_apply {α : Type} (a : α) (s : σ) (t : List Call) :
    (pure a : M σ α) s t = (a, s, t) := rfl

theorem call_apply {α : Type} (c : Call) (h : σ → α × σ) (s : σ) (t : List Call) :
    call c h s t = ((h s).1, (h s).2, t ++ [c]) := rfl

/-- C7: Mount is idempotent. If `GetByName` succeeds and the mounter reports the
device of the filesystem mounted at the canonical path (the base mount
directory joined with the name; the empty path is the answer for a device that
is not mounted), then `Mount` returns the canonical path with no error, whatever
the client ID, and makes no other call than these two: no mount, and no
preparation of the mount point directory. -/
theorem Mount_idempotent (d : Driver σ) (name id : String) (s s1 s2 : σ)
    (fs : stratis.Filesystem)
    (hget : d.stratis.GetByName name s = (.ok (some fs), s1))
    (hmp : d.mounter.GetMountPoint fs.DevicePath s1 = ((d.mountPointPath name, none), s2))
    (hne : d.mountPointPath name ≠ "") :
    d.Mount name id s [] =
      (.ok (d.mountPointPath name), s2, [.getByName name, .getMountPoint fs.DevicePath]) := by
  simp [Driver.Mount, bind_apply, pure_apply, call_apply, hget, hmp, hne]

/-- C7, in the small world: after a first mount of `vol1` from the empty mount
table, a mount by another client returns the same mount point and makes no
other call than the two lookups. -/
theorem Mount_idempotent_witness :
    (demo.driver.Mount "vol1" "client-1" [] []).1 = .ok "/mnt/vol1" ∧
    demo.driver.Mount "vol1" "client-2" (demo.driver.Mount "vol1" "client-1" [] []).2.1 [] =
      (.ok (demo.driver.mountPointPath "vol1"), demo.mountedCanonical,
        [.getByName "vol1", .getMountPoint demo.vol1.DevicePath]) :=
  ⟨by decide,
   Mount_idempotent demo.driver "vol1" "client-2"
     (demo.driver.Mount "vol1" "client-1" [] []).2.1 demo.mountedCanonical
     demo.mountedCanonical demo.vol1 (by decide) (by decide) (by decide)⟩

/-- C8: for an existing volume whose device the mounter reports mounted at a
path other than the canonical mount point, `Mount` and `Unmount` both fail with
the conflict error that names the two paths, and make no other call than the
two lookups: no mount, no unmount, no creation or removal of a directory. -/
theorem Mount_Unmount_conflict (d : Driver σ) (name id existingMount : String)
    (s s1 s2 : σ) (fs : stratis.Filesystem)
    (hget : d.stratis.GetByName name s = (.ok (some fs), s1))
    (hmp : d.mounter.GetMountPoint fs.DevicePath s1 = ((existingMount, none), s2))
    (hne : existingMount ≠ "") (hdiff : existingMount ≠ d.mountPointPath name) :
    d.Mount name id s [] =
      (.error (.msg ("volume " ++ name ++ " is mounted at " ++ existingMount ++
          " instead of " ++ d.mountPointPath name)), s2,
        [.getByName name, .getMountPoint fs.DevicePath]) ∧
    d.Unmount name id s [] =
      (.error (.msg ("volume " ++ name ++ " is mounted at " ++ existingMount ++
          " instead of expected " ++ d.mountPointPath name)), s2,
        [.getByName name, .getMountPoint fs.DevicePath]) := by
  constructor
  · simp [Driver.Mount, bind_apply, pure_apply, call_apply, hget, hmp, hne, hdiff]
  · simp [Driver.Unmount, bind_apply, pure_apply, call_apply, hget, hmp, hne, hdiff]

/-- C8, in the small world: `vol1` mounted at `/media/vol1`. -/
theorem Mount_Unmount_conflict_witness :
    demo.driver.Mount "vol1" "client-1" demo.mountedElsewhere [] =
      (.error (.msg ("volume " ++ "vol1" ++ " is mounted at " ++ "/media/vol1" ++
          " instead of " ++ demo.driver.mountPointPath "vol1")), demo.mountedElsewhere,
        [.getByName "vol1", .getMountPoint demo.vol1.DevicePath]) ∧
    demo.driver.Unmount "vol1" "client-1" demo.mountedElsewhere [] =
      (.error (.msg ("volume " ++ "vol1" ++ " is mounted at " ++ "/media/vol1" ++
          " instead of expected " ++ demo.driver.mountPointPath "vol1")),
        demo.mountedElsewhere,
        [.getByName "vol1", .getMountPoint demo.vol1.DevicePath]) :=
  Mount_Unmount_conflict demo.driver "vol1" "client-1" "/media/vol1" demo.mountedElsewhere
    demo.mountedElsewhere demo.mountedElsewhere demo.vol1 (by decide) (by decide)
    (by decide) (by decide)

/-- C9: Unmount is idempotent. For an existing volume whose device is not
mounted anywhere (the lookup returns the empty path), `Unmount` returns success,
whatever the client ID, and makes no other call than the two lookups: no
unmount and no removal of a directory. -/
theorem Unmount_not_mounted (d : Driver σ) (name id : String) (s s1 s2 : σ)
    (fs : stratis.Filesystem)
    (hget : d.stratis.GetByName name s = (.ok (some fs), s1))
    (hmp : d.mounter.GetMountPoint fs.DevicePath s1 = (("", none), s2)) :
    d.Unmount name id s [] =
      (.ok (), s2, [.getByName name, .getMountPoint fs.DevicePath]) := by
  simp [Driver.Unmount, bind_apply, pure_apply, call_apply, hget, hmp]

/-- C9, in the small world: `vol1` with an empty mount table. -/
theorem Unmount_not_mounted_witness :
    demo.driver.Unmount "vol1" "client-1" [] [] =
      (.ok (), [], [.getByName "vol1", .getMountPoint demo.vol1.DevicePath]) :=
  Unmount_not_mounted demo.driver "vol1" "client-1" [] [] [] demo.vol1 (by decide) (by decide)

/-- C10: for an existing volume with something mounted at its canonical mount
point (the question `Remove` asks the mounter), `Remove` unmounts the canonical
mount point first. If the unmount succeeds, it goes on with the removal of the
mount point directory and then the delete of the filesystem in the backend, in
this order, whether the removal of the directory succeeds or not, and returns
what the delete returns. If the unmount fails, `Remove` returns an error and
makes no further call: no delete. -/
theorem Remove_mounted (d : Driver σ) (name : String) (s s1 s2 : σ)
    (fs : stratis.Filesystem)
    (hget : d.stratis.GetByName name s = (.ok (some fs), s1))
    (hmounted : d.mounter.IsMounted (d.mountPointPath name) s1 = (.ok true, s2)) :
    (∀ (s3 s4 s5 : σ) (rmErr delErr : Option GoError),
      d.mounter.Unmount (d.mountPointPath name) s2 = (none, s3) →
      d.os.RemoveAll (d.mountPointPath name) s3 = (rmErr, s4) →
      d.stratis.Delete fs.Name s4 = (delErr, s5) →
      d.Remove name s [] =
        ((match delErr with
          | none => .ok ()
          | some err => .error (.wrap "delete filesystem" err)), s5,
          [.getByName name, .isMounted (d.mountPointPath name),
           .unmount (d.mountPointPath name), .removeAll (d.mountPointPath name),
           .delete fs.Name])) ∧
    (∀ (s3 : σ) (err : GoError),
      d.mounter.Unmount (d.mountPointPath name) s2 = (some err, s3) →
      d.Remove name s [] =
        (.error (.wrap "unmount" err), s3,
          [.getByName name, .isMounted (d.mountPointPath name),
           .unmount (d.mountPointPath name)])) := by
  constructor
  · intro s3 s4 s5 rmErr delErr hun hrm hdel
    cases delErr <;>
      simp [Driver.Remove, bind_apply, pure_apply, call_apply, hget, hmounted, hun, hrm, hdel]
  · intro s3 err hun
    simp [Driver.Remove, bind_apply, pure_apply, call_apply, hget, hmounted, hun]

/-- C10, in the small world: `vol1` mounted at `/mnt/vol1` is unmounted, its
directory removal fails, and the filesystem is deleted all the same; with the
mounter whose unmount fails, `Remove` stops at the unmount. -/
theorem Remove_mounted_witness :
    demo.driver.Remove "vol1" demo.mountedCanonical [] =
      (.ok (), [],
        [.getByName "vol1", .isMounted (demo.driver.mountPointPath "vol1"),
         .unmount (demo.driver.mountPointPath "vol1"),
         .removeAll (demo.driver.mountPointPath "vol1"), .delete demo.vol1.Name]) ∧
    demo.busyDriver.Remove "vol1" demo.mountedCanonical [] =
      (.error (.wrap "unmount" (.msg "device or resource busy")), demo.mountedCanonical,
        [.getByName "vol1", .isMounted (demo.busyDriver.mountPointPath "vol1"),
         .unmount (demo.busyDriver.mountPointPath "vol1")]) :=
  ⟨(Remove_mounted demo.driver "vol1" demo.mountedCanonical demo.mountedCanonical
      demo.mountedCanonical demo.vol1 (by decide) (by decide)).1 [] [] []
      (some (.msg "permission denied")) none (by decide) (by decide) (by decide),
   (Remove_mounted demo.busyDriver "vol1" demo.mountedCanonical demo.mountedCanonical
      demo.mountedCanonical demo.vol1 (by decide) (by decide)).2 demo.mountedCanonical
      (.msg "device or resource busy") (by decide)⟩

end driver

/-! ## Volumes that do not exist -/

namespace driver

variable {σ : Type}

/-- C11: whenever `GetByName` reports NotFound for the requested name (an error
that is, or wraps, `ErrNotFound`), each of `Remove`, `Mount`, `Unmount`, `Path`
and `Get` returns the error "volume NAME not found" and makes no other call
than this lookup: no mount, no unmount, no delete in the backend, and no
operation on a directory. -/
theorem notFound_no_effect (d : Driver σ) (name id : String) (s s1 : σ) (err : GoError)
    (hget : d.stratis.GetByName name s = (.error err, s1))
    (hnf : err.isNotFound = true) :
    d.Remove name s [] =
      (.error (.msg ("volume " ++ name ++ " not found")), s1, [.getByName name]) ∧
    d.Mount name id s [] =
      (.error (.msg ("volume " ++ name ++ " not found")), s1, [.getByName name]) ∧
    d.Unmount name id s [] =
      (.error (.msg ("volume " ++ name ++ " not found")), s1, [.getByName name]) ∧
    d.Path name s [] =
      (.error (.msg ("volume " ++ name ++ " not found")), s1, [.getByName name]) ∧
    d.Get name s [] =
      (.error (.msg ("volume " ++ name ++ " not found")), s1, [.getByName name]) := by
  refine ⟨?_, ?_, ?_, ?_, ?_⟩
  · simp [Driver.Remove, bind_apply, pure_apply, call_apply, hget, hnf]
  · simp [Driver.Mount, bind_apply, pure_apply, call_apply, hget, hnf]
  · simp [Driver.Unmount, bind_apply, pure_apply, call_apply, hget, hnf]
  · simp [Driver.Path, bind_apply, pure_apply, call_apply, hget, hnf]
  · simp [Driver.Get, bind_apply, pure_apply, call_apply, hget, hnf]

/-- C11, in the small world: the volume `ghost` does not exist. -/
theorem notFound_no_effect_witness :
    demo.driver.Remove "ghost" demo.mountedCanonical [] =
      (.error (.msg ("volume " ++ "ghost" ++ " not found")), demo.mountedCanonical,
        [.getByName "ghost"]) ∧
    demo.driver.Mount "ghost" "client-1" demo.mountedCanonical [] =
      (.error (.msg ("volume " ++ "ghost" ++ " not found")), demo.mountedCanonical,
        [.getByName "ghost"]) ∧
    demo.driver.Unmount "ghost" "client-1" demo.mountedCanonical [] =
      (.error (.msg ("volume " ++ "ghost" ++ " not found")), demo.mountedCanonical,
        [.getByName "ghost"]) ∧
    demo.driver.Path "ghost" demo.mountedCanonical [] =
      (.error (.msg ("volume " ++ "ghost" ++ " not found")), demo.mountedCanonical,
        [.getByName "ghost"]) ∧
    demo.driver.Get "ghost" demo.mountedCanonical [] =
      (.error (.msg ("volume " ++ "ghost" ++ " not found")), demo.mountedCanonical,
        [.getByName "ghost"]) :=
  notFound_no_effect demo.driver "ghost" "client-1" demo.mountedCanonical
    demo.mountedCanonical .errNotFound (by decide) (by decide)

/-! ## Create -/

/-- C12: a create request whose name fails `ValidateVolumeName` is answered with
the error of the validation, and a request whose non-empty "size" option fails
`parseSize` is answered with an error (the one of `parseSize`, wrapped, when the
name is valid); in both cases `Create` makes no call at all, so neither
`GetByName` nor `Create` of the manager is called, and the world is unchanged. -/
theorem Create_invalid_no_backend (d : Driver σ) (conv : ℚ → Nat) (name : String)
    (options : List (String × String)) (s : σ) :
    (∀ err, validation.ValidateVolumeName name = .error err →
      d.Create conv name options s [] = (.error err, s, [])) ∧
    (∀ err, optionValue options "size" ≠ "" →
      parseSize conv (optionValue options "size") = .error err →
      (∃ e, d.Create conv name options s [] = (.error e, s, [])) ∧
      (validation.ValidateVolumeName name = .ok () →
        d.Create conv name options s [] =
          (.error (.wrap ("invalid size \"" ++ optionValue options "size" ++ "\"") err),
            s, []))) := by
  constructor
  · intro err hv
    simp [Driver.Create, pure_apply, hv]
  · intro err hne hp
    have hvalid : validation.ValidateVolumeName name = .ok () →
        d.Create conv name options s [] =
          (.error (.wrap ("invalid size \"" ++ optionValue options "size" ++ "\"") err),
            s, []) := by
      intro hv
      simp [Driver.Create, pure_apply, hv, hne, hp]
    refine ⟨?_, hvalid⟩
    cases hv : validation.ValidateVolumeName name with
    | error e => exact ⟨e, by simp [Driver.Create, pure_apply, hv]⟩
    | ok u => exact ⟨_, hvalid hv⟩

/-- The size "10PiB" has an unknown unit. -/
theorem parseSize_10PiB (conv : ℚ → Nat) :
    parseSize conv "10PiB" = .error (.msg "unknown unit: PIB") := by
  rw [parseSize_eq]
  have h1 : strings.TrimSpace "10PiB" ≠ "" := by decide
  have h2 : numericPart "10PiB" = ['1', '0'] := by decide
  have h3 : strings.ToUpper ⟨unitSuffix "10PiB"⟩ = "PIB" := by decide
  have h4 : unitMultiplier "PIB" = none := by decide
  have h5 : strconv.ParseFloat ⟨['1', '0']⟩ = .ok ((strconv.decimalValue ['1', '0'] : ℕ) : ℚ) :=
    strconv.ParseFloat_digits ['1', '0'] (by decide) (by decide) (by decide)
  rw [if_neg h1, h2, h3]
  simp only [h5, h4]
  rw [if_neg (not_lt.mpr (Nat.cast_nonneg _))]
  rfl

/-- C12, in the small world: the name "a" is too short, and "10PiB" is no size. -/
theorem Create_invalid_no_backend_witness :
    demo.driver.Create (fun _ => 0) "a" [] [] [] =
      (.error (.msg "volume name must be at least 2 characters"), [], []) ∧
    demo.driver.Create (fun _ => 0) "vol2" [("size", "10PiB")] [] [] =
      (.error (.wrap ("invalid size \"" ++ optionValue [("size", "10PiB")] "size" ++ "\"")
          (.msg "unknown unit: PIB")), [], []) :=
  ⟨(Create_invalid_no_backend demo.driver (fun _ => 0) "a" [] []).1 _ (by decide),
   ((Create_invalid_no_backend demo.driver (fun _ => 0) "vol2" [("size", "10PiB")] []).2
      (.msg "unknown unit: PIB") (by decide) (parseSize_10PiB _)).2 (by decide)⟩

end driver

namespace driver

variable {σ : Type}

/-! ## Path, Get and List -/

/-- C14: for an existing volume, `Path` returns the canonical mount point if and
only if the mounter reports, without error, the device of the filesystem mounted
at exactly the canonical path (the empty path is the answer for a device that
is not mounted); it returns an error when the device is not mounted, when it is
mounted elsewhere, and when the lookup fails, whatever string comes with the
error. -/
theorem Path_spec (d : Driver σ) (name : String) (s s1 s2 : σ) (fs : stratis.Filesystem)
    (r : String × Option GoError)
    (hget : d.stratis.GetByName name s = (.ok (some fs), s1))
    (hmp : d.mounter.GetMountPoint fs.DevicePath s1 = (r, s2)) :
    ((d.Path name s []).1 = .ok (d.mountPointPath name) ↔
      (r = (d.mountPointPath name, none) ∧ d.mountPointPath name ≠ "")) ∧
    (∀ p, (d.Path name s []).1 = .ok p → p = d.mountPointPath name) ∧
    (r = ("", none) →
      (d.Path name s []).1 = .error (.msg ("volume " ++ name ++ " is not mounted"))) ∧
    (∀ p, r = (p, none) → p ≠ "" → p ≠ d.mountPointPath name →
      (d.Path name s []).1 = .error (.msg ("volume " ++ name ++ " is mounted at " ++ p ++
        " instead of expected " ++ d.mountPointPath name))) ∧
    (∀ p err, r = (p, some err) →
      (d.Path name s []).1 = .error (.wrap "check mount status" err)) := by
  rcases r with ⟨p, _ | err⟩
  · by_cases h0 : p = ""
    · subst h0
      simp [Driver.Path, bind_apply, pure_apply, call_apply, hget, hmp]
      intro h; exact h.symm
    · by_cases h1 : p = d.mountPointPath name
      · subst h1
        simp [Driver.Path, bind_apply, pure_apply, call_apply, hget, hmp, h0]
      · simp [Driver.Path, bind_apply, pure_apply, call_apply, hget, hmp, h0, h1]
  · simp [Driver.Path, bind_apply, pure_apply, call_apply, hget, hmp]

/-- C14, in the small world: `vol1` mounted at `/mnt/vol1`, at `/media/vol1`, not
mounted, and with a failing lookup. -/
theorem Path_spec_witness :
    (demo.driver.Path "vol1" demo.mountedCanonical []).1 =
      .ok (demo.driver.mountPointPath "vol1") ∧
    (demo.driver.Path "vol1" [] []).1 =
      .error (.msg ("volume " ++ "vol1" ++ " is not mounted")) ∧
    (demo.driver.Path "vol1" demo.mountedElsewhere []).1 =
      .error (.msg ("volume " ++ "vol1" ++ " is mounted at " ++ "/media/vol1" ++
        " instead of expected " ++ demo.driver.mountPointPath "vol1")) ∧
    (demo.blindDriver.Path "vol1" [] []).1 =
      .error (.wrap "check mount status" (.msg "unable to parse mounts")) :=
  ⟨(Path_spec demo.driver "vol1" demo.mountedCanonical demo.mountedCanonical
      demo.mountedCanonical demo.vol1 ("/mnt/vol1", none) (by decide) (by decide)).1.mpr
      (by decide),
   (Path_spec demo.driver "vol1" [] [] [] demo.vol1 ("", none) (by decide)
      (by decide)).2.2.1 rfl,
   (Path_spec demo.driver "vol1" demo.mountedElsewhere demo.mountedElsewhere
      demo.mountedElsewhere demo.vol1 ("/media/vol1", none) (by decide)
      (by decide)).2.2.2.1 "/media/vol1" rfl (by decide) (by decide),
   (Path_spec demo.blindDriver "vol1" [] [] [] demo.vol1
      ("", some (.msg "unable to parse mounts")) (by decide) (by decide)).2.2.2.2 _ _ rfl⟩

end driver

namespace driver

variable {σ : Type}

/-- One step of the loop of `List`. -/
theorem listVolumes_cons (d : Driver σ) (fs : stratis.Filesystem)
    (rest : List stratis.Filesystem) (volumes : List Volume) (s : σ) (t : List Call) :
    d.listVolumes (fs :: rest) volumes s t =
      d.listVolumes rest
        (volumes ++ [Volume.mk fs.Name
          (currentMountPoint (d.mounter.GetMountPoint fs.DevicePath s).1.1
            (d.mountPointPath fs.Name)) []])
        (d.mounter.GetMountPoint fs.DevicePath s).2 (t ++ [.getMountPoint fs.DevicePath]) := by
  simp [Driver.listVolumes, bind_apply, call_apply]

/-- The state of the world after the loop of `List` depends on the filesystems and
the state before only. -/
theorem listVolumes_state (d : Driver σ) (fss : List stratis.Filesystem) :
    ∀ (volumes : List Volume) (s : σ) (t : List Call),
      (d.listVolumes fss volumes s t).2.1 = (d.listVolumes fss [] s []).2.1 := by
  induction fss with
  | nil => intro volumes s t; rfl
  | cons fs rest ih =>
    intro volumes s t
    rw [listVolumes_cons, listVolumes_cons, ih, ih ([] ++ _)]

/-- The loop of `List` over two lists in a row. -/
theorem listVolumes_append (d : Driver σ) (a b : List stratis.Filesystem) :
    ∀ (volumes : List Volume) (s : σ) (t : List Call),
      d.listVolumes (a ++ b) volumes s t =
        d.listVolumes b (d.listVolumes a volumes s t).1 (d.listVolumes a volumes s t).2.1
          (d.listVolumes a volumes s t).2.2 := by
  induction a with
  | nil => intro volumes s t; rfl
  | cons fs rest ih =>
    intro volumes s t
    rw [List.cons_append, listVolumes_cons, listVolumes_cons, ih]

/-- The loop of `List` appends one volume per filesystem, with its name, in order. -/
theorem listVolumes_added (d : Driver σ) (fss : List stratis.Filesystem) :
    ∀ (volumes : List Volume) (s : σ) (t : List Call),
      ∃ added : List Volume, (d.listVolumes fss volumes s t).1 = volumes ++ added ∧
        added.length = fss.length ∧
        added.map (fun v => v.Name) = fss.map (fun fs => fs.Name) := by
  induction fss with
  | nil => intro volumes s t; exact ⟨[], by simp [Driver.listVolumes, pure_apply], rfl, rfl⟩
  | cons fs rest ih =>
    intro volumes s t
    rw [listVolumes_cons]
    obtain ⟨added, h1, h2, h3⟩ := ih
      (volumes ++ [Volume.mk fs.Name
        (currentMountPoint (d.mounter.GetMountPoint fs.DevicePath s).1.1
          (d.mountPointPath fs.Name)) []])
      (d.mounter.GetMountPoint fs.DevicePath s).2 (t ++ [.getMountPoint fs.DevicePath])
    refine ⟨Volume.mk fs.Name
      (currentMountPoint (d.mounter.GetMountPoint fs.DevicePath s).1.1
        (d.mountPointPath fs.Name)) [] :: added, ?_, ?_, ?_⟩
    · rw [h1, List.append_assoc]; rfl
    · simp [h2]
    · simp [h3]

end driver

namespace driver

variable {σ : Type}

/-- A mount point that is looked up as empty is reported as empty. -/
theorem currentMountPoint_empty (c : String) : currentMountPoint "" c = "" := by
  unfold currentMountPoint
  by_cases hc : "" = c
  · rw [if_pos hc]; exact hc.symm
  · rw [if_neg hc]

/-- The `GetMountPoint` of `SyscallMounter` returns the empty string with every
error. -/
theorem SyscallMounter_error_empty {τ : Type} (m : mount.SyscallMounter τ) (source : String)
    (w : τ) (h : (m.GetMountPoint source w).1.2 ≠ none) :
    (m.GetMountPoint source w).1.1 = "" := by
  unfold mount.SyscallMounter.GetMountPoint at h ⊢
  rcases hparse : m.Parse (m.EvalSymlinks source w).2 with ⟨_ | mounts, w2⟩
  · simp only [hparse]
  · simp only [hparse] at h ⊢
    split at h <;> simp at h

/-- C15: when the list of the backend succeeds, `List` succeeds and returns
exactly one volume per filesystem, in the same order, with the name of the
filesystem and, as mount point, the canonical path when the lookup for the
device (made in the state the loop has reached) returns the canonical path, and
the empty string otherwise. `List` drops the error of a lookup and compares the
string that came with it; the `GetMountPoint` of `SyscallMounter`, the mounter of
the program, returns the empty string with every error, and with a mounter that
does so a failing lookup gives the empty mount point. A failing lookup never
makes `List` fail or drop an entry. -/
theorem List_spec {τ : Type} (d : Driver σ) (m : mount.SyscallMounter τ) (s s1 : σ)
    (fss : List stratis.Filesystem) (hlist : d.stratis.List s = (.ok fss, s1)) :
    (∃ vols : List Volume, (d.List s []).1 = .ok vols ∧ vols.length = fss.length ∧
      vols.map (fun v => v.Name) = fss.map (fun fs => fs.Name) ∧
      ∀ pre fs post, fss = pre ++ fs :: post →
        vols[pre.length]? = some (Volume.mk fs.Name
          (currentMountPoint
            (d.mounter.GetMountPoint fs.DevicePath (d.listVolumes pre [] s1 []).2.1).1.1
            (d.mountPointPath fs.Name)) []) ∧
        ((∀ source w, (d.mounter.GetMountPoint source w).1.2 ≠ none →
            (d.mounter.GetMountPoint source w).1.1 = "") →
          (d.mounter.GetMountPoint fs.DevicePath (d.listVolumes pre [] s1 []).2.1).1.2 ≠ none →
          vols[pre.length]? = some (Volume.mk fs.Name "" []))) ∧
    (∀ source w, (m.GetMountPoint source w).1.2 ≠ none →
      (m.GetMountPoint source w).1.1 = "") := by
  refine ⟨⟨(d.listVolumes fss [] s1 [.list]).1, ?_, ?_, ?_, ?_⟩,
    fun source w h => SyscallMounter_error_empty m source w h⟩
  · simp [Driver.List, bind_apply, pure_apply, call_apply, hlist]
  · obtain ⟨added, h1, h2, _⟩ := listVolumes_added d fss [] s1 [.list]
    rw [h1]; simpa using h2
  · obtain ⟨added, h1, _, h3⟩ := listVolumes_added d fss [] s1 [.list]
    rw [h1]; simpa using h3
  · intro pre fs post hsplit
    subst hsplit
    have key : (d.listVolumes (pre ++ fs :: post) [] s1 [.list]).1[pre.length]? =
        some (Volume.mk fs.Name
          (currentMountPoint
            (d.mounter.GetMountPoint fs.DevicePath (d.listVolumes pre [] s1 []).2.1).1.1
            (d.mountPointPath fs.Name)) []) := by
      rw [listVolumes_append, listVolumes_cons]
      obtain ⟨addedPre, hp1, hp2, _⟩ := listVolumes_added d pre [] s1 [.list]
      rw [listVolumes_state d pre [] s1 [.list]]
      generalize (d.listVolumes pre [] s1 []).2.1 = sp
      obtain ⟨addedPost, hq1, _, _⟩ := listVolumes_added d post
        ((d.listVolumes pre [] s1 [.list]).1 ++ [Volume.mk fs.Name
          (currentMountPoint (d.mounter.GetMountPoint fs.DevicePath sp).1.1
            (d.mountPointPath fs.Name)) []])
        (d.mounter.GetMountPoint fs.DevicePath sp).2
        ((d.listVolumes pre [] s1 [.list]).2.2 ++ [.getMountPoint fs.DevicePath])
      rw [hq1, hp1]
      simp only [List.nil_append, List.append_assoc, List.singleton_append]
      rw [← hp2, List.getElem?_append_right (le_refl _)]
      simp
    refine ⟨key, fun hempty herr => ?_⟩
    rw [key, hempty _ _ herr, currentMountPoint_empty]

/-- C15, in the small world: the one filesystem `vol1` is listed with its
canonical mount point when it is mounted there; with the `GetMountPoint` of
`SyscallMounter` over a mount table that cannot be read, the lookup fails and
`vol1` is listed with the empty mount point. -/
theorem List_spec_witness :
    ((∃ vols : List Volume,
      ((demo.syscallDriver demo.unreadableMounter).List demo.mountedCanonical []).1 = .ok vols ∧
      vols.length = [demo.vol1].length ∧
      vols.map (fun v => v.Name) = [demo.vol1].map (fun fs => fs.Name) ∧
      ∀ pre fs post, [demo.vol1] = pre ++ fs :: post →
        vols[pre.length]? = some (Volume.mk fs.Name
          (currentMountPoint
            ((demo.syscallDriver demo.unreadableMounter).mounter.GetMountPoint fs.DevicePath
              ((demo.syscallDriver demo.unreadableMounter).listVolumes pre []
                demo.mountedCanonical []).2.1).1.1
            ((demo.syscallDriver demo.unreadableMounter).mountPointPath fs.Name)) []) ∧
        ((∀ source w,
            ((demo.syscallDriver demo.unreadableMounter).mounter.GetMountPoint source w).1.2
              ≠ none →
            ((demo.syscallDriver demo.unreadableMounter).mounter.GetMountPoint source w).1.1
              = "") →
          ((demo.syscallDriver demo.unreadableMounter).mounter.GetMountPoint fs.DevicePath
            ((demo.syscallDriver demo.unreadableMounter).listVolumes pre []
              demo.mountedCanonical []).2.1).1.2 ≠ none →
          vols[pre.length]? = some (Volume.mk fs.Name "" []))) ∧
      (∀ source w, (demo.unreadableMounter.GetMountPoint source w).1.2 ≠ none →
        (demo.unreadableMounter.GetMountPoint source w).1.1 = "")) ∧
    (demo.driver.List demo.mountedCanonical []).1 = .ok [Volume.mk "vol1" "/mnt/vol1" []] ∧
    ((demo.syscallDriver demo.syscallMounter).List demo.mountedCanonical []).1
      = .ok [Volume.mk "vol1" "/mnt/vol1" []] ∧
    ((demo.syscallDriver demo.unreadableMounter).mounter.GetMountPoint
      demo.vol1.DevicePath demo.mountedCanonical).1
      = ("", some (.wrap "unable to parse mounts"
          (.msg "open /proc/mounts: permission denied"))) ∧
    ((demo.syscallDriver demo.unreadableMounter).List demo.mountedCanonical []).1
      = .ok [Volume.mk "vol1" "" []] :=
  ⟨List_spec (demo.syscallDriver demo.unreadableMounter) demo.unreadableMounter
      demo.mountedCanonical demo.mountedCanonical [demo.vol1] (by decide),
   by decide, by decide, by decide, by decide⟩

/-- C16: for an existing volume with record `fs`, `Get` returns the requested
name, as mount point the canonical path when the lookup for the device returns
the canonical path without error and the empty string otherwise (also when the
lookup fails, whatever string comes with the error),
and a status map with `total`, `used`, `free` and `device` equal to the
`Total`, `Used`, `Free` and `DevicePath` of the record; the status map has the
key `sizeLimit`, with the limit of the record, if and only if the record has a
size limit. -/
theorem Get_spec (d : Driver σ) (name : String) (s s1 s2 : σ) (fs : stratis.Filesystem)
    (r : String × Option GoError)
    (hget : d.stratis.GetByName name s = (.ok (some fs), s1))
    (hmp : d.mounter.GetMountPoint fs.DevicePath s1 = (r, s2)) :
    ∃ v : Volume,
      d.Get name s [] = (.ok v, s2, [.getByName name, .getMountPoint fs.DevicePath]) ∧
      v.Name = name ∧
      v.Mountpoint =
        (if r = (d.mountPointPath name, none) then d.mountPointPath name else "") ∧
      v.Status.lookup "total" = some (.uint64 fs.Total) ∧
      v.Status.lookup "used" = some (.uint64 fs.Used) ∧
      v.Status.lookup "free" = some (.uint64 fs.Free) ∧
      v.Status.lookup "device" = some (.str fs.DevicePath) ∧
      v.Status.lookup "sizeLimit" = fs.SizeLimit.map StatusValue.uint64 ∧
      v.Status.map Prod.fst =
        ["total", "used", "free", "device"] ++
          (if fs.SizeLimit.isSome then ["sizeLimit"] else []) := by
  have hcur : ∀ c : String, currentMountPoint "" c = "" := by
    intro c
    unfold currentMountPoint
    by_cases hc : "" = c
    · rw [if_pos hc]; exact hc.symm
    · rw [if_neg hc]
  have hmount : currentMountPoint (match r with
      | (_, some _) => ""
      | (existingMount, none) => existingMount) (d.mountPointPath name) =
      (if r = (d.mountPointPath name, none) then d.mountPointPath name else "") := by
    rcases r with ⟨p, _ | err⟩
    · simp [currentMountPoint]
    · simp [hcur]
  have hrun : d.Get name s [] =
      (.ok (Volume.mk name
        (if r = (d.mountPointPath name, none) then d.mountPointPath name else "")
        (match fs.SizeLimit with
          | some limit =>
            [("total", .uint64 fs.Total), ("used", .uint64 fs.Used),
             ("free", .uint64 fs.Free), ("device", .str fs.DevicePath)] ++
              [("sizeLimit", .uint64 limit)]
          | none =>
            [("total", .uint64 fs.Total), ("used", .uint64 fs.Used),
             ("free", .uint64 fs.Free), ("device", .str fs.DevicePath)])),
        s2, [.getByName name, .getMountPoint fs.DevicePath]) := by
    rw [← hmount]
    rcases r with ⟨p, _ | err⟩ <;>
      simp [Driver.Get, bind_apply, pure_apply, call_apply, hget, hmp, hcur]
  refine ⟨_, hrun, rfl, rfl, ?_, ?_, ?_, ?_, ?_, ?_⟩ <;>
    cases fs.SizeLimit <;> rfl

end driver

namespace driver

/-- C16, in the small world: `vol1`, mounted at `/mnt/vol1`, without size limit. -/
theorem Get_spec_witness :
    ∃ v : Volume,
      demo.driver.Get "vol1" demo.mountedCanonical [] =
        (.ok v, demo.mountedCanonical,
          [.getByName "vol1", .getMountPoint demo.vol1.DevicePath]) ∧
      v.Name = "vol1" ∧ v.Mountpoint = "/mnt/vol1" ∧
      v.Status.lookup "total" = some (.uint64 1073741824) ∧
      v.Status.lookup "device" = some (.str "/dev/stratis/podman_vols/vol1") ∧
      v.Status.lookup "sizeLimit" = none := by
  obtain ⟨v, h1, h2, h3, h4, _, _, h7, h8, _⟩ :=
    Get_spec demo.driver "vol1" demo.mountedCanonical demo.mountedCanonical
      demo.mountedCanonical demo.vol1 ("/mnt/vol1", none) (by decide) (by decide)
  exact ⟨v, h1, h2, by rw [h3]; decide, h4, h7, h8⟩

end driver

/-! ## The bus backend: decoding the properties -/

namespace fmt

/-- Reading back: `Sscanf` with `%d` reads the decimal representation of a number below 2^64
back. -/
theorem sscanUint64_toString (n : ℕ) (h : n < 2 ^ 64) : sscanUint64 (toString n) = some n := by
  obtain ⟨hne, hd, hv⟩ := strconv.toString_digits n
  unfold sscanUint64
  cases hs : (toString n).data with
  | nil => exact absurd hs hne
  | cons c rest =>
    rw [hs] at hd hv
    have hc : strconv.isDigit c = true := hd c (List.mem_cons_self _ _)
    have hsp : strings.isSpace c = false := strings.isDigit_not_space c hc
    have hnl : (c == '\n') = false := by
      cases hcn : (c == '\n') with
      | false => rfl
      | true =>
        have : c = '\n' := by simpa using hcn
        rw [this] at hc
        exact absurd hc (by decide)
    have hdrop : (c :: rest).dropWhile (fun c => strings.isSpace c && c != '\n') = c :: rest := by
      simp [List.dropWhile, hsp]
    have htake : (c :: rest).takeWhile strconv.isDigit = c :: rest :=
      (strconv.takeWhile_all _ _ hd).1
    rw [hdrop]
    simp only [hnl, htake]
    have h64 : n < 18446744073709551616 := by norm_num at h; exact h
    simp [hv, h64]

end fmt

namespace stratis

variable {σ : Type}

/-- C18, as stated, fails: a `Name` property that is present and empty makes
`parseFilesystemFromProps` fail as a missing one does, and so does an empty
`Devnode`; a `Size` that does not fit 64 bits leaves `Total` at 0. -/
theorem parseFilesystemFromProps_empty_name :
    parseFilesystemFromProps "test-pool"
      [("Name", .value (.str "")), ("Uuid", .value (.str "uuid-1")),
       ("Devnode", .value (.str "/dev/stratis/test-pool/vol1")),
       ("Size", .value (.str "1073741824"))] = .error (.msg "missing Name property") ∧
    parseFilesystemFromProps "test-pool"
      [("Name", .value (.str "vol1")), ("Uuid", .value (.str "uuid-1")),
       ("Devnode", .value (.str "")),
       ("Size", .value (.str "1073741824"))] = .error (.msg "missing Devnode property") ∧
    parseFilesystemFromProps "test-pool"
      [("Name", .value (.str "vol1")), ("Uuid", .value (.str "uuid-1")),
       ("Devnode", .value (.str "/dev/stratis/test-pool/vol1")),
       ("Size", .value (.str "18446744073709551616"))] =
      .ok (some { Name := "vol1", Pool := "test-pool",
                  DevicePath := "/dev/stratis/test-pool/vol1", Total := 0, Used := 0,
                  Free := 0, SizeLimit := none, UUID := "uuid-1" }) := by
  decide

/-- A property map whose `Name` and `Devnode` are non-empty strings gives a
record with them. -/
theorem parseFilesystemFromProps_ok (pool : String) (props : dbus.Props) (n d : String)
    (hn : props.lookup "Name" = some (.value (.str n))) (hn0 : n ≠ "")
    (hd : props.lookup "Devnode" = some (.value (.str d))) (hd0 : d ≠ "") :
    ∃ r : Filesystem, parseFilesystemFromProps pool props = .ok (some r) ∧
      r.Name = n ∧ r.Pool = pool ∧ r.DevicePath = d := by
  simp [parseFilesystemFromProps, stringProp, hn, hn0, hd, hd0]

/-- C18 (amended): `parseFilesystemFromProps` fails when the `Name` property or
the `Devnode` property is missing, is not a string, or is the empty string;
otherwise, for properties `Name` n, `Devnode` d, `Uuid` u, `Size` the decimal
string of T < 2^64, `Used` = (pu, U) and `SizeLimit` = (pl, L), where U and L
are the decimal strings of numbers below 2^64 when their flag is true, it
returns the record with Name n, Pool the pool of the manager, DevicePath d,
UUID u, Total T, Used U when pu is true and 0 when it is false, Free equal to
Total minus Used when Used is at most Total (and 0 otherwise), and a size
limit, L, exactly when pl is true. -/
theorem parseFilesystemFromProps_spec (pool : String) (props : dbus.Props) :
    (stringProp props "Name" = "" →
      parseFilesystemFromProps pool props = .error (.msg "missing Name property")) ∧
    (props.lookup "Name" = none →
      parseFilesystemFromProps pool props = .error (.msg "missing Name property")) ∧
    (stringProp props "Devnode" = "" →
      ∃ err, parseFilesystemFromProps pool props = .error err) ∧
    (props.lookup "Devnode" = none →
      ∃ err, parseFilesystemFromProps pool props = .error err) ∧
    (∀ (n d u us ls : String) (T U L : ℕ) (pu pl : Bool),
      props.lookup "Name" = some (.value (.str n)) → n ≠ "" →
      props.lookup "Devnode" = some (.value (.str d)) → d ≠ "" →
      props.lookup "Uuid" = some (.value (.str u)) →
      props.lookup "Size" = some (.value (.str (toString T))) → T < 2 ^ 64 →
      props.lookup "Used" = some (.slice [.bool pu, .str us]) →
      (pu = true → us = toString U ∧ U < 2 ^ 64) →
      props.lookup "SizeLimit" = some (.slice [.bool pl, .str ls]) →
      (pl = true → ls = toString L ∧ L < 2 ^ 64) →
      parseFilesystemFromProps pool props =
        .ok (some { Name := n, Pool := pool, DevicePath := d, UUID := u, Total := T,
                    Used := if pu then U else 0,
                    Free := if (if pu then U else 0) ≤ T then T - (if pu then U else 0) else 0,
                    SizeLimit := if pl then some L else none })) := by
  have hname : stringProp props "Name" = "" →
      parseFilesystemFromProps pool props = .error (.msg "missing Name property") := by
    intro h
    simp [parseFilesystemFromProps, h]
  have hdev : stringProp props "Devnode" = "" →
      ∃ err, parseFilesystemFromProps pool props = .error err := by
    intro h
    by_cases h0 : stringProp props "Name" = ""
    · exact ⟨_, hname h0⟩
    · exact ⟨.msg "missing Devnode property", by simp [parseFilesystemFromProps, h, h0]⟩
  refine ⟨hname, ?_, hdev, ?_, ?_⟩
  · intro h
    exact hname (by simp [stringProp, h])
  · intro h
    exact hdev (by simp [stringProp, h])
  · intro n d u us ls T U L pu pl hn hn0 hd hd0 hu hT hTlt hU hUv hL hLv
    have hsT := fmt.sscanUint64_toString T hTlt
    cases pu <;> cases pl
    · simp [parseFilesystemFromProps, stringProp, hn, hn0, hd, hd0, hu, hT, hsT, hU, hL,
        extractOptionalString]
      omega
    · obtain ⟨hl1, hl2⟩ := hLv rfl
      subst hl1
      simp [parseFilesystemFromProps, stringProp, hn, hn0, hd, hd0, hu, hT, hsT, hU, hL,
        extractOptionalString, fmt.sscanUint64_toString L hl2]
      omega
    · obtain ⟨hu1, hu2⟩ := hUv rfl
      subst hu1
      simp [parseFilesystemFromProps, stringProp, hn, hn0, hd, hd0, hu, hT, hsT, hU, hL,
        extractOptionalString, fmt.sscanUint64_toString U hu2]
      split_ifs <;> omega
    · obtain ⟨hl1, hl2⟩ := hLv rfl
      obtain ⟨hu1, hu2⟩ := hUv rfl
      subst hl1; subst hu1
      simp [parseFilesystemFromProps, stringProp, hn, hn0, hd, hd0, hu, hT, hsT, hU, hL,
        extractOptionalString, fmt.sscanUint64_toString L hl2,
        fmt.sscanUint64_toString U hu2]
      split_ifs <;> omega

end stratis

namespace stratis

variable {σ : Type}

/-- C18 (amended), on the property map of the tests: Size 1073741824, Used
(true, 77594624) and SizeLimit (false, "") give Free 996147200 and no limit. -/
theorem parseFilesystemFromProps_spec_witness :
    parseFilesystemFromProps "test-pool" demo.vol1Props = .ok (some demo.busVol1) ∧
    demo.busVol1.Free = 996147200 ∧ demo.busVol1.SizeLimit = none ∧
    parseFilesystemFromProps "test-pool" [("Uuid", .value (.str "uuid-1"))] =
      .error (.msg "missing Name property") :=
  ⟨((parseFilesystemFromProps_spec "test-pool" demo.vol1Props).2.2.2.2 "vol1"
      "/dev/stratis/test-pool/vol1" "uuid-1" "77594624" "" 1073741824 77594624 0 true false
      (by decide) (by decide) (by decide) (by decide) (by decide) (by decide) (by norm_num)
      (by decide) (fun _ => ⟨by decide, by norm_num⟩) (by decide)
      (fun h => absurd h (by decide))).trans (by decide),
   by decide, by decide,
   (parseFilesystemFromProps_spec "test-pool" [("Uuid", .value (.str "uuid-1"))]).2.1
     (by decide)⟩

/-! ## The bus backend: `GetByName` -/

theorem bus_bind_apply {α β : Type} (m : Bus σ α) (f : α → Bus σ β) (st : BusState σ) :
    (m >>= f) st = f (m st).1 (m st).2 := rfl

theorem bus_pure_apply {α : Type} (a : α) (st : BusState σ) :
    (pure a : Bus σ α) st = (a, st) := rfl

/-- The run of `GetByName` once the pool and the objects are known: the scan of the objects. -/
theorem GetByName_scan (m : DBusManager σ) (name poolPath : String) (st st1 st2 : BusState σ)
    (objects : dbus.ManagedObjects)
    (hpool : m.findPoolPath st = (.ok poolPath, st1))
    (hobj : m.getManagedObjects st1 = (.ok objects, st2)) :
    m.GetByName name st = (scanFilesystem m.pool poolPath name objects, st2) := by
  simp [DBusManager.GetByName, bus_bind_apply, bus_pure_apply, hpool, hobj]

/-- An object that is not a filesystem of the pool with the name is passed over. -/
theorem scanFilesystem_skip (pool poolPath name : String) (o : String × dbus.Interfaces)
    (rest : dbus.ManagedObjects) (h : isFilesystemOf poolPath name o = false) :
    scanFilesystem pool poolPath name (o :: rest) = scanFilesystem pool poolPath name rest := by
  obtain ⟨path, interfaces⟩ := o
  unfold isFilesystemOf at h
  rw [scanFilesystem]
  cases hi : interfaces.lookup dbusFilesystemInterface with
  | none => rfl
  | some props =>
    simp only [hi] at h
    simp only []
    cases hp : props.lookup "Pool" with
    | none => rfl
    | some pv =>
      cases pv with
      | slice items => rfl
      | value v =>
        cases v with
        | objectPath fsPoolPath =>
          by_cases hpp : fsPoolPath = poolPath
          · subst hpp
            simp only [ne_eq, not_true_eq_false, if_false]
            cases hnm : props.lookup "Name" with
            | none => rfl
            | some nv =>
              cases nv with
              | slice items => rfl
              | value w =>
                cases w with
                | str fsName =>
                  by_cases hnn : fsName = name
                  · subst hnn
                    simp [hp, hnm] at h
                  · simp [hnn]
                | _ => rfl
          · simp [hpp]
        | _ => rfl

/-- The first object that is a filesystem of the pool with the name decides. -/
theorem scanFilesystem_hit (pool poolPath name : String) (o : String × dbus.Interfaces)
    (rest : dbus.ManagedObjects) (props : dbus.Props)
    (hi : o.2.lookup dbusFilesystemInterface = some props)
    (hp : props.lookup "Pool" = some (.value (.objectPath poolPath)))
    (hn : props.lookup "Name" = some (.value (.str name))) :
    scanFilesystem pool poolPath name (o :: rest) = parseFilesystemFromProps pool props := by
  obtain ⟨path, interfaces⟩ := o
  simp only at hi
  rw [scanFilesystem]
  simp [hi, hp, hn]

theorem isFilesystemOf_iff (poolPath name : String) (o : String × dbus.Interfaces) :
    isFilesystemOf poolPath name o = true ↔
      ∃ props, o.2.lookup dbusFilesystemInterface = some props ∧
        props.lookup "Pool" = some (.value (.objectPath poolPath)) ∧
        props.lookup "Name" = some (.value (.str name)) := by
  unfold isFilesystemOf
  cases hi : o.2.lookup dbusFilesystemInterface with
  | none => simp
  | some props => simp

/-- The scan of a graph: `ErrNotFound` without a matching object, and the record
of the first matching object otherwise. -/
theorem scanFilesystem_spec (pool poolPath name : String) (objects : dbus.ManagedObjects) :
    ((∀ o ∈ objects, isFilesystemOf poolPath name o = false) →
      scanFilesystem pool poolPath name objects = .error .errNotFound) ∧
    (∀ pre o post props, objects = pre ++ o :: post →
      (∀ x ∈ pre, isFilesystemOf poolPath name x = false) →
      o.2.lookup dbusFilesystemInterface = some props →
      props.lookup "Pool" = some (.value (.objectPath poolPath)) →
      props.lookup "Name" = some (.value (.str name)) →
      scanFilesystem pool poolPath name objects = parseFilesystemFromProps pool props) := by
  constructor
  · intro h
    induction objects with
    | nil => rfl
    | cons o rest ih =>
      rw [scanFilesystem_skip _ _ _ _ _ (h o (List.mem_cons_self _ _))]
      exact ih (fun x hx => h x (List.mem_cons_of_mem _ hx))
  · intro pre o post props hsplit hpre hi hp hn
    subst hsplit
    induction pre with
    | nil => exact scanFilesystem_hit pool poolPath name o post props hi hp hn
    | cons x pre ih =>
      rw [List.cons_append, scanFilesystem_skip _ _ _ _ _ (hpre x (List.mem_cons_self _ _))]
      exact ih (fun y hy => hpre y (List.mem_cons_of_mem _ hy))

/-- A record the scan returns is the record of an object of the graph that is a
filesystem of the pool with the name. -/
theorem scanFilesystem_origin (pool poolPath name : String) (objects : dbus.ManagedObjects)
    (r : Option Filesystem) (h : scanFilesystem pool poolPath name objects = .ok r) :
    ∃ o ∈ objects, ∃ props, o.2.lookup dbusFilesystemInterface = some props ∧
      props.lookup "Pool" = some (.value (.objectPath poolPath)) ∧
      props.lookup "Name" = some (.value (.str name)) ∧
      parseFilesystemFromProps pool props = .ok r := by
  induction objects with
  | nil => simp [scanFilesystem] at h
  | cons o rest ih =>
    by_cases ho : isFilesystemOf poolPath name o = true
    · obtain ⟨props, hi, hp, hn⟩ := (isFilesystemOf_iff poolPath name o).mp ho
      rw [scanFilesystem_hit pool poolPath name o rest props hi hp hn] at h
      exact ⟨o, List.mem_cons_self _ _, props, hi, hp, hn, h⟩
    · have ho' : isFilesystemOf poolPath name o = false := by simpa using ho
      rw [scanFilesystem_skip _ _ _ _ _ ho'] at h
      obtain ⟨x, hx, rest'⟩ := ih h
      exact ⟨x, List.mem_cons_of_mem _ hx, rest'⟩

end stratis

namespace stratis

variable {σ : Type}

/-- C17, as stated, fails: an object of the pool with the filesystem interface
and the name `vol1`, but without device node, is in the graph, and `GetByName`
returns the failure of the decoding, not a record. -/
theorem GetByName_without_devnode :
    (demo.busManager 1 [demo.bareObject]).findPoolPath demo.busStart =
      (.ok demo.poolPath,
        { poolPath := demo.poolPath, world := 1, calls := [.getManagedObjects] }) ∧
    isFilesystemOf demo.poolPath "vol1" demo.bareObject = true ∧
    ((demo.busManager 1 [demo.bareObject]).GetByName "vol1" demo.busStart).1 =
      .error (.msg "missing Devnode property") := by
  decide

/-- C17 (amended): when the configured pool resolves to the path `poolPath` and
the graph is then read, `GetByName name` returns exactly `ErrNotFound` when no
object has the filesystem interface with `Pool` equal to `poolPath` and `Name`
equal to `name`; otherwise it returns what the decoding of the first such
object, in the order of the iteration, returns: a record named `name` when the
name and the device node of the object are non-empty strings, the failure of
the decoding otherwise. A record it returns is always decoded from an object
whose `Pool` is `poolPath`, so a filesystem of another pool is never returned. -/
theorem GetByName_spec (m : DBusManager σ) (name poolPath : String)
    (st st1 st2 : BusState σ) (objects : dbus.ManagedObjects)
    (hpool : m.findPoolPath st = (.ok poolPath, st1))
    (hobj : m.getManagedObjects st1 = (.ok objects, st2)) :
    ((∀ o ∈ objects, isFilesystemOf poolPath name o = false) →
      m.GetByName name st = (.error .errNotFound, st2)) ∧
    (∀ pre o post props, objects = pre ++ o :: post →
      (∀ x ∈ pre, isFilesystemOf poolPath name x = false) →
      o.2.lookup dbusFilesystemInterface = some props →
      props.lookup "Pool" = some (.value (.objectPath poolPath)) →
      props.lookup "Name" = some (.value (.str name)) →
      m.GetByName name st = (parseFilesystemFromProps m.pool props, st2) ∧
      (∀ d, name ≠ "" → props.lookup "Devnode" = some (.value (.str d)) → d ≠ "" →
        ∃ r : Filesystem, m.GetByName name st = (.ok (some r), st2) ∧
          r.Name = name ∧ r.Pool = m.pool ∧ r.DevicePath = d)) ∧
    (∀ r, (m.GetByName name st).1 = .ok r →
      ∃ o ∈ objects, ∃ props, o.2.lookup dbusFilesystemInterface = some props ∧
        props.lookup "Pool" = some (.value (.objectPath poolPath)) ∧
        props.lookup "Name" = some (.value (.str name)) ∧
        parseFilesystemFromProps m.pool props = .ok r) := by
  have hrun := GetByName_scan m name poolPath st st1 st2 objects hpool hobj
  refine ⟨?_, ?_, ?_⟩
  · intro h
    rw [hrun, (scanFilesystem_spec m.pool poolPath name objects).1 h]
  · intro pre o post props hsplit hpre hi hp hn
    have hscan := (scanFilesystem_spec m.pool poolPath name objects).2 pre o post props
      hsplit hpre hi hp hn
    refine ⟨by rw [hrun, hscan], ?_⟩
    intro d hn0 hd hd0
    obtain ⟨r, hr, h1, h2, h3⟩ := parseFilesystemFromProps_ok m.pool props name d hn hn0 hd hd0
    exact ⟨r, by rw [hrun, hscan, hr], h1, h2, h3⟩
  · intro r hr
    rw [hrun] at hr
    exact scanFilesystem_origin m.pool poolPath name objects r hr

/-- C17 (amended), on the small bus: with a filesystem `vol1` of another pool
before the one of the pool in the graph, `GetByName "vol1"` returns the record
of the pool; `GetByName "ghost"` returns `ErrNotFound`. -/
theorem GetByName_spec_witness :
    (demo.busManager 1 [demo.foreignObject, demo.vol1Object]).GetByName "vol1" demo.busStart =
      (parseFilesystemFromProps "test-pool" demo.vol1Props,
        { poolPath := demo.poolPath, world := 2,
          calls := [.getManagedObjects, .getManagedObjects] }) ∧
    parseFilesystemFromProps "test-pool" demo.vol1Props = .ok (some demo.busVol1) ∧
    (demo.busManager 1 [demo.foreignObject, demo.vol1Object]).GetByName "ghost"
        demo.busStart =
      (.error .errNotFound,
        { poolPath := demo.poolPath, world := 2,
          calls := [.getManagedObjects, .getManagedObjects] }) :=
  ⟨((GetByName_spec (demo.busManager 1 [demo.foreignObject, demo.vol1Object]) "vol1"
      demo.poolPath demo.busStart
      { poolPath := demo.poolPath, world := 1, calls := [.getManagedObjects] }
      { poolPath := demo.poolPath, world := 2,
        calls := [.getManagedObjects, .getManagedObjects] }
      [demo.poolObject, demo.foreignObject, demo.vol1Object] (by decide) rfl).2.1
      [demo.poolObject, demo.foreignObject] demo.vol1Object [] demo.vol1Props (by decide)
      (by decide) (by decide) (by decide) (by decide)).1,
   by decide,
   (GetByName_spec (demo.busManager 1 [demo.foreignObject, demo.vol1Object]) "ghost"
      demo.poolPath demo.busStart
      { poolPath := demo.poolPath, world := 1, calls := [.getManagedObjects] }
      { poolPath := demo.poolPath, world := 2,
        calls := [.getManagedObjects, .getManagedObjects] }
      [demo.poolObject, demo.foreignObject, demo.vol1Object] (by decide) rfl).1
      (by decide)⟩

/-! ## The bus backend: the poll of `Create` -/

/-- One round of the loop of `Create`: an attempt that succeeds ends it; an
attempt that fails is followed by a sleep when another round is left. -/
theorem pollCreated_succ (m : DBusManager σ) (name : String) (remaining : ℕ)
    (last : Except GoError (Option Filesystem)) (st : BusState σ) :
    m.pollCreated name (remaining + 1) last st =
      match (m.GetByName name st).1 with
      | .ok fs => (.ok fs, (m.GetByName name st).2)
      | .error err =>
        if remaining > 0 then
          m.pollCreated name remaining (.error err) (m.afterFailedAttempt name st)
        else (.error err, (m.GetByName name st).2) := by
  rw [DBusManager.pollCreated]
  simp only [bus_bind_apply]
  cases h : (m.GetByName name st).1 with
  | ok fs => rfl
  | error err =>
    simp only []
    by_cases hr : remaining > 0
    · simp only [hr, if_true]
      rfl
    · have h0 : remaining = 0 := by omega
      subst h0
      simp [bus_bind_apply, bus_pure_apply, DBusManager.pollCreated]

/-- The loop of `Create` when the attempt number `i + 1` is the first to succeed. -/
theorem pollCreated_success (m : DBusManager σ) (name : String) (i : ℕ) :
    ∀ (n : ℕ) (last : Except GoError (Option Filesystem)) (st stk : BusState σ)
      (fs : Option Filesystem), i < n →
      (∀ j < i, ∃ err, (m.GetByName name ((m.afterFailedAttempt name)^[j] st)).1 = .error err) →
      m.GetByName name ((m.afterFailedAttempt name)^[i] st) = (.ok fs, stk) →
      m.pollCreated name n last st = (.ok fs, stk) := by
  induction i with
  | zero =>
    intro n last st stk fs hn _ hok
    obtain ⟨n', rfl⟩ : ∃ n', n = n' + 1 := ⟨n - 1, by omega⟩
    rw [pollCreated_succ]
    simp only [Function.iterate_zero, id_eq] at hok
    rw [hok]
  | succ i ih =>
    intro n last st stk fs hn hfail hok
    obtain ⟨n', rfl⟩ : ∃ n', n = n' + 1 := ⟨n - 1, by omega⟩
    rw [pollCreated_succ]
    obtain ⟨err, herr⟩ := hfail 0 (by omega)
    simp only [Function.iterate_zero, id_eq] at herr
    rw [herr]
    simp only []
    rw [if_pos (by omega)]
    apply ih n' (.error err) (m.afterFailedAttempt name st) stk fs (by omega)
    · intro j hj
      have := hfail (j + 1) (by omega)
      rwa [Function.iterate_succ_apply] at this
    · rwa [Function.iterate_succ_apply] at hok

/-- The loop of `Create` when all its attempts fail: the error of the last one,
in the state right after it. -/
theorem pollCreated_failure (m : DBusManager σ) (name : String) (n : ℕ) :
    ∀ (last : Except GoError (Option Filesystem)) (st : BusState σ),
      (∀ j < n + 1, ∃ err,
        (m.GetByName name ((m.afterFailedAttempt name)^[j] st)).1 = .error err) →
      ∃ err, (m.GetByName name ((m.afterFailedAttempt name)^[n] st)).1 = .error err ∧
        m.pollCreated name (n + 1) last st =
          (.error err, (m.GetByName name ((m.afterFailedAttempt name)^[n] st)).2) := by
  induction n with
  | zero =>
    intro last st hfail
    obtain ⟨err, herr⟩ := hfail 0 (by omega)
    refine ⟨err, herr, ?_⟩
    simp only [Function.iterate_zero, id_eq] at herr ⊢
    rw [pollCreated_succ, herr]
    simp
  | succ n ih =>
    intro last st hfail
    obtain ⟨err0, herr0⟩ := hfail 0 (by omega)
    simp only [Function.iterate_zero, id_eq] at herr0
    obtain ⟨err, herr, hrun⟩ := ih (.error err0) (m.afterFailedAttempt name st) (by
      intro j hj
      have := hfail (j + 1) (by omega)
      rwa [Function.iterate_succ_apply] at this)
    refine ⟨err, by rwa [Function.iterate_succ_apply], ?_⟩
    rw [pollCreated_succ, herr0]
    simp only []
    rw [if_pos (by omega), hrun, Function.iterate_succ_apply]

end stratis

namespace strings

/-- A text that holds `substr` still holds it with more text after it. -/
theorem containsRunes_append_right (substr : List Char) :
    ∀ (a b : List Char), containsRunes a substr = true → containsRunes (a ++ b) substr = true := by
  intro a
  induction a with
  | nil =>
    intro b h
    have hs : substr = [] := by simpa [containsRunes] using h
    subst hs
    cases b <;> simp [containsRunes]
  | cons c cs ih =>
    intro b h
    simp only [containsRunes, Bool.or_eq_true] at h
    simp only [List.cons_append, containsRunes, Bool.or_eq_true]
    rcases h with h | h
    · left
      obtain ⟨r, hr⟩ := List.isPrefixOf_iff_prefix.mp h
      exact List.isPrefixOf_iff_prefix.mpr ⟨r ++ b, by rw [← List.append_assoc, hr]; rfl⟩
    · exact Or.inr (ih b h)

/-- A text that holds `substr` still holds it with more text before it. -/
theorem containsRunes_append_left (substr : List Char) (b : List Char)
    (h : containsRunes b substr = true) :
    ∀ a : List Char, containsRunes (a ++ b) substr = true := by
  intro a
  induction a with
  | nil => exact h
  | cons c cs ih =>
    simp only [List.cons_append, containsRunes, Bool.or_eq_true]
    exact Or.inr ih

end strings

namespace stratis

variable {σ : Type}

/-- The run of `Create` after a call of `CreateFilesystems` that returned the code 0: the
cached pool path is cleared and the loop runs. -/
theorem Create_after_call (m : DBusManager σ) (name poolPath : String)
    (sizeLimit : Option ℕ) (st st1 st2 : BusState σ) (reply : dbus.CallResult) (w2 : σ)
    (b0 msg : dbus.Value) (rest : List dbus.Value)
    (hpool : m.findPoolPath st = (.ok poolPath, st1))
    (hcall : m.conn.CreateFilesystems poolPath (createSpecs name sizeLimit) st1.world =
      (reply, w2))
    (herr : reply.Err = none) (hbody : reply.Body = b0 :: .uint16 0 :: msg :: rest)
    (hst2 : st2 = BusState.mk "" w2
      (st1.calls ++ [.createFilesystems poolPath (createSpecs name sizeLimit)])) :
    m.Create name sizeLimit st =
      ((match (m.pollCreated name 10 (.ok none) st2).1 with
        | .error err => .error (.wrap "get created filesystem" err)
        | .ok none => .panic
        | .ok (some fs) => .ok fs), (m.pollCreated name 10 (.ok none) st2).2) := by
  subst hst2
  simp only [DBusManager.Create, bus_bind_apply, bus_pure_apply, hpool, busCall, hcall, herr,
    hbody, checkReturnCode, if_true]
  cases h : (m.pollCreated name 10 (.ok none) (BusState.mk "" w2
      (st1.calls ++ [.createFilesystems poolPath (createSpecs name sizeLimit)]))).1 with
  | error err => rfl
  | ok r =>
    cases r with
    | none => rfl
    | some fs => rfl

/-- C19: after a `CreateFilesystems` call that returned the code 0, `Create`
clears the cached pool path and polls `GetByName`, with a sleep after each
failed attempt but the tenth. If the attempt number k (1 ≤ k ≤ 10) is the
first to succeed, `Create` returns the record of that attempt, in the state
right after it: exactly k attempts were made. If all 10 attempts fail, `Create`
returns the error "get created filesystem" around the error of the tenth
attempt, in the state right after that attempt, and no record. -/
theorem Create_poll (m : DBusManager σ) (name poolPath : String) (sizeLimit : Option ℕ)
    (st st1 st2 : BusState σ) (reply : dbus.CallResult) (w2 : σ)
    (b0 msg : dbus.Value) (rest : List dbus.Value)
    (hpool : m.findPoolPath st = (.ok poolPath, st1))
    (hcall : m.conn.CreateFilesystems poolPath (createSpecs name sizeLimit) st1.world =
      (reply, w2))
    (herr : reply.Err = none) (hbody : reply.Body = b0 :: .uint16 0 :: msg :: rest)
    (hst2 : st2 = BusState.mk "" w2
      (st1.calls ++ [.createFilesystems poolPath (createSpecs name sizeLimit)])) :
    (∀ (k : ℕ) (fs : Filesystem) (stk : BusState σ), 1 ≤ k → k ≤ 10 →
      (∀ j < k - 1, ∃ err,
        (m.GetByName name ((m.afterFailedAttempt name)^[j] st2)).1 = .error err) →
      m.GetByName name ((m.afterFailedAttempt name)^[k - 1] st2) = (.ok (some fs), stk) →
      m.Create name sizeLimit st = (.ok fs, stk)) ∧
    ((∀ j < 10, ∃ err,
        (m.GetByName name ((m.afterFailedAttempt name)^[j] st2)).1 = .error err) →
      ∃ err, (m.GetByName name ((m.afterFailedAttempt name)^[9] st2)).1 = .error err ∧
        m.Create name sizeLimit st =
          (.error (.wrap "get created filesystem" err),
            (m.GetByName name ((m.afterFailedAttempt name)^[9] st2)).2)) := by
  have hrun := Create_after_call m name poolPath sizeLimit st st1 st2 reply w2 b0 msg rest
    hpool hcall herr hbody hst2
  constructor
  · intro k fs stk hk1 hk10 hfail hok
    have hpoll := pollCreated_success m name (k - 1) 10 (.ok none) st2 stk (some fs)
      (by omega) hfail hok
    rw [hrun, hpoll]
  · intro hfail
    obtain ⟨err, herr9, hpoll⟩ := pollCreated_failure m name 9 (.ok none) st2 hfail
    exact ⟨err, herr9, by rw [hrun, hpoll]⟩

/-- C19, on the small bus: with the filesystem in the graph from the fifth
`GetManagedObjects` call on, the third attempt is the first to succeed and
`Create` returns its record after three attempts and two sleeps; with a
filesystem that never shows, `Create` fails after ten attempts and nine sleeps. -/
theorem Create_poll_witness :
    (demo.busManager 5 [demo.vol1Object]).Create "vol1" none demo.busStart =
      (.ok demo.busVol1,
        { poolPath := demo.poolPath, world := 5,
          calls := [.getManagedObjects,
            .createFilesystems demo.poolPath (createSpecs "vol1" none),
            .getManagedObjects, .getManagedObjects, .sleep 100,
            .getManagedObjects, .sleep 100, .getManagedObjects] }) ∧
    (∃ err st, (demo.busManager 99 []).Create "vol1" none demo.busStart =
        (.error (.wrap "get created filesystem" err), st) ∧
      st.calls.count .getManagedObjects = 12 ∧ st.calls.count (.sleep 100) = 9) := by
  constructor
  · exact (Create_poll (demo.busManager 5 [demo.vol1Object]) "vol1" demo.poolPath none demo.busStart
      { poolPath := demo.poolPath, world := 1, calls := [.getManagedObjects] }
      { poolPath := "", world := 1,
        calls := [.getManagedObjects,
          .createFilesystems demo.poolPath (createSpecs "vol1" none)] }
      { Err := none, Body := [.other, .uint16 0, .str ""] } 1 .other (.str "") []
      (by decide) (by decide) rfl rfl (by decide)).1 3 demo.busVol1 _ (by norm_num)
      (by norm_num)
      (fun j hj => by
        have : j = 0 ∨ j = 1 := by omega
        rcases this with rfl | rfl <;> exact ⟨.errNotFound, by decide⟩)
      (by decide)
  · obtain ⟨err, _, hrun⟩ :=
      (Create_poll (demo.busManager 99 []) "vol1" demo.poolPath none demo.busStart
        { poolPath := demo.poolPath, world := 1, calls := [.getManagedObjects] }
        { poolPath := "", world := 1,
          calls := [.getManagedObjects,
            .createFilesystems demo.poolPath (createSpecs "vol1" none)] }
        { Err := none, Body := [.other, .uint16 0, .str ""] } 1 .other (.str "") []
        (by decide) (by decide) rfl rfl (by decide)).2
        (fun j hj => by
          interval_cases j <;> exact ⟨.errNotFound, by decide⟩)
    exact ⟨err, _, hrun, by decide, by decide⟩

/-! ## The CLI backend: `GetByName` -/

/-- With the phrase in the requested name, `GetByName` answers `ErrNotFound` to
every failure of the tool, whatever the tool said. -/
theorem GetByName_phrase_in_name (m : CLIManager σ)
    (parseDetailedOutput : String → Except GoError (Option Filesystem))
    (name output execErr : String) (s s1 : σ)
    (hrun : m.run ["fs", "list", "--name=" ++ name, m.pool] s = ((output, some execErr), s1))
    (hname : strings.Contains name "filesystem which does not exist" = true) :
    m.GetByName parseDetailedOutput name s = (.error .errNotFound, s1) := by
  have htext : (GoError.wrap
      ("stratis " ++ strings.Join ["fs", "list", "--name=" ++ name, m.pool] " ")
      (.msg (execErr ++ " (output: " ++ m.Quote output ++ ")"))).Error.data =
      "stratis fs list --name=".data ++ name.data ++
        (" " ++ m.pool ++ ": " ++ (execErr ++ " (output: " ++ m.Quote output ++ ")")).data := by
    simp [GoError.Error, strings.Join, String.intercalate, String.intercalate.go]
  have hc : strings.Contains (GoError.wrap
      ("stratis " ++ strings.Join ["fs", "list", "--name=" ++ name, m.pool] " ")
      (.msg (execErr ++ " (output: " ++ m.Quote output ++ ")"))).Error
      "filesystem which does not exist" = true := by
    unfold strings.Contains
    rw [htext]
    exact strings.containsRunes_append_right _ _ _
      (strings.containsRunes_append_left _ _ hname _)
  simp [CLIManager.GetByName, CLIManager.stratis, hrun, hc]

/-- C20: `CLIManager.GetByName` looks for the phrase "filesystem which does
not exist" in the text of the error of its method `stratis`, which starts with
the command line and so holds the requested name and the pool. GetByName of the
name "filesystem which does not exist", with a tool that fails with the text
"ERROR: stratisd is not running" (neither the output nor the error of the
command holds the phrase), returns exactly `ErrNotFound`; and so does every
lookup of a name that holds the phrase, whatever the failure of the tool. -/
theorem CLIManager_GetByName_name_text :
    demo.cliManager.run ["fs", "list", "--name=" ++ "filesystem which does not exist",
        demo.cliManager.pool] ()
      = (("ERROR: stratisd is not running", some "exit status 1"), ()) ∧
    strings.Contains "ERROR: stratisd is not running" "filesystem which does not exist"
      = false ∧
    strings.Contains "exit status 1" "filesystem which does not exist" = false ∧
    demo.cliManager.GetByName (fun _ => .ok none) "filesystem which does not exist" ()
      = (.error .errNotFound, ()) ∧
    demo.cliManager.GetByName (fun _ => .ok none) "other" ()
      = (.error (.wrap "get filesystem"
          (.wrap "stratis fs list --name=other podman_vols"
            (.msg "exit status 1 (output: \"ERROR: stratisd is not running\")"))), ()) ∧
    (∀ (τ : Type) (m : CLIManager τ)
      (parseDetailedOutput : String → Except GoError (Option Filesystem))
      (name output execErr : String) (s s1 : τ),
      m.run ["fs", "list", "--name=" ++ name, m.pool] s = ((output, some execErr), s1) →
      strings.Contains name "filesystem which does not exist" = true →
      m.GetByName parseDetailedOutput name s = (.error .errNotFound, s1)) :=
  ⟨by decide, by decide, by decide, by decide, by decide,
   fun _ m parse name output execErr s s1 hrun hname =>
     GetByName_phrase_in_name m parse name output execErr s s1 hrun hname⟩

end stratis

/-! ## Configuration file values against flag defaults -/

namespace main

open config

/-- C29: `Merge` overwrites a field with every non-empty argument and leaves it
unchanged for an empty one. In `run`, with the flags `mount-path`, `socket` and
`backend` omitted, the merged `MountPath`, `SocketPath` and `Backend` are the
defaults, whatever the loaded configuration holds, and they stay so after
`ApplyDefaults`; the merged `Pool` is the one of the loaded configuration when
the flag `pool` is omitted (or empty), the flag otherwise. -/
theorem Merge_flag_defaults :
    (∀ (c : Config) (pool mountPath socketPath backend : String),
      (c.Merge pool mountPath socketPath backend).Pool = (if pool = "" then c.Pool else pool) ∧
      (c.Merge pool mountPath socketPath backend).MountPath
        = (if mountPath = "" then c.MountPath else mountPath) ∧
      (c.Merge pool mountPath socketPath backend).SocketPath
        = (if socketPath = "" then c.SocketPath else socketPath) ∧
      (c.Merge pool mountPath socketPath backend).Backend
        = (if backend = "" then c.Backend else backend)) ∧
    (∀ (cfg : Config) (pool cfgPath : Option String),
      (mergeFlags ⟨pool, none, none, cfgPath, none⟩ cfg).MountPath = DefaultMountPath ∧
      (mergeFlags ⟨pool, none, none, cfgPath, none⟩ cfg).SocketPath = DefaultSocketPath ∧
      (mergeFlags ⟨pool, none, none, cfgPath, none⟩ cfg).Backend = DefaultBackend ∧
      (mergeFlags ⟨pool, none, none, cfgPath, none⟩ cfg).Pool
        = (if pool.getD "" = "" then cfg.Pool else pool.getD "") ∧
      (mergeFlags ⟨none, none, none, cfgPath, none⟩ cfg).Pool = cfg.Pool ∧
      runConfig ⟨pool, none, none, cfgPath, none⟩ cfg
        = ⟨if pool.getD "" = "" then cfg.Pool else pool.getD "", DefaultMountPath,
            DefaultSocketPath, DefaultBackend⟩) := by
  have hm : DefaultMountPath ≠ "" := by decide
  have hs : DefaultSocketPath ≠ "" := by decide
  have hb : DefaultBackend ≠ "" := by decide
  constructor
  · intro c pool mountPath socketPath backend
    unfold Config.Merge
    by_cases h1 : pool = "" <;> by_cases h2 : mountPath = "" <;>
      by_cases h3 : socketPath = "" <;> by_cases h4 : backend = "" <;> simp [h1, h2, h3, h4]
  · intro cfg pool cfgPath
    by_cases h1 : pool.getD "" = "" <;>
      simp [runConfig, mergeFlags, flagString, Config.Merge, Config.ApplyDefaults, hm, hs, hb, h1]

end main

/-! ## Removal looks at the canonical mount point only -/

namespace driver

variable {σ : Type}

/-- Every call `Remove` makes is the lookup of the volume, the question whether
the canonical mount point is mounted, the unmount or the removal of the canonical
mount point, or a delete in the backend. -/
theorem Remove_calls (d : Driver σ) (name : String) (s : σ) :
    ∀ c ∈ (d.Remove name s []).2.2,
      c = .getByName name ∨ c = .isMounted (d.mountPointPath name) ∨
      c = .unmount (d.mountPointPath name) ∨ c = .removeAll (d.mountPointPath name) ∨
      ∃ n, c = .delete n := by
  rcases hget : d.stratis.GetByName name s with ⟨r, s1⟩
  rcases r with err | fs
  · by_cases hnf : err.isNotFound = true <;>
      simp [Driver.Remove, bind_apply, pure_apply, call_apply, hget, hnf]
  · rcases hmnt : d.mounter.IsMounted (d.mountPointPath name) s1 with ⟨m, s2⟩
    rcases m with err | mounted
    · simp [Driver.Remove, bind_apply, pure_apply, call_apply, hget, hmnt]
    · cases mounted
      · rcases hrm : d.os.RemoveAll (d.mountPointPath name) s2 with ⟨e, s3⟩
        cases fs with
        | none => simp [Driver.Remove, bind_apply, pure_apply, call_apply, hget, hmnt, hrm]
        | some fs =>
          rcases hdel : d.stratis.Delete fs.Name s3 with ⟨de, s4⟩
          cases de <;>
            simp [Driver.Remove, bind_apply, pure_apply, call_apply, hget, hmnt, hrm, hdel]
      · rcases hun : d.mounter.Unmount (d.mountPointPath name) s2 with ⟨u, s3⟩
        cases u with
        | some err => simp [Driver.Remove, bind_apply, pure_apply, call_apply, hget, hmnt, hun]
        | none =>
          rcases hrm : d.os.RemoveAll (d.mountPointPath name) s3 with ⟨e, s4⟩
          cases fs with
          | none =>
            simp [Driver.Remove, bind_apply, pure_apply, call_apply, hget, hmnt, hun, hrm]
          | some fs =>
            rcases hdel : d.stratis.Delete fs.Name s4 with ⟨de, s5⟩
            cases de <;>
              simp [Driver.Remove, bind_apply, pure_apply, call_apply, hget, hmnt, hun, hrm,
                hdel]

/-- C30: `Remove` asks the mounter one question, whether something is mounted at
the canonical mount point of the volume, and never where the device is mounted.
For an existing volume with nothing mounted at the canonical mount point,
wherever else its device may be mounted, `Remove` makes no unmount: it removes
the canonical directory tree, issues the delete in the backend and returns what
the delete returns. In every run of `Remove`, an unmount is of the canonical
mount point, and no lookup of the mount point of a device is made. -/
theorem Remove_canonical_only (d : Driver σ) (name : String) (s : σ) :
    (∀ (fs : stratis.Filesystem) (s1 s2 s3 s4 : σ) (rmErr delErr : Option GoError),
      d.stratis.GetByName name s = (.ok (some fs), s1) →
      d.mounter.IsMounted (d.mountPointPath name) s1 = (.ok false, s2) →
      d.os.RemoveAll (d.mountPointPath name) s2 = (rmErr, s3) →
      d.stratis.Delete fs.Name s3 = (delErr, s4) →
      d.Remove name s [] =
        ((match delErr with
          | none => .ok ()
          | some err => .error (.wrap "delete filesystem" err)), s4,
          [.getByName name, .isMounted (d.mountPointPath name),
           .removeAll (d.mountPointPath name), .delete fs.Name])) ∧
    (∀ p, Call.unmount p ∈ (d.Remove name s []).2.2 → p = d.mountPointPath name) ∧
    (∀ source, Call.getMountPoint source ∉ (d.Remove name s []).2.2) := by
  refine ⟨?_, ?_, ?_⟩
  · intro fs s1 s2 s3 s4 rmErr delErr hget hmounted hrm hdel
    cases delErr <;>
      simp [Driver.Remove, bind_apply, pure_apply, call_apply, hget, hmounted, hrm, hdel]
  · intro p hp
    rcases Remove_calls d name s _ hp with h | h | h | h | ⟨n, h⟩ <;> simp_all
  · intro source hp
    rcases Remove_calls d name s _ hp with h | h | h | h | ⟨n, h⟩ <;> simp_all

/-- C30, in the small world: the device of `vol1` is mounted at `/media/vol1`
and nothing is mounted at `/mnt/vol1`. -/
theorem Remove_canonical_only_witness :
    (demo.mounter.GetMountPoint demo.vol1.DevicePath demo.mountedElsewhere).1
      = ("/media/vol1", none) ∧
    (demo.mounter.IsMounted (demo.driver.mountPointPath "vol1") demo.mountedElsewhere).1
      = .ok false ∧
    demo.driver.Remove "vol1" demo.mountedElsewhere [] =
      (.ok (), demo.mountedElsewhere,
        [.getByName "vol1", .isMounted (demo.driver.mountPointPath "vol1"),
         .removeAll (demo.driver.mountPointPath "vol1"), .delete demo.vol1.Name]) :=
  ⟨by decide, by decide,
   (Remove_canonical_only demo.driver "vol1" demo.mountedElsewhere).1 demo.vol1
     demo.mountedElsewhere demo.mountedElsewhere demo.mountedElsewhere demo.mountedElsewhere
     (some (.msg "permission denied")) none (by decide) (by decide) (by decide) (by decide)⟩

end driver

/-! ## Parsing after formatting -/

namespace driver

/-- The driver's `parseSize` on the decimal representation of `n` followed by a
unit with the facts of `unitFacts`, when the product is below 2^53. -/
theorem parseSize_toString_unit (conv : ℚ → Nat) (n : ℕ) (u : String) (m : ℕ)
    (hu : unitFacts u.data m = true) (hm : 0 < m) (hlt : n * m < 2 ^ 53) :
    parseSize conv (toString n ++ u) = .ok (n * m) := by
  obtain ⟨hne, hd, hv⟩ := strconv.toString_digits n
  have key := parseSize_digits_unit conv [] (toString n).data u.data [] m
    (by simp) (by simp) hne hd hu hm (by rw [hv]; exact hlt)
  rw [hv] at key
  have hs : toString n ++ u = ⟨[] ++ (toString n).data ++ u.data ++ []⟩ := by
    apply String.ext; simp
  rw [hs, key]

/-- C27: for every byte count `b` below 2^53, the driver's `parseSize` applied to
`formatSize b` succeeds and returns `b`; `formatSize b` is the text the CLI
backend passes to the tool after `--size` when it creates a filesystem with the
size limit `b`. -/
theorem parseSize_formatSize {σ : Type} (conv : ℚ → Nat) (m : stratis.CLIManager σ)
    (name : String) (b : ℕ) (hb : b < 2 ^ 53) :
    parseSize conv (stratis.formatSize b) = .ok b ∧
    m.createArgs name (some b)
      = ["fs", "create", "--size", stratis.formatSize b, m.pool, name] := by
  refine ⟨?_, rfl⟩
  unfold stratis.formatSize
  simp only []
  split_ifs with h1 h2 h3
  · have := parseSize_toString_unit conv (b / (1024 * 1024 * 1024)) "GiB" (1024 ^ 3)
      (by decide) (by norm_num) (by omega)
    rw [this]
    congr 1
    omega
  · have := parseSize_toString_unit conv (b / (1024 * 1024)) "MiB" (1024 ^ 2)
      (by decide) (by norm_num) (by omega)
    rw [this]
    congr 1
    omega
  · have := parseSize_toString_unit conv (b / 1024) "KiB" 1024
      (by decide) (by norm_num) (by omega)
    rw [this]
    congr 1
    omega
  · have := parseSize_toString_unit conv b "B" 1 (by decide) (by norm_num) (by omega)
    rw [this]
    congr 1
    omega

/-- C27, at concrete byte counts: 1536 MiB, 1000 bytes, zero, and the largest
count below 2^53. -/
theorem parseSize_formatSize_witness :
    parseSize (fun _ => 0) (stratis.formatSize 1610612736) = .ok 1610612736 ∧
    parseSize (fun _ => 0) (stratis.formatSize 1000) = .ok 1000 ∧
    parseSize (fun _ => 0) (stratis.formatSize 0) = .ok 0 ∧
    parseSize (fun _ => 0) (stratis.formatSize (2 ^ 53 - 1)) = .ok (2 ^ 53 - 1) ∧
    stratis.formatSize 1610612736 = "1536MiB" ∧
    demo.cliManager.createArgs "vol2" (some 1610612736)
      = ["fs", "create", "--size", "1536MiB", "podman_vols", "vol2"] :=
  ⟨(parseSize_formatSize (fun _ => 0) demo.cliManager "vol2" 1610612736 (by norm_num)).1,
   (parseSize_formatSize (fun _ => 0) demo.cliManager "vol2" 1000 (by norm_num)).1,
   (parseSize_formatSize (fun _ => 0) demo.cliManager "vol2" 0 (by norm_num)).1,
   (parseSize_formatSize (fun _ => 0) demo.cliManager "vol2" (2 ^ 53 - 1) (by norm_num)).1,
   by decide,
   by decide⟩

end driver

/-! ## Decoding a field of the mount table -/

namespace procmounts

open strings

/-- One pass of `unescapeField` over a text in which every backslash starts a
code: the pass for the code of `x` decodes the occurrences of that code and
leaves the other codes in place. -/
theorem replaceAllFrom_escapeRunes (x : Char) (coded : List Char)
    (hx : x = ' ' ∨ x = '\t' ∨ x = '\n' ∨ x = '\\') (hb : '\\' ∈ coded) (s : List Char) :
    replaceAllFrom (escapeRune x) [x] 0 (escapeRunes coded s)
      = escapeRunes (coded.filter (fun c => c != x)) s := by
  induction s with
  | nil => simp [escapeRunes, replaceAllFrom]
  | cons c t ih =>
    have hcons : ∀ E, escapeRunes E (c :: t)
        = (if c ∈ E then escapeRune c else [c]) ++ escapeRunes E t := by
      intro E; simp [escapeRunes]
    rw [hcons, hcons]
    have hmiss : c ≠ '\\' → ∀ rest, replaceAllFrom (escapeRune x) [x] 0 (c :: rest)
        = c :: replaceAllFrom (escapeRune x) [x] 0 rest := by
      intro hc rest
      have hc2 : ('\\' == c) = false := by simpa using Ne.symm hc
      rcases hx with h | h | h | h <;> subst h <;>
        simp [escapeRune, replaceAllFrom, List.isPrefixOf, hc2]
    by_cases h1 : c = '\\'
    · subst h1
      rcases hx with h | h | h | h <;> subst h <;>
        simp [escapeRune, replaceAllFrom, List.isPrefixOf, hb] <;>
        simpa [escapeRune] using ih
    · by_cases h2 : c = ' '
      · subst h2
        by_cases hm : ' ' ∈ coded
        · rcases hx with h | h | h | h <;> subst h <;>
            simp [escapeRune, replaceAllFrom, List.isPrefixOf, hm] <;>
              simpa [escapeRune] using ih
        · rcases hx with h | h | h | h <;> subst h <;>
            simp [escapeRune, replaceAllFrom, List.isPrefixOf, hm] <;>
              simpa [escapeRune] using ih
      · by_cases h3 : c = '\t'
        · subst h3
          by_cases hm : '\t' ∈ coded
          · rcases hx with h | h | h | h <;> subst h <;>
              simp [escapeRune, replaceAllFrom, List.isPrefixOf, hm] <;>
              simpa [escapeRune] using ih
          · rcases hx with h | h | h | h <;> subst h <;>
              simp [escapeRune, replaceAllFrom, List.isPrefixOf, hm] <;>
              simpa [escapeRune] using ih
        · by_cases h4 : c = '\n'
          · subst h4
            by_cases hm : '\n' ∈ coded
            · rcases hx with h | h | h | h <;> subst h <;>
                simp [escapeRune, replaceAllFrom, List.isPrefixOf, hm] <;>
              simpa [escapeRune] using ih
            · rcases hx with h | h | h | h <;> subst h <;>
                simp [escapeRune, replaceAllFrom, List.isPrefixOf, hm] <;>
              simpa [escapeRune] using ih
          · have hplain : escapeRune c = [c] := by simp [escapeRune, h1, h2, h3, h4]
            have hboth : ∀ E : List Char, (if c ∈ E then escapeRune c else [c]) = [c] := by
              intro E; split <;> simp [hplain]
            rw [hboth, hboth]
            simp only [List.singleton_append]
            rw [hmiss h1, ih]

/-- `ReplaceAll` with a non-empty `old`, on the runes. -/
theorem ReplaceAll_data (s old new : String) (h : old ≠ "") :
    (ReplaceAll s old new).data = replaceAllFrom old.data new.data 0 s.data := by
  simp [ReplaceAll, h]

/-- C26: for every string `s`, `unescapeField` applied to the string obtained
from `s` by replacing each backslash with \134, each space with \040, each tab
with \011 and each newline with \012 returns `s`. -/
theorem unescapeField_escapeField (s : String) : unescapeField (escapeField s) = s := by
  apply String.ext
  have e1 : ("\\040" : String).data = escapeRune ' ' := by decide
  have e2 : ("\\011" : String).data = escapeRune '\t' := by decide
  have e3 : ("\\012" : String).data = escapeRune '\n' := by decide
  have e4 : ("\\134" : String).data = escapeRune '\\' := by decide
  have s1 := replaceAllFrom_escapeRunes ' ' ['\\', ' ', '\t', '\n'] (by simp) (by simp) s.data
  have s2 := replaceAllFrom_escapeRunes '\t' ['\\', '\t', '\n'] (by simp) (by simp) s.data
  have s3 := replaceAllFrom_escapeRunes '\n' ['\\', '\n'] (by simp) (by simp) s.data
  have s4 := replaceAllFrom_escapeRunes '\\' ['\\'] (by simp) (by simp) s.data
  have f1 : (['\\', ' ', '\t', '\n'] : List Char).filter (fun c => c != ' ')
      = ['\\', '\t', '\n'] := by decide
  have f2 : (['\\', '\t', '\n'] : List Char).filter (fun c => c != '\t') = ['\\', '\n'] := by
    decide
  have f3 : (['\\', '\n'] : List Char).filter (fun c => c != '\n') = ['\\'] := by decide
  have f4 : (['\\'] : List Char).filter (fun c => c != '\\') = [] := by decide
  rw [f1] at s1
  rw [f2] at s2
  rw [f3] at s3
  rw [f4] at s4
  have hid : escapeRunes [] s.data = s.data := by
    simp [escapeRunes]
  unfold unescapeField escapeField
  simp only []
  rw [ReplaceAll_data _ _ _ (by decide), ReplaceAll_data _ _ _ (by decide),
    ReplaceAll_data _ _ _ (by decide), ReplaceAll_data _ _ _ (by decide)]
  rw [e1, e2, e3, e4]
  show replaceAllFrom (escapeRune '\\') ['\\'] 0
    (replaceAllFrom (escapeRune '\n') ['\n'] 0
      (replaceAllFrom (escapeRune '\t') ['\t'] 0
        (replaceAllFrom (escapeRune ' ') [' '] 0
          (escapeRunes ['\\', ' ', '\t', '\n'] s.data)))) = s.data
  rw [s1, s2, s3, s4, hid]

/-- The escaping and the decoding on a path with a space, a backslash followed
by the digits of a code, and a tab. -/
theorem unescapeField_example :
    escapeField "/mnt/my vol\\040\t1" = "/mnt/my\\040vol\\134040\\0111" ∧
    unescapeField "/mnt/my\\040vol\\134040\\0111" = "/mnt/my vol\\040\t1" := by
  decide

end procmounts

/-! ## The pool path cache around a mutating call -/

namespace stratis

variable {σ : Type}

/-- A reply that `callSucceeded` accepts has no call error and a body with the
return code 0 in the second place. -/
theorem callSucceeded_iff (reply : dbus.CallResult) :
    callSucceeded reply = true ↔
      reply.Err = none ∧ ∃ b0 msg rest, reply.Body = b0 :: .uint16 0 :: msg :: rest := by
  rcases reply with ⟨err, body⟩
  cases err with
  | some e => simp [callSucceeded]
  | none =>
    match body with
    | [] => simp [callSucceeded]
    | [_] => simp [callSucceeded]
    | [_, _] => simp [callSucceeded]
    | b0 :: code :: msg :: rest =>
      cases code with
      | uint16 n =>
        cases n with
        | zero => simp [callSucceeded]
        | succ k => simp [callSucceeded]
      | _ => simp [callSucceeded]

/-- `Create` after a `CreateFilesystems` call that failed: an error, in the
state right after the call, with the cached pool path as it was. -/
theorem Create_failed_call (m : DBusManager σ) (name poolPath : String) (sizeLimit : Option ℕ)
    (st st1 : BusState σ) (reply : dbus.CallResult) (w2 : σ)
    (hpool : m.findPoolPath st = (.ok poolPath, st1))
    (hcall : m.conn.CreateFilesystems poolPath (createSpecs name sizeLimit) st1.world =
      (reply, w2))
    (hfail : callSucceeded reply = false) :
    (∃ err, (m.Create name sizeLimit st).1 = .error err) ∧
    (m.Create name sizeLimit st).2 = BusState.mk st1.poolPath w2
        (st1.calls ++ [.createFilesystems poolPath (createSpecs name sizeLimit)]) := by
  rcases reply with ⟨err, body⟩
  cases err with
  | some e =>
    simp [DBusManager.Create, bus_bind_apply, bus_pure_apply, hpool, busCall, hcall]
  | none =>
    match body, hcall, hfail with
    | [], hcall, _ =>
      simp [DBusManager.Create, bus_bind_apply, bus_pure_apply, hpool, busCall, hcall]
    | [_], hcall, _ =>
      simp [DBusManager.Create, bus_bind_apply, bus_pure_apply, hpool, busCall, hcall]
    | [_, _], hcall, _ =>
      simp [DBusManager.Create, bus_bind_apply, bus_pure_apply, hpool, busCall, hcall]
    | b0 :: code :: msg :: rest, hcall, hfail =>
      cases code with
      | uint16 n =>
        cases n with
        | zero => simp [callSucceeded] at hfail
        | succ k =>
          simp [DBusManager.Create, bus_bind_apply, bus_pure_apply, hpool, busCall, hcall,
            checkReturnCode]
      | str x =>
        simp [DBusManager.Create, bus_bind_apply, bus_pure_apply, hpool, busCall, hcall]
      | objectPath x =>
        simp [DBusManager.Create, bus_bind_apply, bus_pure_apply, hpool, busCall, hcall]
      | bool x =>
        simp [DBusManager.Create, bus_bind_apply, bus_pure_apply, hpool, busCall, hcall]
      | other =>
        simp [DBusManager.Create, bus_bind_apply, bus_pure_apply, hpool, busCall, hcall]

/-- `Delete` after its `DestroyFilesystems` call: with the return code 0 it
returns no error and the cached pool path is empty; after a call that failed
it returns an error and the cached pool path is as it was. -/
theorem Delete_after_call (m : DBusManager σ) (name poolPath fsPath : String)
    (st st1 st2 : BusState σ) (reply : dbus.CallResult) (w3 : σ)
    (hpool : m.findPoolPath st = (.ok poolPath, st1))
    (hfs : m.findFilesystemPath name st1 = (.ok fsPath, st2))
    (hcall : m.conn.DestroyFilesystems poolPath [fsPath] st2.world = (reply, w3)) :
    (callSucceeded reply = true →
      m.Delete name st = (none, BusState.mk "" w3
        (st2.calls ++ [.destroyFilesystems poolPath [fsPath]]))) ∧
    (callSucceeded reply = false →
      (∃ err, (m.Delete name st).1 = some err) ∧
      (m.Delete name st).2 = BusState.mk st2.poolPath w3
        (st2.calls ++ [.destroyFilesystems poolPath [fsPath]])) := by
  rcases reply with ⟨err, body⟩
  constructor
  · intro hs
    obtain ⟨he, b0, msg, rest, hb⟩ := (callSucceeded_iff _).mp hs
    simp only at he hb
    subst he hb
    simp [DBusManager.Delete, bus_bind_apply, bus_pure_apply, hpool, hfs, busCall, hcall,
      checkReturnCode]
  · intro hfail
    cases err with
    | some e =>
      simp [DBusManager.Delete, bus_bind_apply, bus_pure_apply, hpool, hfs, busCall, hcall]
    | none =>
      match body, hcall, hfail with
      | [], hcall, _ =>
        simp [DBusManager.Delete, bus_bind_apply, bus_pure_apply, hpool, hfs, busCall, hcall]
      | [_], hcall, _ =>
        simp [DBusManager.Delete, bus_bind_apply, bus_pure_apply, hpool, hfs, busCall, hcall]
      | [_, _], hcall, _ =>
        simp [DBusManager.Delete, bus_bind_apply, bus_pure_apply, hpool, hfs, busCall, hcall]
      | b0 :: code :: msg :: rest, hcall, hfail =>
        cases code with
        | uint16 n =>
          cases n with
          | zero => simp [callSucceeded] at hfail
          | succ k =>
            simp [DBusManager.Delete, bus_bind_apply, bus_pure_apply, hpool, hfs, busCall,
              hcall, checkReturnCode]
        | str x =>
          simp [DBusManager.Delete, bus_bind_apply, bus_pure_apply, hpool, hfs, busCall, hcall]
        | objectPath x =>
          simp [DBusManager.Delete, bus_bind_apply, bus_pure_apply, hpool, hfs, busCall, hcall]
        | bool x =>
          simp [DBusManager.Delete, bus_bind_apply, bus_pure_apply, hpool, hfs, busCall, hcall]
        | other =>
          simp [DBusManager.Delete, bus_bind_apply, bus_pure_apply, hpool, hfs, busCall, hcall]

/-- The state after a successful `findPoolPath` holds the path it returned. -/
theorem findPoolPath_cached (m : DBusManager σ) (st st1 : BusState σ) (poolPath : String)
    (h : m.findPoolPath st = (.ok poolPath, st1)) : st1.poolPath = poolPath := by
  unfold DBusManager.findPoolPath at h
  by_cases hc : st.poolPath = ""
  · simp only [hc, ne_eq, not_true_eq_false, if_false] at h
    rcases hg : m.getManagedObjects st with ⟨r, st'⟩
    rw [hg] at h
    cases r with
    | error e => simp at h
    | ok objects =>
      simp only at h
      cases hs : scanPool m.pool objects with
      | none => rw [hs] at h; simp at h
      | some path =>
        rw [hs] at h
        simp only [Prod.mk.injEq, Except.ok.injEq] at h
        rw [← h.2, ← h.1]
  · simp only [ne_eq, hc, not_false_eq_true, if_true, Prod.mk.injEq, Except.ok.injEq] at h
    rw [← h.2, h.1]

/-- With an empty cache, `findPoolPath` asks the bus for the object graph. -/
theorem findPoolPath_rescan (m : DBusManager σ) (st : BusState σ) (h : st.poolPath = "") :
    (m.findPoolPath st).2.calls = st.calls ++ [.getManagedObjects] := by
  unfold DBusManager.findPoolPath
  simp only [h, ne_eq, not_true_eq_false, if_false]
  have hg : (m.getManagedObjects st).2.calls = st.calls ++ [.getManagedObjects] := by
    have hb : ∀ p : dbus.ManagedObjectsReply × σ, m.conn.GetManagedObjects st.world = p →
        (m.getManagedObjects st).2.calls = st.calls ++ [.getManagedObjects] := by
      rintro ⟨r, w⟩ hp
      cases r <;>
        simp [DBusManager.getManagedObjects, bus_bind_apply, bus_pure_apply, busCall, hp]
    exact hb _ rfl
  rcases hgm : m.getManagedObjects st with ⟨r, st'⟩
  rw [hgm] at hg
  cases r with
  | error e => exact hg
  | ok objects =>
    simp only
    cases scanPool m.pool objects <;> exact hg

/-- C23, as stated, fails. On the small bus with a `DestroyFilesystems` call that
fails, `Delete` returns the error after the call with the pool path still
cached; so does `Create` after a `CreateFilesystems` call that returns the code
1. And `Create` after a call that succeeds returns with the pool path its poll
cached again, not with an empty cache. -/
theorem cache_kept_after_call :
    demo.failingBusManager.Delete "vol1" demo.busStart =
      (some (.wrap "DestroyFilesystems" (.msg "connection closed")),
        { poolPath := demo.poolPath, world := 2,
          calls := [.getManagedObjects, .getManagedObjects,
            .destroyFilesystems demo.poolPath ["/org/storage/stratis3/filesystem/1"]] }) ∧
    demo.failingBusManager.Create "vol2" none demo.busStart =
      (.error (.wrap "create filesystem" (.msg "stratisd error (code 1): pool is full")),
        { poolPath := demo.poolPath, world := 1,
          calls := [.getManagedObjects,
            .createFilesystems demo.poolPath (createSpecs "vol2" none)] }) ∧
    ((demo.busManager 1 [demo.vol1Object]).Create "vol1" none demo.busStart).1
      = .ok demo.busVol1 ∧
    ((demo.busManager 1 [demo.vol1Object]).Create "vol1" none demo.busStart).2.poolPath
      = demo.poolPath ∧
    demo.poolPath ≠ "" := by
  refine ⟨by rfl, by rfl, by rfl, by rfl, by decide⟩

/-- C23, amended: the cached pool path is cleared after a mutating call that
succeeded, and only then. After `findPoolPath` returned `poolPath`, the cache
holds it. If the `CreateFilesystems` call returns the code 0, `Create` goes on
from the state with an empty cache: the first pool resolution of its poll asks
the bus for the object graph again, and `Create` returns in the state its poll
ends in. If the `DestroyFilesystems` call returns the code 0, `Delete` returns
no error with an empty cache. If the call fails (a call error, a reply of
another shape, or another return code), `Create` and `Delete` return an error
in the state right after the call, with the cached pool path as it was. -/
theorem mutating_call_cache (m : DBusManager σ) (name poolPath : String)
    (sizeLimit : Option ℕ) (st st1 : BusState σ)
    (hpool : m.findPoolPath st = (.ok poolPath, st1)) :
    st1.poolPath = poolPath ∧
    (∀ (reply : dbus.CallResult) (w2 : σ),
      m.conn.CreateFilesystems poolPath (createSpecs name sizeLimit) st1.world = (reply, w2) →
      (callSucceeded reply = true →
        (m.findPoolPath (BusState.mk "" w2
          (st1.calls ++ [.createFilesystems poolPath (createSpecs name sizeLimit)]))).2.calls
          = st1.calls ++ [.createFilesystems poolPath (createSpecs name sizeLimit),
              .getManagedObjects] ∧
        (m.Create name sizeLimit st).2 = (m.pollCreated name 10 (.ok none) (BusState.mk "" w2
          (st1.calls ++ [.createFilesystems poolPath (createSpecs name sizeLimit)]))).2) ∧
      (callSucceeded reply = false →
        (∃ err, (m.Create name sizeLimit st).1 = .error err) ∧
        (m.Create name sizeLimit st).2 = BusState.mk st1.poolPath w2
          (st1.calls ++ [.createFilesystems poolPath (createSpecs name sizeLimit)]))) ∧
    (∀ (fsPath : String) (st2 : BusState σ) (reply : dbus.CallResult) (w3 : σ),
      m.findFilesystemPath name st1 = (.ok fsPath, st2) →
      m.conn.DestroyFilesystems poolPath [fsPath] st2.world = (reply, w3) →
      (callSucceeded reply = true →
        m.Delete name st = (none, BusState.mk "" w3
          (st2.calls ++ [.destroyFilesystems poolPath [fsPath]]))) ∧
      (callSucceeded reply = false →
        (∃ err, (m.Delete name st).1 = some err) ∧
        (m.Delete name st).2 = BusState.mk st2.poolPath w3
          (st2.calls ++ [.destroyFilesystems poolPath [fsPath]]))) := by
  refine ⟨findPoolPath_cached m st st1 poolPath hpool, ?_, ?_⟩
  · intro reply w2 hcall
    constructor
    · intro hs
      obtain ⟨he, b0, msg, rest, hb⟩ := (callSucceeded_iff _).mp hs
      constructor
      · rw [findPoolPath_rescan m _ rfl]
        simp
      · rw [Create_after_call m name poolPath sizeLimit st st1 _ reply w2 b0 msg rest
          hpool hcall he hb rfl]
    · exact Create_failed_call m name poolPath sizeLimit st st1 reply w2 hpool hcall
  · intro fsPath st2 reply w3 hfs hcall
    exact Delete_after_call m name poolPath fsPath st st1 st2 reply w3 hpool hfs hcall

/-- C23 amended, on the small bus: `Delete` of `vol1` with a connection whose
mutating calls succeed returns with an empty cache, and `Create` and `Delete`
with a connection whose mutating calls fail return with the pool path cached. -/
theorem mutating_call_cache_witness :
    (demo.busManager 1 [demo.vol1Object]).Delete "vol1" demo.busStart =
      (none, BusState.mk "" 2
        ([.getManagedObjects, .getManagedObjects] ++
          [.destroyFilesystems demo.poolPath ["/org/storage/stratis3/filesystem/1"]])) ∧
    (demo.failingBusManager.Create "vol2" none demo.busStart).2 =
      BusState.mk demo.poolPath 1
        ([.getManagedObjects] ++ [.createFilesystems demo.poolPath (createSpecs "vol2" none)]) ∧
    (demo.failingBusManager.Delete "vol1" demo.busStart).2 =
      BusState.mk demo.poolPath 2
        ([.getManagedObjects, .getManagedObjects] ++
          [.destroyFilesystems demo.poolPath ["/org/storage/stratis3/filesystem/1"]]) :=
  ⟨((mutating_call_cache (demo.busManager 1 [demo.vol1Object]) "vol1" demo.poolPath none
      demo.busStart (BusState.mk demo.poolPath 1 [.getManagedObjects]) (by rfl)).2.2
      "/org/storage/stratis3/filesystem/1"
      (BusState.mk demo.poolPath 2 [.getManagedObjects, .getManagedObjects])
      { Err := none, Body := [.other, .uint16 0, .str ""] } 2 (by rfl) (by rfl)).1 (by rfl),
   (((mutating_call_cache demo.failingBusManager "vol2" demo.poolPath none
      demo.busStart (BusState.mk demo.poolPath 1 [.getManagedObjects]) (by rfl)).2.1
      { Err := none, Body := [.other, .uint16 1, .str "pool is full"] } 1 (by rfl)).2
      (by rfl)).2,
   (((mutating_call_cache demo.failingBusManager "vol1" demo.poolPath none
      demo.busStart (BusState.mk demo.poolPath 1 [.getManagedObjects]) (by rfl)).2.2
      "/org/storage/stratis3/filesystem/1"
      (BusState.mk demo.poolPath 2 [.getManagedObjects, .getManagedObjects])
      { Err := some (.msg "connection closed"), Body := [] } 2 (by rfl) (by rfl)).2
      (by rfl)).2⟩

end stratis

/-! ## Lines, fields and pieces of a text -/

namespace strings

/-- `splitFrom` returns at least one piece. -/
theorem splitFrom_ne_nil (sep : List Char) (k : ℕ) (cs cur : List Char) :
    splitFrom sep k cs cur ≠ [] := by
  induction cs generalizing k cur with
  | nil => simp [splitFrom]
  | cons c cs ih =>
    cases k with
    | zero =>
      unfold splitFrom
      split
      · simp
      · exact ih _ _
    | succ k =>
      unfold splitFrom
      exact ih _ _

/-- White space before a field is skipped. -/
theorem fieldsFuncFrom_spaces (f : Char → Bool) (w rest : List Char)
    (hw : ∀ c ∈ w, f c = true) :
    fieldsFuncFrom f (w ++ rest) [] = fieldsFuncFrom f rest [] := by
  induction w with
  | nil => rfl
  | cons c w ih =>
    have hc := hw c (List.mem_cons_self _ _)
    simp [fieldsFuncFrom, hc, ih (fun x hx => hw x (List.mem_cons_of_mem _ hx))]

/-- The characters of a field are collected. -/
theorem fieldsFuncFrom_token (f : Char → Bool) (tok rest cur : List Char)
    (ht : ∀ c ∈ tok, f c = false) :
    fieldsFuncFrom f (tok ++ rest) cur = fieldsFuncFrom f rest (cur ++ tok) := by
  induction tok generalizing cur with
  | nil => simp
  | cons c tok ih =>
    have hc := ht c (List.mem_cons_self _ _)
    simp [fieldsFuncFrom, hc, ih (cur ++ [c]) (fun x hx => ht x (List.mem_cons_of_mem _ hx))]

/-- White space after a field ends it. -/
theorem fieldsFuncFrom_sep (f : Char → Bool) (w rest cur : List Char) (hcur : cur ≠ [])
    (hne : w ≠ []) (hw : ∀ c ∈ w, f c = true) :
    fieldsFuncFrom f (w ++ rest) cur = cur :: fieldsFuncFrom f rest [] := by
  cases w with
  | nil => exact absurd rfl hne
  | cons c w =>
    have hc := hw c (List.mem_cons_self _ _)
    have := fieldsFuncFrom_spaces f w rest (fun x hx => hw x (List.mem_cons_of_mem _ hx))
    simp [fieldsFuncFrom, hc, hcur, this]

/-- A last field, followed by white space only. -/
theorem fieldsFuncFrom_end (f : Char → Bool) (w cur : List Char) (hcur : cur ≠ [])
    (hw : ∀ c ∈ w, f c = true) : fieldsFuncFrom f w cur = [cur] := by
  cases w with
  | nil => simp [fieldsFuncFrom, hcur]
  | cons c w =>
    have := fieldsFuncFrom_sep f (c :: w) [] cur hcur (by simp) hw
    simpa [fieldsFuncFrom] using this

/-- The fields of two words inside white space. -/
theorem fieldsFuncFrom_two (f : Char → Bool) (ws0 a ws1 b ws2 : List Char)
    (h0 : ∀ c ∈ ws0, f c = true) (ha : ∀ c ∈ a, f c = false) (hane : a ≠ [])
    (h1 : ∀ c ∈ ws1, f c = true) (h1ne : ws1 ≠ [])
    (hb : ∀ c ∈ b, f c = false) (hbne : b ≠ []) (h2 : ∀ c ∈ ws2, f c = true) :
    fieldsFuncFrom f (ws0 ++ a ++ ws1 ++ b ++ ws2) [] = [a, b] := by
  rw [List.append_assoc, List.append_assoc, List.append_assoc,
    fieldsFuncFrom_spaces f _ _ h0, fieldsFuncFrom_token f _ _ _ ha, List.nil_append,
    fieldsFuncFrom_sep f _ _ _ hane h1ne h1, fieldsFuncFrom_token f _ _ _ hb, List.nil_append,
    fieldsFuncFrom_end f _ _ hbne h2]

end strings

namespace bufio

/-- A line that ends with a newline: a token, unless it is too long. -/
theorem scanLinesFrom_line (l rest cur : List Char) (hl : '\n' ∉ l) :
    scanLinesFrom (l ++ '\n' :: rest) cur =
      if String.utf8Len (cur ++ l) ≥ MaxScanTokenSize then []
      else dropCR (cur ++ l) :: scanLinesFrom rest [] := by
  induction l generalizing cur with
  | nil => simp [scanLinesFrom]
  | cons c l ih =>
    have hc : c ≠ '\n' := fun h => hl (by simp [h])
    have hl' : '\n' ∉ l := fun h => hl (List.mem_cons_of_mem _ h)
    simp [scanLinesFrom, hc, ih _ hl']

/-- The scanner yields the pieces between the newlines of a text, each without
a carriage return at its end, when no piece is too long. -/
theorem scanLinesFrom_eq_split (cs cur : List Char)
    (h : ∀ piece ∈ strings.splitFrom ['\n'] 0 cs cur, String.utf8Len piece < MaxScanTokenSize) :
    scanLinesFrom cs cur
      = ((if (strings.splitFrom ['\n'] 0 cs cur).getLast? = some []
            then (strings.splitFrom ['\n'] 0 cs cur).dropLast
            else strings.splitFrom ['\n'] 0 cs cur).map dropCR) := by
  induction cs generalizing cur with
  | nil =>
    have hcur := h cur (by simp [strings.splitFrom])
    by_cases hc : cur = []
    · simp [scanLinesFrom, strings.splitFrom, hc]
    · have : ¬ (String.utf8Len cur ≥ MaxScanTokenSize) := by omega
      simp [scanLinesFrom, strings.splitFrom, hc, this]
  | cons c cs ih =>
    by_cases hc : c = '\n'
    · subst hc
      have hsplit : strings.splitFrom ['\n'] 0 ('\n' :: cs) cur
          = cur :: strings.splitFrom ['\n'] 0 cs [] := by
        simp [strings.splitFrom, List.isPrefixOf]
      rw [hsplit] at h ⊢
      have hcur := h cur (List.mem_cons_self _ _)
      have hrest := ih [] (fun piece hp => h piece (List.mem_cons_of_mem _ hp))
      have hne := strings.splitFrom_ne_nil ['\n'] 0 cs []
      have hnot : ¬ (String.utf8Len cur ≥ MaxScanTokenSize) := by omega
      have hlast : (cur :: strings.splitFrom ['\n'] 0 cs []).getLast?
          = (strings.splitFrom ['\n'] 0 cs []).getLast? := by
        cases hs : strings.splitFrom ['\n'] 0 cs [] with
        | nil => exact absurd hs hne
        | cons a l => simp [List.getLast?_cons_cons]
      have hdrop : (cur :: strings.splitFrom ['\n'] 0 cs []).dropLast
          = cur :: (strings.splitFrom ['\n'] 0 cs []).dropLast := by
        cases hs : strings.splitFrom ['\n'] 0 cs [] with
        | nil => exact absurd hs hne
        | cons a l => simp [List.dropLast]
      simp only [scanLinesFrom, if_true, hnot, if_false, hrest, hlast, hdrop]
      split <;> simp
    · have hsplit : strings.splitFrom ['\n'] 0 (c :: cs) cur
          = strings.splitFrom ['\n'] 0 cs (cur ++ [c]) := by
        have : ('\n' == c) = false := by simpa using Ne.symm hc
        simp [strings.splitFrom, List.isPrefixOf, this]
      rw [hsplit] at h ⊢
      simp only [scanLinesFrom, hc, if_false]
      exact ih _ h

end bufio

namespace stratis

/-- The scanner yields the lines of a text when none has `MaxScanTokenSize`
bytes or more. -/
theorem scanLines_eq_reportLines (text : String)
    (h : ∀ piece ∈ strings.Split text "\n", piece.utf8ByteSize < bufio.MaxScanTokenSize) :
    bufio.scanLines text = reportLines text := by
  have hsplit : strings.Split text "\n"
      = (strings.splitFrom ['\n'] 0 text.data []).map String.mk := by
    simp [strings.Split]
  have hcore := bufio.scanLinesFrom_eq_split text.data [] (by
    intro piece hp
    have := h ⟨piece⟩ (by rw [hsplit]; exact List.mem_map_of_mem _ hp)
    simpa [String.utf8ByteSize] using this)
  unfold bufio.scanLines reportLines
  rw [hcore, hsplit]
  generalize strings.splitFrom ['\n'] 0 text.data [] = L
  have hlast : (L.map String.mk).getLast? = some "" ↔ L.getLast? = some [] := by
    rw [List.getLast?_map]
    cases L.getLast? with
    | none => simp
    | some a =>
      simp only [Option.map_some', Option.some.injEq]
      constructor
      · intro e
        have := congrArg String.data e
        simpa using this
      · intro e
        rw [e]
  by_cases hl : L.getLast? = some []
  · simp only [hl, if_true, hlast.mpr hl, List.map_map]
    rw [← List.map_dropLast, List.map_map]
    rfl
  · have : ¬ ((L.map String.mk).getLast? = some "") := fun e => hl (hlast.mp e)
    simp only [hl, if_false, this, List.map_map]
    rfl

/-- The product of a whole number and a multiplier, below 2^53, is exact in
float64 and is what the conversion to `uint64` returns. -/
theorem mulNat_toUint64 (conv : strconv.Float64 → ℕ) (n m : ℕ) (h : n * m < 2 ^ 53) :
    ((strconv.Float64.finite (n : ℚ)).mulNat m).toUint64 conv = n * m := by
  have hr : strconv.roundFloat64 ((n : ℚ) * (m : ℚ)) = ((n * m : ℕ) : ℚ) := by
    rw [← Nat.cast_mul]
    exact strconv.roundFloat64_natCast _ h
  have hneg : ¬ ((n : ℚ) < 0) := not_lt.mpr (Nat.cast_nonneg n)
  have hmax : ¬ (strconv.maxFloat64 < ((n * m : ℕ) : ℚ)) := by
    have h1 : ((n * m : ℕ) : ℚ) < 2 ^ 53 := by exact_mod_cast h
    have h2 : (2 : ℚ) ^ 53 ≤ strconv.maxFloat64 := by unfold strconv.maxFloat64; norm_num
    exact not_lt.mpr (le_of_lt (lt_of_lt_of_le h1 h2))
  simp only [strconv.Float64.mulNat, hneg, if_false, hr, hmax, strconv.Float64.toUint64]
  rw [← Nat.cast_mul] at hr
  have h3 : (-1 : ℚ) < ((n * m : ℕ) : ℚ) :=
    lt_of_lt_of_le (by norm_num) (Nat.cast_nonneg (n * m))
  have h4 : ((n * m : ℕ) : ℚ) < 2 ^ 64 := by
    have : n * m < 2 ^ 64 := lt_trans h (by norm_num)
    exact_mod_cast this
  rw [if_pos ⟨h3, h4⟩]
  have h5 : ⌊((n * m : ℕ) : ℚ)⌋ = ((n * m : ℕ) : ℤ) := Int.floor_natCast _
  rw [h5]
  omega

/-- `parseSize` on a value and a unit inside white space. -/
theorem parseSize_fields (p : Platform) (ws0 v ws1 u ws2 : List Char) (x : strconv.Float64)
    (m : ℕ) (h0 : ∀ c ∈ ws0, strings.isSpace c = true)
    (hv : ∀ c ∈ v, strings.isSpace c = false) (hvne : v ≠ [])
    (h1 : ∀ c ∈ ws1, strings.isSpace c = true) (h1ne : ws1 ≠ [])
    (hu : ∀ c ∈ u, strings.isSpace c = false) (hune : u ≠ [])
    (h2 : ∀ c ∈ ws2, strings.isSpace c = true)
    (hpf : p.ParseFloat ⟨v⟩ = .ok x) (hm : unitMultiplier (strings.ToUpper ⟨u⟩) = some m) :
    parseSize p ⟨ws0 ++ v ++ ws1 ++ u ++ ws2⟩ = .ok ((x.mulNat m).toUint64 p.Convert) := by
  have hf := strings.fieldsFuncFrom_two strings.isSpace ws0 v ws1 u ws2 h0 hv hvne h1 h1ne hu
    hune h2
  have hf2 : strings.Fields ⟨ws0 ++ v ++ ws1 ++ u ++ ws2⟩ = [⟨v⟩, ⟨u⟩] := by
    unfold strings.Fields strings.FieldsFunc
    rw [hf]
    rfl
  unfold parseSize
  rw [hf2]
  simp [hpf, hm]

/-- The facts about the units of a report that the parsers rely on: a unit is
not empty, holds no white space, no slash and no newline, and upper-cased it
has its multiplier, which is positive. -/
theorem sizeUnits_facts : ∀ e ∈ sizeUnits,
    e.1.data ≠ [] ∧ (∀ c ∈ e.1.data, strings.isSpace c = false ∧ c ≠ '/' ∧ c ≠ '\n') ∧
    unitMultiplier (strings.ToUpper e.1) = some e.2 ∧ 0 < e.2 := by
  decide

/-- `parseSize` on a whole number, a space and a unit of the table, when the
number of bytes is below 2^53. -/
theorem parseSize_sizeText (p : Platform) (n : ℕ) (unit : String) (m : ℕ)
    (hpf : p.ParseFloat (toString n) = .ok (.finite (n : ℚ)))
    (hunit : (unit, m) ∈ sizeUnits) (hlt : n * m < 2 ^ 53) :
    parseSize p (sizeText n unit) = .ok (n * m) := by
  obtain ⟨hne, hd, _⟩ := strconv.toString_digits n
  obtain ⟨hune, hu, hm, _⟩ := sizeUnits_facts (unit, m) hunit
  have key := parseSize_fields p [] (toString n).data [' '] unit.data [] (.finite (n : ℚ)) m
    (by simp) (fun c hc => strings.isDigit_not_space c (hd c hc)) hne
    (by intro c hc; simp at hc; subst hc; decide) (by simp)
    (fun c hc => (hu c hc).1) hune (by simp) hpf hm
  have hs : sizeText n unit = ⟨[] ++ (toString n).data ++ [' '] ++ unit.data ++ []⟩ := by
    apply String.ext; simp [sizeText]
  rw [hs, key, mulNat_toUint64 _ _ _ hlt]

end stratis

/-! ## The pieces of the size info and the pattern of a table line -/

namespace strings

/-- A run satisfying `p` followed by a text whose first element does not: the
run is what `takeWhile` takes and the text is what `dropWhile` leaves. -/
theorem takeWhile_dropWhile_append {α : Type} (p : α → Bool) (a b : List α)
    (ha : ∀ x ∈ a, p x = true) (hb : ∀ x ∈ b.head?, p x = false) :
    (a ++ b).takeWhile p = a ∧ (a ++ b).dropWhile p = b := by
  induction a with
  | nil =>
    cases b with
    | nil => simp
    | cons x b =>
      have := hb x (by simp)
      simp [List.takeWhile, List.dropWhile, this]
  | cons x a ih =>
    have hx := ha x (List.mem_cons_self _ _)
    have := ih (fun y hy => ha y (List.mem_cons_of_mem _ hy))
    simp [List.takeWhile, List.dropWhile, hx, this]

/-- A text that neither starts nor ends with white space is what `TrimSpace`
returns for it. -/
theorem trimSpaceRunes_of_ends (l : List Char) (hh : ∀ c ∈ l.head?, isSpace c = false)
    (hl : ∀ c ∈ l.getLast?, isSpace c = false) : trimSpaceRunes l = l := by
  unfold trimSpaceRunes
  rw [dropWhile_none isSpace l hh, dropWhile_none isSpace l.reverse (by simpa using hl),
    List.reverse_reverse]

/-- The fields of a text, a run of white space and another text are the fields
of the first text and the fields of the second. -/
theorem fieldsFuncFrom_append (f : Char → Bool) (s w r cur : List Char) (hne : w ≠ [])
    (hw : ∀ c ∈ w, f c = true) :
    fieldsFuncFrom f (s ++ (w ++ r)) cur = fieldsFuncFrom f s cur ++ fieldsFuncFrom f r [] := by
  induction s generalizing cur with
  | nil =>
    by_cases hc : cur = []
    · subst hc
      simp [fieldsFuncFrom, fieldsFuncFrom_spaces f w r hw]
    · simp [fieldsFuncFrom, hc, fieldsFuncFrom_sep f w r cur hc hne hw]
  | cons c s ih =>
    by_cases hfc : f c = true
    · by_cases hc : cur = []
      · simp [fieldsFuncFrom, hfc, hc, ih]
      · simp [fieldsFuncFrom, hfc, hc, ih]
    · simp [fieldsFuncFrom, hfc, ih]

/-- A text with a character that is not white space has a field. -/
theorem fieldsFuncFrom_ne_nil (f : Char → Bool) (s cur : List Char)
    (h : cur ≠ [] ∨ ∃ c ∈ s, f c = false) : fieldsFuncFrom f s cur ≠ [] := by
  induction s generalizing cur with
  | nil =>
    rcases h with h | ⟨c, hc, _⟩
    · simp [fieldsFuncFrom, h]
    · simp at hc
  | cons c s ih =>
    by_cases hfc : f c = true
    · by_cases hc : cur = []
      · subst hc
        simp only [fieldsFuncFrom, hfc, if_true]
        apply ih
        rcases h with h | ⟨x, hx, hfx⟩
        · exact absurd rfl h
        · right
          rcases List.mem_cons.mp hx with e | e
          · subst e; rw [hfc] at hfx; cases hfx
          · exact ⟨x, e, hfx⟩
      · simp [fieldsFuncFrom, hfc, hc]
    · simp only [fieldsFuncFrom, hfc, Bool.false_eq_true, if_false]
      apply ih
      left
      simp

/-- A piece without slash before the separator ` / `. -/
theorem splitFrom_slash (a rest cur : List Char) (ha : '/' ∉ a) :
    splitFrom [' ', '/', ' '] 0 (a ++ [' ', '/', ' '] ++ rest) cur
      = (cur ++ a) :: splitFrom [' ', '/', ' '] 0 rest [] := by
  induction a generalizing cur with
  | nil => simp [splitFrom, List.isPrefixOf]
  | cons c a ih =>
    have hc : c ≠ '/' := fun h => ha (by simp [h])
    have ha' : '/' ∉ a := fun h => ha (List.mem_cons_of_mem _ h)
    have hpre : List.isPrefixOf [' ', '/', ' '] (c :: (a ++ [' ', '/', ' '] ++ rest)) = false := by
      cases a with
      | nil => simp [List.isPrefixOf]
      | cons d a =>
        have hd : d ≠ '/' := fun h => ha' (by simp [h])
        have : ('/' == d) = false := by simpa using Ne.symm hd
        simp [List.isPrefixOf, this]
    have := ih (cur ++ [c]) ha'
    simp only [List.cons_append] at hpre ⊢
    rw [splitFrom]
    simp only [hpre, Bool.false_eq_true, if_false]
    simpa using this

/-- A last piece without slash. -/
theorem splitFrom_slash_last (a cur : List Char) (ha : '/' ∉ a) :
    splitFrom [' ', '/', ' '] 0 a cur = [cur ++ a] := by
  induction a generalizing cur with
  | nil => simp [splitFrom]
  | cons c a ih =>
    have ha' : '/' ∉ a := fun h => ha (List.mem_cons_of_mem _ h)
    have hpre : List.isPrefixOf [' ', '/', ' '] (c :: a) = false := by
      cases a with
      | nil => simp [List.isPrefixOf]
      | cons d a =>
        have hd : d ≠ '/' := fun h => ha' (by simp [h])
        have : ('/' == d) = false := by simpa using Ne.symm hd
        simp [List.isPrefixOf, this]
    rw [splitFrom]
    simp only [hpre, Bool.false_eq_true, if_false]
    simpa using ih (cur ++ [c]) ha'

/-- Four pieces without slash, joined by ` / `, are what `Split` returns. -/
theorem Split_four (a b c d : String) (ha : '/' ∉ a.data) (hb : '/' ∉ b.data)
    (hc : '/' ∉ c.data) (hd : '/' ∉ d.data) :
    Split (a ++ " / " ++ b ++ " / " ++ c ++ " / " ++ d) " / " = [a, b, c, d] := by
  have hdata : (a ++ " / " ++ b ++ " / " ++ c ++ " / " ++ d).data
      = a.data ++ [' ', '/', ' '] ++ (b.data ++ [' ', '/', ' ']
          ++ (c.data ++ [' ', '/', ' '] ++ d.data)) := by
    simp
  have hsep : (" / " : String) ≠ "" := by decide
  have hsd : (" / " : String).data = [' ', '/', ' '] := rfl
  unfold Split
  rw [if_neg hsep, hsd, hdata, splitFrom_slash _ _ _ ha, splitFrom_slash _ _ _ hb,
    splitFrom_slash _ _ _ hc, splitFrom_slash_last _ _ hd]
  rfl

end strings

namespace stratis

/-- White space of the pattern is white space of `unicode.IsSpace`. -/
theorem regexp_isSpace_imp (c : Char) (h : regexp.isSpace c = true) :
    strings.isSpace c = true := by
  simp only [regexp.isSpace, Bool.or_eq_true, beq_iff_eq] at h
  simp only [strings.isSpace, Bool.or_eq_true, beq_iff_eq]
  tauto

/-- What is not white space of `unicode.IsSpace` is not white space of the
pattern. -/
theorem not_regexp_isSpace (c : Char) (h : strings.isSpace c = false) :
    regexp.isSpace c = false := by
  cases hr : regexp.isSpace c with
  | false => rfl
  | true => rw [regexp_isSpace_imp c hr] at h; cases h

/-- The characters of `/dev/` are not white space. -/
theorem dev_not_space : ∀ c ∈ "/dev/".data, regexp.isSpace c = false := by
  decide

/-- A text the end of the pattern matches is made of two fields: the device
and the UUID. -/
theorem matchDeviceUUID_fields (t device uuid : List Char)
    (h : matchDeviceUUID t = some (device, uuid)) :
    strings.fieldsFuncFrom regexp.isSpace t [] = [device, uuid] := by
  unfold matchDeviceUUID at h
  simp only [] at h
  split_ifs at h with h1 h2 h3 h4 h5 h6
  simp only [Option.some.injEq, Prod.mk.injEq] at h
  obtain ⟨hd, hu⟩ := h
  have e1 := List.takeWhile_append_dropWhile regexp.isSpace t
  have hpre : "/dev/".data <+: t.dropWhile regexp.isSpace := by
    rw [← List.isPrefixOf_iff_prefix]
    simpa using h2
  obtain ⟨r, hr⟩ := hpre
  have hdrop : (t.dropWhile regexp.isSpace).drop 5 = r := by
    rw [← hr]; rfl
  rw [hdrop] at hd hu h3 h4 h5 h6
  have e2 := List.takeWhile_append_dropWhile (fun c => !regexp.isSpace c) r
  have e3 := List.takeWhile_append_dropWhile regexp.isSpace
    (r.dropWhile (fun c => !regexp.isSpace c))
  have e4 := List.takeWhile_append_dropWhile (fun c => !regexp.isSpace c)
    ((r.dropWhile (fun c => !regexp.isSpace c)).dropWhile regexp.isSpace)
  rw [hu] at e4 h5
  have hdev : ∀ c ∈ device, regexp.isSpace c = false := by
    rw [← hd]
    intro c hc
    rcases List.mem_append.mp hc with hc | hc
    · exact dev_not_space c hc
    · simpa using List.mem_takeWhile_imp hc
  have huu : ∀ c ∈ uuid, regexp.isSpace c = false := by
    intro c hc
    rw [← hu] at hc
    simpa using List.mem_takeWhile_imp hc
  have hdne : device ≠ [] := by rw [← hd]; simp
  have key := strings.fieldsFuncFrom_two regexp.isSpace (t.takeWhile regexp.isSpace) device
    ((r.dropWhile (fun c => !regexp.isSpace c)).takeWhile regexp.isSpace) uuid
    (((r.dropWhile (fun c => !regexp.isSpace c)).dropWhile regexp.isSpace).dropWhile
      (fun c => !regexp.isSpace c))
    (fun c hc => List.mem_takeWhile_imp hc) hdev hdne
    (fun c hc => List.mem_takeWhile_imp hc) h4 huu h5
    (fun c hc => by simpa using (List.all_eq_true.mp h6) c hc)
  have ht : t = t.takeWhile regexp.isSpace ++ device
      ++ (r.dropWhile (fun c => !regexp.isSpace c)).takeWhile regexp.isSpace ++ uuid
      ++ ((r.dropWhile (fun c => !regexp.isSpace c)).dropWhile regexp.isSpace).dropWhile
        (fun c => !regexp.isSpace c) := by
    conv_lhs => rw [← e1, ← hr, ← e2, ← e3, ← e4]
    rw [← hd]
    simp [List.append_assoc]
  rw [← ht] at key
  exact key

/-- The end of the pattern on white space, a device, white space, a UUID and
white space. -/
theorem matchDeviceUUID_row (w3 x w4 uuid w5 : List Char)
    (h3 : ∀ c ∈ w3, regexp.isSpace c = true) (h3ne : w3 ≠ [])
    (hx : ∀ c ∈ x, regexp.isSpace c = false) (hxne : x ≠ [])
    (h4 : ∀ c ∈ w4, regexp.isSpace c = true) (h4ne : w4 ≠ [])
    (hu : ∀ c ∈ uuid, regexp.isSpace c = false) (hune : uuid ≠ [])
    (h5 : ∀ c ∈ w5, regexp.isSpace c = true) :
    matchDeviceUUID (w3 ++ ("/dev/".data ++ x ++ (w4 ++ (uuid ++ w5))))
      = some ("/dev/".data ++ x, uuid) := by
  have hns : ∀ l : List Char, (∀ c ∈ l, regexp.isSpace c = false) →
      ∀ c ∈ l, (!regexp.isSpace c) = true := by
    intro l hl c hc; simp [hl c hc]
  have hhead : ∀ (a b : List Char), a ≠ [] → (∀ c ∈ a, regexp.isSpace c = false) →
      ∀ c ∈ (a ++ b).head?, regexp.isSpace c = false := by
    intro a b hne ha c hc
    cases a with
    | nil => exact absurd rfl hne
    | cons y a => simp at hc; subst hc; exact ha _ (List.mem_cons_self _ _)
  have hhead2 : ∀ (a b : List Char), a ≠ [] → (∀ c ∈ a, regexp.isSpace c = true) →
      ∀ c ∈ (a ++ b).head?, (!regexp.isSpace c) = false := by
    intro a b hne ha c hc
    cases a with
    | nil => exact absurd rfl hne
    | cons y a => simp at hc; subst hc; simp [ha _ (List.mem_cons_self _ _)]
  have hdev : ∀ c ∈ "/dev/".data ++ x, regexp.isSpace c = false := by
    intro c hc
    rcases List.mem_append.mp hc with hc | hc
    · exact dev_not_space c hc
    · exact hx c hc
  have s1 := strings.takeWhile_dropWhile_append regexp.isSpace w3
    ("/dev/".data ++ x ++ (w4 ++ (uuid ++ w5))) h3
    (by rw [List.append_assoc]; exact hhead _ _ (by simp) dev_not_space)
  have s2 := strings.takeWhile_dropWhile_append (fun c => !regexp.isSpace c) x
    (w4 ++ (uuid ++ w5)) (hns x hx) (hhead2 _ _ h4ne h4)
  have s3 := strings.takeWhile_dropWhile_append regexp.isSpace w4 (uuid ++ w5) h4
    (hhead _ _ hune hu)
  have s4 : (uuid ++ w5).takeWhile (fun c => !regexp.isSpace c) = uuid ∧
      (uuid ++ w5).dropWhile (fun c => !regexp.isSpace c) = w5 := by
    apply strings.takeWhile_dropWhile_append _ _ _ (hns uuid hu)
    intro c hc
    have := h5 c (List.mem_of_mem_head? hc)
    simp [this]
  have hd5 : ("/dev/".data ++ x ++ (w4 ++ (uuid ++ w5))).drop 5 = x ++ (w4 ++ (uuid ++ w5)) := by
    rw [List.append_assoc]; rfl
  have hp : List.isPrefixOf "/dev/".data ("/dev/".data ++ x ++ (w4 ++ (uuid ++ w5))) = true := by
    rw [List.isPrefixOf_iff_prefix, List.append_assoc]
    exact List.prefix_append _ _
  unfold matchDeviceUUID
  simp only [s1.1, s1.2, hd5, s2.1, s2.2, s3.1, s3.2, s4.1, s4.2, hp, h3ne, hxne, h4ne, hune,
    if_false, Bool.not_true, Bool.false_eq_true]
  rw [if_pos (List.all_eq_true.mpr h5)]

end stratis

namespace stratis

/-- The end of the pattern does not match a text with a field in front of the
device and the UUID. -/
theorem matchDeviceUUID_longer (s w3 x w4 uuid w5 : List Char)
    (hs : ∃ c ∈ s, regexp.isSpace c = false)
    (h3 : ∀ c ∈ w3, regexp.isSpace c = true) (h3ne : w3 ≠ [])
    (hx : ∀ c ∈ x, regexp.isSpace c = false)
    (h4 : ∀ c ∈ w4, regexp.isSpace c = true) (h4ne : w4 ≠ [])
    (hu : ∀ c ∈ uuid, regexp.isSpace c = false) (hune : uuid ≠ [])
    (h5 : ∀ c ∈ w5, regexp.isSpace c = true) :
    matchDeviceUUID (s ++ (w3 ++ ("/dev/".data ++ x ++ (w4 ++ (uuid ++ w5))))) = none := by
  cases h : matchDeviceUUID (s ++ (w3 ++ ("/dev/".data ++ x ++ (w4 ++ (uuid ++ w5))))) with
  | none => rfl
  | some r =>
    obtain ⟨device, uuid'⟩ := r
    have hf := matchDeviceUUID_fields _ _ _ h
    rw [strings.fieldsFuncFrom_append regexp.isSpace s w3 _ [] h3ne h3] at hf
    have hdev : ∀ c ∈ "/dev/".data ++ x, regexp.isSpace c = false := by
      intro c hc
      rcases List.mem_append.mp hc with hc | hc
      · exact dev_not_space c hc
      · exact hx c hc
    have h2 := strings.fieldsFuncFrom_two regexp.isSpace [] ("/dev/".data ++ x) w4 uuid w5
      (by simp) hdev (by simp) h4 h4ne hu hune h5
    simp only [List.nil_append, List.append_assoc] at h2
    simp only [List.append_assoc] at hf
    rw [h2] at hf
    have hne := strings.fieldsFuncFrom_ne_nil regexp.isSpace s [] (Or.inr hs)
    have hlen := congrArg List.length hf
    cases hl : strings.fieldsFuncFrom regexp.isSpace s [] with
    | nil => exact absurd hl hne
    | cons a l => rw [hl] at hlen; simp at hlen

/-- The group `(.+?)` before the device takes the whole size info: a text
without newline that ends with a character that is not white space. -/
theorem matchSizeInfo_row (s0 : List Char) (c : Char) (taken w3 x w4 uuid w5 : List Char)
    (hnl : '\n' ∉ s0 ++ [c]) (hc : regexp.isSpace c = false)
    (h3 : ∀ c ∈ w3, regexp.isSpace c = true) (h3ne : w3 ≠ [])
    (hx : ∀ c ∈ x, regexp.isSpace c = false) (hxne : x ≠ [])
    (h4 : ∀ c ∈ w4, regexp.isSpace c = true) (h4ne : w4 ≠ [])
    (hu : ∀ c ∈ uuid, regexp.isSpace c = false) (hune : uuid ≠ [])
    (h5 : ∀ c ∈ w5, regexp.isSpace c = true) :
    matchSizeInfo (s0 ++ [c] ++ (w3 ++ ("/dev/".data ++ x ++ (w4 ++ (uuid ++ w5))))) taken
      = some (taken ++ (s0 ++ [c]), "/dev/".data ++ x, uuid) := by
  induction s0 generalizing taken with
  | nil =>
    have hcn : c ≠ '\n' := fun e => hnl (by simp [e])
    have := matchDeviceUUID_row w3 x w4 uuid w5 h3 h3ne hx hxne h4 h4ne hu hune h5
    show matchSizeInfo (c :: (w3 ++ ("/dev/".data ++ x ++ (w4 ++ (uuid ++ w5))))) taken = _
    rw [matchSizeInfo, if_neg hcn, this]
    rfl
  | cons a s0 ih =>
    have han : a ≠ '\n' := fun e => hnl (by simp [e])
    have hnl' : '\n' ∉ s0 ++ [c] := fun h => hnl (by
      rw [List.cons_append]; exact List.mem_cons_of_mem _ h)
    have hnone := matchDeviceUUID_longer (s0 ++ [c]) w3 x w4 uuid w5 ⟨c, by simp, hc⟩
      h3 h3ne hx h4 h4ne hu hune h5
    have := ih (taken ++ [a]) hnl'
    show matchSizeInfo
      (a :: (s0 ++ [c] ++ (w3 ++ ("/dev/".data ++ x ++ (w4 ++ (uuid ++ w5)))))) taken = _
    rw [matchSizeInfo, if_neg han, hnone]
    simp only []
    rw [this]
    simp

/-- The white space before the size info takes its whole run. -/
theorem matchFromSizeInfo_row (w2 rest : List Char) (hne : w2 ≠ [])
    (groups : List Char × List Char × List Char)
    (h : matchSizeInfo rest [] = some groups) :
    matchFromSizeInfo (w2 ++ rest) w2.length = some groups := by
  cases hl : w2.length with
  | zero => exact absurd (List.length_eq_zero.mp hl) hne
  | succ k =>
    have : (w2 ++ rest).drop (k + 1) = rest := by
      rw [← hl]; exact List.drop_left _ _
    simp [matchFromSizeInfo, this, h]

/-- The submatches of a table line: pool, name, size info, device and UUID,
separated by white space. -/
theorem matchTableLine_row (pool w1 name w2 s w3 x w4 uuid w5 : List Char)
    (hp : ∀ c ∈ pool, regexp.isSpace c = false) (hpne : pool ≠ [])
    (h1 : ∀ c ∈ w1, regexp.isSpace c = true) (h1ne : w1 ≠ [])
    (hn : ∀ c ∈ name, regexp.isSpace c = false) (hnne : name ≠ [])
    (h2 : ∀ c ∈ w2, regexp.isSpace c = true) (h2ne : w2 ≠ [])
    (hsne : s ≠ []) (hnl : '\n' ∉ s)
    (hsh : ∀ c ∈ s.head?, regexp.isSpace c = false)
    (hsl : ∀ c ∈ s.getLast?, regexp.isSpace c = false)
    (h3 : ∀ c ∈ w3, regexp.isSpace c = true) (h3ne : w3 ≠ [])
    (hx : ∀ c ∈ x, regexp.isSpace c = false) (hxne : x ≠ [])
    (h4 : ∀ c ∈ w4, regexp.isSpace c = true) (h4ne : w4 ≠ [])
    (hu : ∀ c ∈ uuid, regexp.isSpace c = false) (hune : uuid ≠ [])
    (h5 : ∀ c ∈ w5, regexp.isSpace c = true) :
    matchTableLine (pool ++ (w1 ++ (name ++ (w2 ++ (s ++
        (w3 ++ ("/dev/".data ++ x ++ (w4 ++ (uuid ++ w5)))))))))
      = some (pool, name, s, "/dev/".data ++ x, uuid) := by
  have hns : ∀ l : List Char, (∀ c ∈ l, regexp.isSpace c = false) →
      ∀ c ∈ l, (!regexp.isSpace c) = true := by
    intro l hl c hc; simp [hl c hc]
  have hhead : ∀ (a b : List Char), a ≠ [] → (∀ c ∈ a, regexp.isSpace c = false) →
      ∀ c ∈ (a ++ b).head?, regexp.isSpace c = false := by
    intro a b hne ha c hc
    cases a with
    | nil => exact absurd rfl hne
    | cons y a => simp at hc; subst hc; exact ha _ (List.mem_cons_self _ _)
  have hhead2 : ∀ (a b : List Char), a ≠ [] → (∀ c ∈ a, regexp.isSpace c = true) →
      ∀ c ∈ (a ++ b).head?, (!regexp.isSpace c) = false := by
    intro a b hne ha c hc
    cases a with
    | nil => exact absurd rfl hne
    | cons y a => simp at hc; subst hc; simp [ha _ (List.mem_cons_self _ _)]
  have s1 := strings.takeWhile_dropWhile_append (fun c => !regexp.isSpace c) pool
    (w1 ++ (name ++ (w2 ++ (s ++ (w3 ++ ("/dev/".data ++ x ++ (w4 ++ (uuid ++ w5))))))))
    (hns pool hp) (hhead2 _ _ h1ne h1)
  have s2 := strings.takeWhile_dropWhile_append regexp.isSpace w1
    (name ++ (w2 ++ (s ++ (w3 ++ ("/dev/".data ++ x ++ (w4 ++ (uuid ++ w5)))))))
    h1 (hhead _ _ hnne hn)
  have s3 := strings.takeWhile_dropWhile_append (fun c => !regexp.isSpace c) name
    (w2 ++ (s ++ (w3 ++ ("/dev/".data ++ x ++ (w4 ++ (uuid ++ w5))))))
    (hns name hn) (hhead2 _ _ h2ne h2)
  have s4 := strings.takeWhile_dropWhile_append regexp.isSpace w2
    (s ++ (w3 ++ ("/dev/".data ++ x ++ (w4 ++ (uuid ++ w5))))) h2 (by
      intro c hc
      cases s with
      | nil => exact absurd rfl hsne
      | cons y s => simp at hc; subst hc; exact hsh _ (by simp))
  have hlast : s = s.dropLast ++ [s.getLast hsne] := (List.dropLast_append_getLast hsne).symm
  have hc : regexp.isSpace (s.getLast hsne) = false :=
    hsl _ (by rw [List.getLast?_eq_getLast _ hsne]; simp)
  have hm := matchSizeInfo_row s.dropLast (s.getLast hsne) [] w3 x w4 uuid w5
    (by rw [← hlast]; exact hnl) hc h3 h3ne hx hxne h4 h4ne hu hune h5
  rw [← hlast, List.nil_append] at hm
  have hf := matchFromSizeInfo_row w2 _ h2ne _ hm
  unfold matchTableLine
  simp only [s1.1, s1.2, s2.1, s2.2, s3.1, s3.2, s4.1, hpne, h1ne, hnne, if_false, hf]

end stratis

/-! ## A row of the table -/

namespace stratis

/-- A unit of the table has the multiplier of the table. -/
theorem unitBytes_mem (unit : String) (h : unit ∈ sizeUnits.map Prod.fst) :
    (unit, unitBytes unit) ∈ sizeUnits := by
  have hall : ∀ e ∈ sizeUnits, (e.1, unitBytes e.1) ∈ sizeUnits := by decide
  obtain ⟨e, he, rfl⟩ := List.mem_map.mp h
  exact hall e he

/-- A digit is neither a slash nor a newline. -/
theorem digit_plain (c : Char) (h : strconv.isDigit c = true) : c ≠ '/' ∧ c ≠ '\n' := by
  constructor <;> intro e <;> subst e <;> exact absurd h (by decide)

/-- The shape of a size of a report: it starts with a digit, ends with a letter
of its unit, and holds no slash and no newline. -/
theorem sizeText_shape (n : ℕ) (unit : String) (h : unit ∈ sizeUnits.map Prod.fst) :
    (sizeText n unit).data ≠ [] ∧
    (∀ c ∈ (sizeText n unit).data.head?, strings.isSpace c = false ∧ c ≠ 'N') ∧
    (∀ c ∈ (sizeText n unit).data.getLast?, strings.isSpace c = false) ∧
    (∀ c ∈ (sizeText n unit).data, c ≠ '/' ∧ c ≠ '\n') := by
  obtain ⟨hne, hd, _⟩ := strconv.toString_digits n
  obtain ⟨hune, hu, _, _⟩ := sizeUnits_facts _ (unitBytes_mem unit h)
  have hdata : (sizeText n unit).data = (toString n).data ++ (' ' :: unit.data) := by
    simp [sizeText]
  rw [hdata]
  refine ⟨by simp [hne], ?_, ?_, ?_⟩
  · intro c hc
    cases hs : (toString n).data with
    | nil => exact absurd hs hne
    | cons a l =>
      rw [hs] at hc hd
      simp only [List.cons_append, List.head?_cons, Option.mem_def, Option.some.injEq] at hc
      rw [← hc]
      have ha := hd a (List.mem_cons_self _ _)
      refine ⟨strings.isDigit_not_space a ha, ?_⟩
      intro e; rw [e] at ha; exact absurd ha (by decide)
  · intro c hc
    rw [List.getLast?_append_of_ne_nil _ (by simp)] at hc
    cases hud : unit.data with
    | nil => exact absurd hud hune
    | cons u us =>
      rw [hud, List.getLast?_cons_cons] at hc
      exact (hu c (by
        show c ∈ unit.data
        rw [hud]
        exact List.mem_of_getLast?_eq_some hc)).1
  · intro c hc
    rcases List.mem_append.mp hc with hc | hc
    · exact digit_plain c (hd c hc)
    · rcases List.mem_cons.mp hc with e | hc
      · subst e; decide
      · exact ⟨(hu c hc).2.1, (hu c hc).2.2⟩

end stratis

namespace stratis

/-- What `isSize` says. -/
theorem isSize_iff (n : ℕ) (unit : String) :
    isSize n unit = true ↔ unit ∈ sizeUnits.map Prod.fst ∧ sizeBytes n unit < 2 ^ 53 := by
  simp [isSize]

/-- `parseSize` on a size of a report, with a `ParseFloat` that reads whole
numbers below 2^53 exactly. -/
theorem parseSize_isSize (p : Platform)
    (hp : ∀ n : ℕ, n < 2 ^ 53 → p.ParseFloat (toString n) = .ok (.finite (n : ℚ)))
    (n : ℕ) (unit : String) (h : isSize n unit = true) :
    parseSize p (sizeText n unit) = .ok (sizeBytes n unit) := by
  obtain ⟨hu, hlt⟩ := (isSize_iff n unit).mp h
  have hmem := unitBytes_mem unit hu
  have hpos := (sizeUnits_facts _ hmem).2.2.2
  have hn : n < 2 ^ 53 := by
    unfold sizeBytes at hlt
    have hm : 1 ≤ unitBytes unit := hpos
    calc n = n * 1 := (Nat.mul_one n).symm
      _ ≤ n * unitBytes unit := Nat.mul_le_mul_left n hm
      _ < 2 ^ 53 := hlt
  exact parseSize_sizeText p n unit (unitBytes unit) (hp n hn) hmem hlt

/-- A size of a report is trimmed. -/
theorem TrimSpace_sizeText (n : ℕ) (unit : String) (h : isSize n unit = true) :
    strings.TrimSpace (sizeText n unit) = sizeText n unit := by
  obtain ⟨_, hh, hl, _⟩ := sizeText_shape n unit ((isSize_iff n unit).mp h).1
  apply String.ext
  exact strings.trimSpaceRunes_of_ends _ (fun c hc => (hh c hc).1) hl

/-- A size of a report is not the text `None`. -/
theorem sizeText_ne_None (n : ℕ) (unit : String) (h : isSize n unit = true) :
    sizeText n unit ≠ "None" := by
  obtain ⟨_, hh, _, _⟩ := sizeText_shape n unit ((isSize_iff n unit).mp h).1
  intro e
  rw [e] at hh
  exact (hh 'N' (by rfl)).2 rfl

/-- The shape of the limit of a report. -/
theorem limitText_shape (limit : Option (ℕ × String)) (h : isLimit limit = true) :
    (limitText limit).data ≠ [] ∧
    (∀ c ∈ (limitText limit).data.head?, strings.isSpace c = false) ∧
    (∀ c ∈ (limitText limit).data.getLast?, strings.isSpace c = false) ∧
    (∀ c ∈ (limitText limit).data, c ≠ '/' ∧ c ≠ '\n') := by
  cases limit with
  | none => exact ⟨by decide, by decide, by decide, by decide⟩
  | some l =>
    obtain ⟨n, unit⟩ := l
    obtain ⟨h1, h2, h3, h4⟩ := sizeText_shape n unit ((isSize_iff n unit).mp h).1
    exact ⟨h1, fun c hc => (h2 c hc).1, h3, h4⟩

/-- The limit of a report, as `parseSizeInfo` and `parseDetailedOutput` read
it: `None` is no limit, a size is its number of bytes. -/
theorem parseLimit (p : Platform)
    (hp : ∀ n : ℕ, n < 2 ^ 53 → p.ParseFloat (toString n) = .ok (.finite (n : ℚ)))
    (limit : Option (ℕ × String)) (h : isLimit limit = true) :
    strings.TrimSpace (limitText limit) = limitText limit ∧
    (limit = none → limitText limit = "None") ∧
    (limit ≠ none → limitText limit ≠ "None" ∧
      parseSize p (limitText limit) = .ok ((limitBytes limit).getD 0)) := by
  cases limit with
  | none => exact ⟨by decide, fun _ => rfl, fun e => absurd rfl e⟩
  | some l =>
    obtain ⟨n, unit⟩ := l
    refine ⟨TrimSpace_sizeText n unit h, ?_, fun _ => ?_⟩
    · intro e
      exact absurd e (by simp)
    · exact ⟨sizeText_ne_None n unit h, parseSize_isSize p hp n unit h⟩

/-- `parseSizeInfo` on the size info of a row: the numbers of bytes of the
total, the used and the free size, and the limit if any. -/
theorem parseSizeInfo_sizeInfoText (p : Platform)
    (hp : ∀ n : ℕ, n < 2 ^ 53 → p.ParseFloat (toString n) = .ok (.finite (n : ℚ)))
    (tn un fn : ℕ) (tu uu fu : String) (limit : Option (ℕ × String))
    (ht : isSize tn tu = true) (hu : isSize un uu = true) (hf : isSize fn fu = true)
    (hl : isLimit limit = true) :
    parseSizeInfo p
        (sizeInfoText (sizeText tn tu) (sizeText un uu) (sizeText fn fu) (limitText limit))
      = .ok (sizeBytes tn tu, sizeBytes un uu, sizeBytes fn fu, limitBytes limit) := by
  have st := sizeText_shape tn tu ((isSize_iff tn tu).mp ht).1
  have su := sizeText_shape un uu ((isSize_iff un uu).mp hu).1
  have sf := sizeText_shape fn fu ((isSize_iff fn fu).mp hf).1
  have sl := limitText_shape limit hl
  have hsplit := strings.Split_four (sizeText tn tu) (sizeText un uu) (sizeText fn fu)
    (limitText limit) (fun h => (st.2.2.2 _ h).1 rfl) (fun h => (su.2.2.2 _ h).1 rfl)
    (fun h => (sf.2.2.2 _ h).1 rfl) (fun h => (sl.2.2.2 _ h).1 rfl)
  obtain ⟨hl1, hl2, hl3⟩ := parseLimit p hp limit hl
  unfold parseSizeInfo sizeInfoText
  rw [hsplit]
  simp only [TrimSpace_sizeText _ _ ht, TrimSpace_sizeText _ _ hu, TrimSpace_sizeText _ _ hf,
    parseSize_isSize p hp _ _ ht, parseSize_isSize p hp _ _ hu, parseSize_isSize p hp _ _ hf,
    hl1]
  cases limit with
  | none => simp [hl2 rfl, limitBytes]
  | some l =>
    obtain ⟨h1, h2⟩ := hl3 (by simp)
    simp [h1, h2, limitBytes]

end stratis

namespace stratis

/-- A word is not empty and holds no white space, of either kind. -/
theorem isWord_iff (s : String) :
    isWord s = true ↔ s.data ≠ [] ∧ ∀ c ∈ s.data, strings.isSpace c = false := by
  simp [isWord]

/-- A gap is a non-empty run of spaces. -/
theorem gap_spaces (g : ℕ) :
    (gap g).data ≠ [] ∧ ∀ c ∈ (gap g).data, regexp.isSpace c = true := by
  constructor
  · simp [gap, List.replicate_succ]
  · intro c hc
    have : c = ' ' := List.eq_of_mem_replicate hc
    subst this
    decide

/-- The shape of the size info of a row: it starts and ends with a character
that is not white space and holds no newline. -/
theorem sizeInfoText_shape (tn un fn : ℕ) (tu uu fu : String) (limit : Option (ℕ × String))
    (ht : isSize tn tu = true) (hu : isSize un uu = true) (hf : isSize fn fu = true)
    (hl : isLimit limit = true) :
    let s := (sizeInfoText (sizeText tn tu) (sizeText un uu) (sizeText fn fu)
      (limitText limit)).data
    s ≠ [] ∧ '\n' ∉ s ∧ (∀ c ∈ s.head?, regexp.isSpace c = false) ∧
      (∀ c ∈ s.getLast?, regexp.isSpace c = false) := by
  have st := sizeText_shape tn tu ((isSize_iff tn tu).mp ht).1
  have su := sizeText_shape un uu ((isSize_iff un uu).mp hu).1
  have sf := sizeText_shape fn fu ((isSize_iff fn fu).mp hf).1
  have sl := limitText_shape limit hl
  have hdata : (sizeInfoText (sizeText tn tu) (sizeText un uu) (sizeText fn fu)
      (limitText limit)).data
      = (sizeText tn tu).data ++ ([' ', '/', ' '] ++ ((sizeText un uu).data ++ ([' ', '/', ' ']
          ++ ((sizeText fn fu).data ++ [' ', '/', ' ']))))
        ++ (limitText limit).data := by
    simp [sizeInfoText]
  simp only []
  rw [hdata]
  refine ⟨?_, ?_, ?_, ?_⟩
  · simp [sl.1]
  · intro h
    simp only [List.mem_append, List.mem_cons, List.mem_singleton, List.not_mem_nil,
      or_false] at h
    rcases h with (h | (h | h | h) | h | (h | h | h) | h | (h | h | h)) | h
    · exact (st.2.2.2 _ h).2 rfl
    · exact absurd h (by decide)
    · exact absurd h (by decide)
    · exact absurd h (by decide)
    · exact (su.2.2.2 _ h).2 rfl
    · exact absurd h (by decide)
    · exact absurd h (by decide)
    · exact absurd h (by decide)
    · exact (sf.2.2.2 _ h).2 rfl
    · exact absurd h (by decide)
    · exact absurd h (by decide)
    · exact absurd h (by decide)
    · exact (sl.2.2.2 _ h).2 rfl
  · intro c hc
    cases hs : (sizeText tn tu).data with
    | nil => exact absurd hs st.1
    | cons a l =>
      rw [hs] at hc
      simp only [List.cons_append, List.head?_cons, Option.mem_def, Option.some.injEq] at hc
      rw [← hc]
      exact not_regexp_isSpace a ((st.2.1 a (by rw [hs]; rfl)).1)
  · intro c hc
    rw [List.getLast?_append_of_ne_nil _ sl.1] at hc
    exact not_regexp_isSpace c (sl.2.2.1 c hc)

/-- `parseFilesystemTableLine` on a row of the table: the record of its columns. -/
theorem parseFilesystemTableLine_tableRow (p : Platform)
    (hp : ∀ n : ℕ, n < 2 ^ 53 → p.ParseFloat (toString n) = .ok (.finite (n : ℚ)))
    (pool name path uuid : String) (tn un fn : ℕ) (tu uu fu : String)
    (limit : Option (ℕ × String)) (g1 g2 g3 g4 : ℕ)
    (hpool : isWord pool = true) (hname : isWord name = true) (hpath : isWord path = true)
    (huuid : isWord uuid = true)
    (ht : isSize tn tu = true) (hu : isSize un uu = true) (hf : isSize fn fu = true)
    (hl : isLimit limit = true) :
    parseFilesystemTableLine p
        (tableRow pool name
          (sizeInfoText (sizeText tn tu) (sizeText un uu) (sizeText fn fu) (limitText limit))
          ("/dev/" ++ path) uuid g1 g2 g3 g4)
      = .ok { Name := name, Pool := pool, DevicePath := "/dev/" ++ path,
              Total := sizeBytes tn tu, Used := sizeBytes un uu, Free := sizeBytes fn fu,
              SizeLimit := limitBytes limit, UUID := uuid } := by
  obtain ⟨hp1, hp2⟩ := (isWord_iff pool).mp hpool
  obtain ⟨hn1, hn2⟩ := (isWord_iff name).mp hname
  obtain ⟨hx1, hx2⟩ := (isWord_iff path).mp hpath
  obtain ⟨hu1, hu2⟩ := (isWord_iff uuid).mp huuid
  obtain ⟨hs1, hs2, hs3, hs4⟩ := sizeInfoText_shape tn un fn tu uu fu limit ht hu hf hl
  have hm := matchTableLine_row pool.data (gap g1).data name.data (gap g2).data
    (sizeInfoText (sizeText tn tu) (sizeText un uu) (sizeText fn fu) (limitText limit)).data
    (gap g3).data path.data (gap g4).data uuid.data []
    (fun c hc => not_regexp_isSpace c (hp2 c hc)) hp1 (gap_spaces g1).2 (gap_spaces g1).1
    (fun c hc => not_regexp_isSpace c (hn2 c hc)) hn1 (gap_spaces g2).2 (gap_spaces g2).1
    hs1 hs2 hs3 hs4 (gap_spaces g3).2 (gap_spaces g3).1
    (fun c hc => not_regexp_isSpace c (hx2 c hc)) hx1 (gap_spaces g4).2 (gap_spaces g4).1
    (fun c hc => not_regexp_isSpace c (hu2 c hc)) hu1 (by simp)
  have hdata : (tableRow pool name
      (sizeInfoText (sizeText tn tu) (sizeText un uu) (sizeText fn fu) (limitText limit))
      ("/dev/" ++ path) uuid g1 g2 g3 g4).data
      = pool.data ++ ((gap g1).data ++ (name.data ++ ((gap g2).data ++
          ((sizeInfoText (sizeText tn tu) (sizeText un uu) (sizeText fn fu)
            (limitText limit)).data ++
          ((gap g3).data ++ ("/dev/".data ++ path.data ++ ((gap g4).data
            ++ (uuid.data ++ [])))))))) := by
    simp [tableRow]
  have hsi := parseSizeInfo_sizeInfoText p hp tn un fn tu uu fu limit ht hu hf hl
  unfold parseFilesystemTableLine
  rw [hdata, hm]
  simp only []
  have e : (⟨(sizeInfoText (sizeText tn tu) (sizeText un uu) (sizeText fn fu)
      (limitText limit)).data⟩ : String)
      = sizeInfoText (sizeText tn tu) (sizeText un uu) (sizeText fn fu) (limitText limit) := rfl
  rw [e, hsi]
  simp only []
  congr 1

end stratis

/-! ## A line of the detailed report -/

namespace strings

/-- The result of `TrimSpace` does not end with white space. -/
theorem trimSpaceRunes_last (cs : List Char) :
    ∀ x ∈ (trimSpaceRunes cs).getLast?, isSpace x = false := by
  unfold trimSpaceRunes
  rw [List.getLast?_reverse]
  exact dropWhile_head_not isSpace _

/-- White space after a text that neither starts nor ends with white space is
what `TrimSpace` removes. -/
theorem trimSpaceRunes_ends_append (body ws : List Char)
    (hh : ∀ c ∈ body.head?, isSpace c = false) (hl : ∀ c ∈ body.getLast?, isSpace c = false)
    (hw : ∀ c ∈ ws, isSpace c = true) : trimSpaceRunes (body ++ ws) = body := by
  cases body with
  | nil => simpa using trimSpaceRunes_all_space ws hw
  | cons b body =>
    unfold trimSpaceRunes
    rw [dropWhile_none isSpace (b :: body ++ ws) (by
      intro x hx; simp at hx; subst hx; exact hh _ (by simp))]
    rw [List.reverse_append, dropWhile_append_all _ _ _ (by simpa using hw),
      dropWhile_none isSpace (b :: body).reverse (by rw [List.head?_reverse]; exact hl),
      List.reverse_reverse]

/-- The line of a key and a trimmed value, trimmed: the space after the colon
goes with an empty value. -/
theorem trimSpaceRunes_keyLine (key v : List Char) (hne : key ≠ [])
    (hk : ∀ c ∈ key.head?, isSpace c = false) (hv : trimSpaceRunes v = v) :
    trimSpaceRunes (key ++ ':' :: ' ' :: v) = key ++ ':' :: (if v = [] then [] else ' ' :: v) := by
  have hhead : ∀ (rest : List Char), ∀ c ∈ (key ++ rest).head?, isSpace c = false := by
    intro rest c hc
    cases key with
    | nil => exact absurd rfl hne
    | cons a key => simp at hc; subst hc; exact hk _ (by simp)
  by_cases he : v = []
  · subst he
    have := trimSpaceRunes_ends_append (key ++ [':']) [' '] (hhead _)
      (by intro c hc; simp at hc; subst hc; decide)
      (by intro c hc; simp at hc; subst hc; decide)
    simpa using this
  · rw [if_neg he]
    apply trimSpaceRunes_of_ends _ (hhead _)
    intro c hc
    have hl := trimSpaceRunes_last v
    rw [hv] at hl
    apply hl
    have h1 : (key ++ ':' :: ' ' :: v).getLast? = v.getLast? := by
      rw [List.getLast?_append_of_ne_nil _ (by simp)]
      cases v with
      | nil => exact absurd rfl he
      | cons a v => simp [List.getLast?_cons_cons]
    rw [h1] at hc
    exact hc

/-- The first colon of a text cuts it. -/
theorem cutFrom_colon (a rest before : List Char) (ha : ':' ∉ a) :
    cutFrom [':'] (a ++ ':' :: rest) before = some (before ++ a, rest) := by
  induction a generalizing before with
  | nil => simp [cutFrom, List.isPrefixOf]
  | cons c a ih =>
    have hc : c ≠ ':' := fun h => ha (by simp [h])
    have hc2 : (':' == c) = false := by simpa using Ne.symm hc
    have := ih (before ++ [c]) (fun h => ha (List.mem_cons_of_mem _ h))
    simp [cutFrom, List.isPrefixOf, hc2, this]

end strings

namespace stratis

/-- What `isValue` says. -/
theorem isValue_iff (v : String) :
    isValue v = true ↔ '\n' ∉ v.data ∧ strings.trimSpaceRunes v.data = v.data := by
  simp only [isValue, Bool.and_eq_true, Bool.not_eq_true', beq_iff_eq, strings.TrimSpace]
  constructor
  · rintro ⟨h1, h2⟩
    refine ⟨?_, by simpa using congrArg String.data h2⟩
    intro hm
    have : v.data.contains '\n' = true := List.elem_eq_true_of_mem hm
    rw [h1] at this
    cases this
  · rintro ⟨h1, h2⟩
    refine ⟨?_, by apply String.ext; exact h2⟩
    cases hc : v.data.contains '\n' with
    | false => rfl
    | true => exact absurd (List.mem_of_elem_eq_true hc) h1

/-- The text after the colon of a trimmed line, trimmed, is the value. -/
theorem trimSpaceRunes_tail (v : List Char) (hv : strings.trimSpaceRunes v = v) :
    strings.trimSpaceRunes (if v = [] then [] else ' ' :: v) = v := by
  by_cases he : v = []
  · subst he; rfl
  · rw [if_neg he]
    have : strings.trimSpaceRunes (' ' :: v) = strings.trimSpaceRunes v := by
      unfold strings.trimSpaceRunes
      rw [show (' ' :: v) = [' '] ++ v from rfl,
        strings.dropWhile_append_all _ _ _ (by intro c hc; simp at hc; subst hc; decide)]
    rw [this, hv]

/-- The line of a report for a key, trimmed. -/
theorem TrimSpace_line (d : Details) (k : DetailKey)
    (hv : strings.trimSpaceRunes (d.value k).data = (d.value k).data) :
    (strings.TrimSpace (d.line k)).data
      = (d.key k).data ++ ':' :: (if (d.value k).data = [] then [] else ' ' :: (d.value k).data) := by
  have hdata : (d.line k).data = (d.key k).data ++ ':' :: ' ' :: (d.value k).data := by
    simp [Details.line]
  show strings.trimSpaceRunes (d.line k).data = _
  rw [hdata]
  apply strings.trimSpaceRunes_keyLine _ _ _ _ hv
  · cases k <;> simp [Details.key]
  · cases k <;> simp [Details.key] <;> decide

/-- The values of a well-formed report are trimmed. -/
theorem value_trimmed (d : Details) (hd : d.wellFormed = true) (k : DetailKey) :
    strings.trimSpaceRunes (d.value k).data = (d.value k).data := by
  simp only [Details.wellFormed, Bool.and_eq_true] at hd
  obtain ⟨⟨⟨⟨⟨⟨⟨⟨⟨⟨h1, h2⟩, _⟩, h4⟩, h5⟩, h6⟩, h7⟩, h8⟩, h9⟩, _⟩, _⟩ := hd
  cases k with
  | UUID => exact ((isValue_iff _).mp h1).2
  | Name => exact ((isValue_iff _).mp h2).2
  | Pool => exact ((isValue_iff _).mp h4).2
  | Device => exact ((isValue_iff _).mp h5).2
  | LogicalSize => exact congrArg String.data (TrimSpace_sizeText _ _ h6)
  | TotalUsed => exact congrArg String.data (TrimSpace_sizeText _ _ h7)
  | Free => exact congrArg String.data (TrimSpace_sizeText _ _ h8)
  | SizeLimit =>
    cases hl : d.Limit with
    | none => simp only [Details.value, hl, limitText]; decide
    | some l =>
      obtain ⟨n, unit⟩ := l
      rw [hl] at h9
      simp only [Details.value, hl, limitText]
      exact congrArg String.data (TrimSpace_sizeText _ _ h9)

end stratis

namespace stratis

/-- `detailedLine` on a line that is, trimmed, the key `UUID`, a colon and the
rest. -/
theorem detailedLine_UUID (p : Platform) (fs : Filesystem) (line : String) (tail : List Char)
    (h : (strings.TrimSpace line).data = "UUID".data ++ ':' :: tail) :
    detailedLine p fs line = { fs with UUID := strings.TrimSpace ⟨tail⟩ } := by
  have ht : strings.TrimSpace line = ⟨"UUID".data ++ ':' :: tail⟩ := String.ext h
  unfold detailedLine
  simp only [ht]
  simp [strings.CutPrefix, strings.HasPrefix, List.isPrefixOf]

theorem detailedLine_Name (p : Platform) (fs : Filesystem) (line : String) (tail : List Char)
    (h : (strings.TrimSpace line).data = "Name".data ++ ':' :: tail) :
    detailedLine p fs line = { fs with Name := strings.TrimSpace ⟨tail⟩ } := by
  have ht : strings.TrimSpace line = ⟨"Name".data ++ ':' :: tail⟩ := String.ext h
  unfold detailedLine
  simp only [ht]
  simp [strings.CutPrefix, strings.HasPrefix, List.isPrefixOf]

theorem detailedLine_Pool (p : Platform) (fs : Filesystem) (line : String) (tail : List Char)
    (h : (strings.TrimSpace line).data = "Pool".data ++ ':' :: tail) :
    detailedLine p fs line = { fs with Pool := strings.TrimSpace ⟨tail⟩ } := by
  have ht : strings.TrimSpace line = ⟨"Pool".data ++ ':' :: tail⟩ := String.ext h
  unfold detailedLine
  simp only [ht]
  simp [strings.CutPrefix, strings.HasPrefix, List.isPrefixOf]

theorem detailedLine_Device (p : Platform) (fs : Filesystem) (line : String) (tail : List Char)
    (h : (strings.TrimSpace line).data = "Device".data ++ ':' :: tail) :
    detailedLine p fs line = { fs with DevicePath := strings.TrimSpace ⟨tail⟩ } := by
  have ht : strings.TrimSpace line = ⟨"Device".data ++ ':' :: tail⟩ := String.ext h
  unfold detailedLine
  simp only [ht]
  simp [strings.CutPrefix, strings.HasPrefix, List.isPrefixOf]

theorem detailedLine_LogicalSize (p : Platform) (fs : Filesystem) (line : String)
    (tail : List Char) (size : ℕ)
    (h : (strings.TrimSpace line).data = "Logical size of thin device".data ++ ':' :: tail)
    (hs : parseSize p (strings.TrimSpace ⟨tail⟩) = .ok size) :
    detailedLine p fs line = { fs with Total := size } := by
  have ht : strings.TrimSpace line = ⟨"Logical size of thin device".data ++ ':' :: tail⟩ :=
    String.ext h
  unfold detailedLine
  simp only [ht]
  simp [strings.CutPrefix, strings.HasPrefix, List.isPrefixOf, hs]

theorem detailedLine_TotalUsed (p : Platform) (fs : Filesystem) (line : String)
    (note tail : List Char) (size : ℕ) (hn : ':' ∉ note)
    (h : (strings.TrimSpace line).data = "Total used".data ++ note ++ ':' :: tail)
    (hs : parseSize p (strings.TrimSpace ⟨tail⟩) = .ok size) :
    detailedLine p fs line = { fs with Used := size } := by
  have ht : strings.TrimSpace line = ⟨"Total used".data ++ note ++ ':' :: tail⟩ := String.ext h
  have hcut : strings.Cut ⟨"Total used".data ++ note ++ ':' :: tail⟩ ":"
      = (⟨"Total used".data ++ note⟩, ⟨tail⟩, true) := by
    have hc := strings.cutFrom_colon ("Total used".data ++ note) tail [] (by
      intro hm
      rcases List.mem_append.mp hm with hm | hm
      · exact absurd hm (by decide)
      · exact hn hm)
    have hsep : (":" : String) ≠ "" := by decide
    unfold strings.Cut
    rw [if_neg hsep]
    show (match strings.cutFrom [':'] ("Total used".data ++ note ++ ':' :: tail) [] with
      | some (before, after) => ((⟨before⟩ : String), (⟨after⟩ : String), true)
      | none => (_, "", false)) = _
    rw [hc]
    rfl
  unfold detailedLine
  simp only [ht, hcut]
  simp [strings.CutPrefix, strings.HasPrefix, List.isPrefixOf, hs]

theorem detailedLine_Free (p : Platform) (fs : Filesystem) (line : String)
    (tail : List Char) (size : ℕ)
    (h : (strings.TrimSpace line).data = "Free".data ++ ':' :: tail)
    (hs : parseSize p (strings.TrimSpace ⟨tail⟩) = .ok size) :
    detailedLine p fs line = { fs with Free := size } := by
  have ht : strings.TrimSpace line = ⟨"Free".data ++ ':' :: tail⟩ := String.ext h
  unfold detailedLine
  simp only [ht]
  simp [strings.CutPrefix, strings.HasPrefix, List.isPrefixOf, hs]

theorem detailedLine_SizeLimit (p : Platform) (fs : Filesystem) (line : String)
    (tail : List Char)
    (h : (strings.TrimSpace line).data = "Size Limit".data ++ ':' :: tail) :
    (strings.TrimSpace ⟨tail⟩ = "None" → detailedLine p fs line = fs) ∧
    (∀ limit, strings.TrimSpace ⟨tail⟩ ≠ "None" →
      parseSize p (strings.TrimSpace ⟨tail⟩) = .ok limit →
      detailedLine p fs line = { fs with SizeLimit := some limit }) := by
  have ht : strings.TrimSpace line = ⟨"Size Limit".data ++ ':' :: tail⟩ := String.ext h
  constructor
  · intro hnone
    unfold detailedLine
    simp only [ht]
    simp [strings.CutPrefix, strings.HasPrefix, List.isPrefixOf, hnone]
  · intro limit hne hs
    unfold detailedLine
    simp only [ht]
    simp [strings.CutPrefix, strings.HasPrefix, List.isPrefixOf, hne, hs]

/-- A line without any of the keys leaves the record as it is. -/
theorem detailedLine_hasNoKey (p : Platform) (fs : Filesystem) (line : String)
    (h : hasNoKey line = true) : detailedLine p fs line = fs := by
  simp only [hasNoKey, Bool.and_eq_true, Bool.not_eq_true'] at h
  obtain ⟨⟨⟨⟨⟨⟨⟨h1, h2⟩, h3⟩, h4⟩, h5⟩, h6⟩, h7⟩, h8⟩ := h
  unfold detailedLine
  simp [strings.CutPrefix, h1, h2, h3, h4, h5, h6, h7, h8]

end stratis

namespace stratis

/-- The parts of `wellFormed`. -/
theorem wellFormed_iff (d : Details) :
    d.wellFormed = true ↔
      isValue d.UUID = true ∧ isValue d.Name = true ∧ d.Name ≠ "" ∧ isValue d.Pool = true ∧
      isValue d.Device = true ∧ isSize d.Total.1 d.Total.2 = true ∧
      isSize d.Used.1 d.Used.2 = true ∧ isSize d.Free.1 d.Free.2 = true ∧
      isLimit d.Limit = true ∧ ':' ∉ d.usedNote.data ∧ '\n' ∉ d.usedNote.data := by
  simp only [Details.wellFormed, Bool.and_eq_true, Bool.not_eq_true', bne_iff_ne, ne_eq]
  have hc : ∀ (c : Char) (l : List Char), l.contains c = false ↔ c ∉ l := by
    intro c l
    constructor
    · intro h hm
      have : l.contains c = true := List.elem_eq_true_of_mem hm
      rw [h] at this
      cases this
    · intro h
      cases hcc : l.contains c with
      | false => rfl
      | true => exact absurd (List.mem_of_elem_eq_true hcc) h
  rw [hc, hc]
  tauto

/-- `detailedLine` on the line of a well-formed report for a key: the field of
the key is set to the value of the report. -/
theorem detailedLine_isLine (p : Platform)
    (hp : ∀ n : ℕ, n < 2 ^ 53 → p.ParseFloat (toString n) = .ok (.finite (n : ℚ)))
    (d : Details) (hd : d.wellFormed = true) (k : DetailKey) (line : String)
    (h : d.isLine k line = true) (fs : Filesystem) :
    detailedLine p fs line = d.set k fs := by
  have hv := value_trimmed d hd k
  have hdata : (strings.TrimSpace line).data = (d.key k).data ++ ':' ::
      (if (d.value k).data = [] then [] else ' ' :: (d.value k).data) := by
    have : strings.TrimSpace line = strings.TrimSpace (d.line k) := by
      simpa [Details.isLine] using h
    rw [this]
    exact TrimSpace_line d k hv
  have htail : strings.TrimSpace ⟨if (d.value k).data = [] then [] else ' ' :: (d.value k).data⟩
      = d.value k := String.ext (trimSpaceRunes_tail _ hv)
  obtain ⟨_, _, _, _, _, h6, h7, h8, h9, h10, _⟩ := (wellFormed_iff d).mp hd
  cases k with
  | UUID => rw [detailedLine_UUID p fs line _ hdata, htail]; rfl
  | Name => rw [detailedLine_Name p fs line _ hdata, htail]; rfl
  | Pool => rw [detailedLine_Pool p fs line _ hdata, htail]; rfl
  | Device => rw [detailedLine_Device p fs line _ hdata, htail]; rfl
  | LogicalSize =>
    exact detailedLine_LogicalSize p fs line _ _ hdata (by
      rw [htail]; exact parseSize_isSize p hp _ _ h6)
  | TotalUsed =>
    have hkey : (d.key .TotalUsed).data = "Total used".data ++ d.usedNote.data := by
      simp [Details.key]
    rw [hkey] at hdata
    exact detailedLine_TotalUsed p fs line _ _ _ h10 hdata (by
      rw [htail]; exact parseSize_isSize p hp _ _ h7)
  | Free =>
    exact detailedLine_Free p fs line _ _ hdata (by
      rw [htail]; exact parseSize_isSize p hp _ _ h8)
  | SizeLimit =>
    obtain ⟨hnone, hsome⟩ := detailedLine_SizeLimit p fs line _ hdata
    obtain ⟨_, hl2, hl3⟩ := parseLimit p hp d.Limit h9
    rw [htail] at hnone hsome
    cases hl : d.Limit with
    | none =>
      rw [hnone (by simp only [Details.value]; exact hl2 hl)]
      simp [Details.set, limitBytes, hl]
    | some l =>
      have hne : d.Limit ≠ none := by rw [hl]; simp
      obtain ⟨h1, h2⟩ := hl3 hne
      rw [hsome _ (by simp only [Details.value]; exact h1) (by
        simp only [Details.value]; exact h2)]
      simp [Details.set, limitBytes, hl]

end stratis

/-! ## The detailed report -/

namespace stratis

/-- A fold whose steps keep a part of the state or set it to `a` ends with `a`
when it starts with `a`. -/
theorem foldl_keeps {σ β α : Type} (step : σ → β → σ) (proj : σ → α) (a : α) (lines : List β)
    (init : σ) (h0 : proj init = a)
    (hkeep : ∀ l ∈ lines, ∀ s, proj (step s l) = proj s ∨ proj (step s l) = a) :
    proj (lines.foldl step init) = a := by
  induction lines generalizing init with
  | nil => exact h0
  | cons l rest ih =>
    apply ih
    · rcases hkeep l (List.mem_cons_self _ _) init with h | h
      · rw [h, h0]
      · exact h
    · exact fun l' hl' => hkeep l' (List.mem_cons_of_mem _ hl')

/-- A fold whose steps keep a part of the state or set it to `a`, one of them
setting it, ends with `a`. -/
theorem foldl_settles {σ β α : Type} (step : σ → β → σ) (proj : σ → α) (a : α)
    (lines : List β) (init : σ)
    (hset : ∃ l ∈ lines, ∀ s, proj (step s l) = a)
    (hkeep : ∀ l ∈ lines, ∀ s, proj (step s l) = proj s ∨ proj (step s l) = a) :
    proj (lines.foldl step init) = a := by
  induction lines generalizing init with
  | nil =>
    obtain ⟨l, hl, _⟩ := hset
    simp at hl
  | cons l rest ih =>
    obtain ⟨l0, hl0, hs⟩ := hset
    rcases List.mem_cons.mp hl0 with e | hmem
    · subst e
      exact foldl_keeps step proj a rest _ (hs init)
        (fun l' hl' => hkeep l' (List.mem_cons_of_mem _ hl'))
    · exact ih _ ⟨l0, hmem, hs⟩ (fun l' hl' => hkeep l' (List.mem_cons_of_mem _ hl'))

/-- What `describedBy` says. -/
theorem describedBy_iff (d : Details) (lines : List String) :
    d.describedBy lines = true ↔
      (∀ line ∈ lines, hasNoKey line = true ∨ ∃ k, d.isLine k line = true) ∧
      (∀ k : DetailKey, ∃ line ∈ lines, d.isLine k line = true) := by
  simp only [Details.describedBy, Bool.and_eq_true, List.all_eq_true, Bool.or_eq_true,
    List.any_eq_true]
  constructor
  · rintro ⟨h1, h2⟩
    refine ⟨fun line hl => ?_, fun k => h2 k (by cases k <;> simp [DetailKey.all])⟩
    rcases h1 line hl with h | ⟨k, _, hk⟩
    · exact Or.inl h
    · exact Or.inr ⟨k, hk⟩
  · rintro ⟨h1, h2⟩
    refine ⟨fun line hl => ?_, fun k _ => h2 k⟩
    rcases h1 line hl with h | ⟨k, hk⟩
    · exact Or.inl h
    · exact Or.inr ⟨k, by cases k <;> simp [DetailKey.all], hk⟩

/-- A field of the record after the lines of a well-formed report. -/
theorem foldl_detailedLine_field {α : Type} (p : Platform)
    (hp : ∀ n : ℕ, n < 2 ^ 53 → p.ParseFloat (toString n) = .ok (.finite (n : ℚ)))
    (d : Details) (hd : d.wellFormed = true) (lines : List String)
    (hdesc : d.describedBy lines = true) (proj : Filesystem → α) (a : α) (init : Filesystem)
    (hkeep : ∀ k s, proj (d.set k s) = proj s ∨ proj (d.set k s) = a)
    (hset : proj init = a ∨ ∃ k, ∀ s, proj (d.set k s) = a) :
    proj (lines.foldl (detailedLine p) init) = a := by
  obtain ⟨h1, h2⟩ := (describedBy_iff d lines).mp hdesc
  have hk : ∀ l ∈ lines, ∀ s, proj (detailedLine p s l) = proj s ∨
      proj (detailedLine p s l) = a := by
    intro l hl s
    rcases h1 l hl with h | ⟨k, hk⟩
    · rw [detailedLine_hasNoKey p s l h]; exact Or.inl rfl
    · rw [detailedLine_isLine p hp d hd k l hk s]; exact hkeep k s
  rcases hset with h0 | ⟨k, hs⟩
  · exact foldl_keeps _ proj a lines init h0 hk
  · obtain ⟨l, hl, hline⟩ := h2 k
    exact foldl_settles _ proj a lines init
      ⟨l, hl, fun s => by rw [detailedLine_isLine p hp d hd k l hline s]; exact hs s⟩ hk

/-- `parseDetailedOutput` on the text of a well-formed report, no line of which
is too long for the scanner: the record of the report. -/
theorem parseDetailedOutput_details (p : Platform)
    (hp : ∀ n : ℕ, n < 2 ^ 53 → p.ParseFloat (toString n) = .ok (.finite (n : ℚ)))
    (d : Details) (hd : d.wellFormed = true) (text : String)
    (hshort : ∀ piece ∈ strings.Split text "\n",
      piece.utf8ByteSize < bufio.MaxScanTokenSize)
    (hdesc : d.describedBy (reportLines text) = true) :
    parseDetailedOutput p text = .ok (some d.record) := by
  have hlines := scanLines_eq_reportLines text hshort
  have hname : d.Name ≠ "" := ((wellFormed_iff d).mp hd).2.2.1
  have hfield : ∀ {α : Type} (proj : Filesystem → α) (a : α),
      (∀ k s, proj (d.set k s) = proj s ∨ proj (d.set k s) = a) →
      (proj emptyFilesystem = a ∨ ∃ k, ∀ s, proj (d.set k s) = a) →
      proj ((reportLines text).foldl (detailedLine p) emptyFilesystem) = a :=
    fun proj a h1 h2 =>
      foldl_detailedLine_field p hp d hd _ hdesc proj a emptyFilesystem h1 h2
  have hset : ∀ k s, (d.set k s).SizeLimit = s.SizeLimit ∨
      (d.set k s).SizeLimit = limitBytes d.Limit := by
    intro k s
    cases k <;> simp only [Details.set, true_or]
    cases limitBytes d.Limit <;> simp
  have e1 := hfield Filesystem.Name d.Name
    (fun k s => by cases k <;> simp [Details.set]; split <;> simp) (Or.inr ⟨.Name, fun s => rfl⟩)
  have e2 := hfield Filesystem.Pool d.Pool
    (fun k s => by cases k <;> simp [Details.set]; split <;> simp) (Or.inr ⟨.Pool, fun s => rfl⟩)
  have e3 := hfield Filesystem.DevicePath d.Device
    (fun k s => by cases k <;> simp [Details.set]; split <;> simp)
    (Or.inr ⟨.Device, fun s => rfl⟩)
  have e4 := hfield Filesystem.Total (sizeBytes d.Total.1 d.Total.2)
    (fun k s => by cases k <;> simp [Details.set]; split <;> simp)
    (Or.inr ⟨.LogicalSize, fun s => rfl⟩)
  have e5 := hfield Filesystem.Used (sizeBytes d.Used.1 d.Used.2)
    (fun k s => by cases k <;> simp [Details.set]; split <;> simp)
    (Or.inr ⟨.TotalUsed, fun s => rfl⟩)
  have e6 := hfield Filesystem.Free (sizeBytes d.Free.1 d.Free.2)
    (fun k s => by cases k <;> simp [Details.set]; split <;> simp)
    (Or.inr ⟨.Free, fun s => rfl⟩)
  have e7 := hfield Filesystem.SizeLimit (limitBytes d.Limit) hset (by
    cases hl : limitBytes d.Limit with
    | none => exact Or.inl rfl
    | some l =>
      right
      refine ⟨.SizeLimit, fun s => ?_⟩
      simp [Details.set, hl])
  have e8 := hfield Filesystem.UUID d.UUID
    (fun k s => by cases k <;> simp [Details.set]; split <;> simp) (Or.inr ⟨.UUID, fun s => rfl⟩)
  unfold parseDetailedOutput
  rw [hlines]
  simp only []
  rw [if_neg (by rw [e1]; exact hname)]
  congr 2
  rcases hfs : (reportLines text).foldl (detailedLine p) emptyFilesystem with
    ⟨n, po, dv, t, u, f, sl, uu⟩
  rw [hfs] at e1 e2 e3 e4 e5 e6 e7 e8
  simp only at e1 e2 e3 e4 e5 e6 e7 e8
  subst e1 e2 e3 e4 e5 e6 e7 e8
  rfl

end stratis

/-! ## The platform of the concrete runs and the documented reports -/

namespace stratis

/-- The platform of the concrete runs reads whole numbers below 2^53 exactly. -/
theorem demo_platform_whole (n : ℕ) (h : n < 2 ^ 53) :
    demo.platform.ParseFloat (toString n) = .ok (.finite (n : ℚ)) := by
  obtain ⟨hne, hd, hv⟩ := strconv.toString_digits n
  have := strconv.ParseFloat_digits (toString n).data hne hd (by rw [hv]; exact h)
  rw [hv] at this
  show (match strconv.ParseFloat (toString n) with
    | .ok q => Except.ok (strconv.Float64.finite q)
    | .error err => .error err) = _
  have e : (toString n : String) = ⟨(toString n).data⟩ := rfl
  rw [e, this]

/-- The report in the comment of `parseDetailedOutput` is a report with the
details `demo.details`, and none of its lines is too long. -/
theorem demo_detailedReport_described :
    demo.details.wellFormed = true ∧
    (∀ piece ∈ strings.Split demo.detailedReport "\n",
      piece.utf8ByteSize < bufio.MaxScanTokenSize) ∧
    demo.details.describedBy (reportLines demo.detailedReport) = true := by
  refine ⟨by decide, by decide, by decide⟩

end stratis

namespace stratis

/-- A line that does not start with `Name:` leaves the name of the record. -/
theorem detailedLine_Name_keep (p : Platform) (fs : Filesystem) (line : String)
    (h : strings.HasPrefix (strings.TrimSpace line) "Name:" = false) :
    (detailedLine p fs line).Name = fs.Name := by
  unfold detailedLine
  simp only [strings.CutPrefix, h]
  repeat' split
  all_goals first | rfl | simp_all

/-- A line that starts with `Name:` sets the name of the record to the trimmed
rest of the line. -/
theorem detailedLine_Name_set (p : Platform) (fs : Filesystem) (line : String)
    (h : strings.HasPrefix (strings.TrimSpace line) "Name:" = true) :
    (detailedLine p fs line).Name
      = strings.TrimSpace ⟨(strings.TrimSpace line).data.drop 5⟩ := by
  have hu : strings.HasPrefix (strings.TrimSpace line) "UUID:" = false := by
    unfold strings.HasPrefix at h ⊢
    cases hd : (strings.TrimSpace line).data with
    | nil => rw [hd] at h; simp [List.isPrefixOf] at h
    | cons c cs =>
      rw [hd] at h
      have hc : c = 'N' := by
        have : ('N' == c) = true := by
          simp only [List.isPrefixOf, Bool.and_eq_true] at h
          exact h.1
        exact (by simpa using this : 'N' = c).symm
      subst hc
      rfl
  unfold detailedLine
  simp only [strings.CutPrefix, h, hu]
  rfl

/-- The name of the record after the lines of a report. -/
theorem foldl_detailedLine_Name (p : Platform) (lines : List String) (fs : Filesystem) :
    (lines.foldl (detailedLine p) fs).Name
      = lines.foldl (fun name line =>
          if strings.HasPrefix (strings.TrimSpace line) "Name:" then
            strings.TrimSpace ⟨(strings.TrimSpace line).data.drop 5⟩
          else name) fs.Name := by
  induction lines generalizing fs with
  | nil => rfl
  | cons l rest ih =>
    simp only [List.foldl_cons]
    rw [ih]
    congr 1
    by_cases h : strings.HasPrefix (strings.TrimSpace l) "Name:" = true
    · rw [if_pos h, detailedLine_Name_set p fs l h]
    · have h' : strings.HasPrefix (strings.TrimSpace l) "Name:" = false := by
        simpa using h
      rw [if_neg h, detailedLine_Name_keep p fs l h']

/-- `parseDetailedOutput` fails exactly when the report gives no name. -/
theorem parseDetailedOutput_error_iff (p : Platform) (text : String) :
    (readName (bufio.scanLines text) = "" →
      parseDetailedOutput p text = .error (.msg "failed to parse filesystem details")) ∧
    (readName (bufio.scanLines text) ≠ "" →
      ∃ fs, parseDetailedOutput p text = .ok (some fs) ∧
        fs.Name = readName (bufio.scanLines text)) := by
  have hn := foldl_detailedLine_Name p (bufio.scanLines text) emptyFilesystem
  unfold parseDetailedOutput readName
  constructor
  · intro h
    simp only []
    rw [if_pos (by rw [hn]; exact h)]
  · intro h
    simp only []
    rw [if_neg (by rw [hn]; exact h)]
    exact ⟨_, rfl, hn⟩

end stratis

namespace bufio

/-- A first line of `MaxScanTokenSize` bytes or more ends the scan at once. -/
theorem scanLines_long_first_line (n : ℕ) (rest : String) (h : MaxScanTokenSize ≤ n) :
    scanLines (demo.longLine n ++ "\n" ++ rest) = [] := by
  have hdata : (demo.longLine n ++ "\n" ++ rest).data
      = List.replicate n 'a' ++ '\n' :: rest.data := by
    simp [demo.longLine]
  have hnl : '\n' ∉ List.replicate n 'a' := by
    intro hm
    have := List.eq_of_mem_replicate hm
    exact absurd this (by decide)
  have hlen : String.utf8Len (List.replicate n 'a') = n := by
    rw [validation.utf8Len_of_ascii _ (by
      intro c hc
      rw [List.eq_of_mem_replicate hc]
      decide)]
    exact List.length_replicate _ _
  unfold scanLines
  rw [hdata, scanLinesFrom_line _ _ _ hnl, List.nil_append, hlen, if_pos h]
  rfl

end bufio

/-! ## The table of filesystems -/

namespace bufio

/-- A line of `MaxScanTokenSize` bytes or more ends the scan. -/
theorem scanLinesFrom_long_line (n : ℕ) (rest : List Char) (h : MaxScanTokenSize ≤ n) :
    scanLinesFrom (List.replicate n 'a' ++ '\n' :: rest) [] = [] := by
  have hnl : '\n' ∉ List.replicate n 'a' := by
    intro hm
    have := List.eq_of_mem_replicate hm
    exact absurd this (by decide)
  have hlen : String.utf8Len (List.replicate n 'a') = n := by
    rw [validation.utf8Len_of_ascii _ (by
      intro c hc
      rw [List.eq_of_mem_replicate hc]
      decide)]
    exact List.length_replicate _ _
  rw [scanLinesFrom_line _ _ _ hnl, List.nil_append, hlen, if_pos h]

end bufio

namespace stratis

/-- The loop of `parseFilesystemTable` after the first line appends the records
of the lines, in their order. -/
theorem tableLines_succ (p : Platform) (n : ℕ) (lines : List String) (acc : List Filesystem) :
    tableLines p (n + 1) lines acc = acc ++ lines.filterMap (rowRecord p) := by
  induction lines generalizing n acc with
  | nil => simp [tableLines]
  | cons l rest ih =>
    unfold tableLines
    by_cases hb : strings.TrimSpace l = ""
    · simp [hb, ih, rowRecord]
    · have h1 : ¬ (n + 1 + 1 = 1 ∨ strings.TrimSpace l = "") := by
        rintro (h | h)
        · omega
        · exact hb h
      rw [if_neg h1]
      cases hr : parseFilesystemTableLine p l with
      | error e => simp [rowRecord, hb, hr, ih]
      | ok fs => simp [rowRecord, hb, hr, ih]

/-- `parseFilesystemTable` returns the records of the lines the scanner yields
after the first. -/
theorem parseFilesystemTable_eq (p : Platform) (text : String) :
    parseFilesystemTable p text = .ok ((bufio.scanLines text).tail.filterMap (rowRecord p)) := by
  unfold parseFilesystemTable
  cases bufio.scanLines text with
  | nil => rfl
  | cons l rest =>
    unfold tableLines
    simp [tableLines_succ]

/-- The row of the table in the comment of `parseFilesystemTable`, as a row of
columns. -/
theorem demo_row :
    demo.tableRowLine
      = tableRow "podman_vols" "vol1"
          (sizeInfoText (sizeText 1 "GiB") (sizeText 74 "MiB") (sizeText 950 "MiB")
            (limitText none))
          ("/dev/" ++ "stratis/podman_vols/vol1") "ad719e64-ae83-4997-bf2e-787c7824be0e"
          2 8 2 2 := by
  decide

/-- The record of the row in the comment of `parseFilesystemTable`. -/
theorem demo_rowRecord :
    rowRecord demo.platform demo.tableRowLine
      = some { Name := "vol1", Pool := "podman_vols",
               DevicePath := "/dev/stratis/podman_vols/vol1", Total := 1073741824,
               Used := 77594624, Free := 996147200, SizeLimit := none,
               UUID := "ad719e64-ae83-4997-bf2e-787c7824be0e" } := by
  have h := parseFilesystemTableLine_tableRow demo.platform demo_platform_whole
    "podman_vols" "vol1" "stratis/podman_vols/vol1" "ad719e64-ae83-4997-bf2e-787c7824be0e"
    1 74 950 "GiB" "MiB" "MiB" none 2 8 2 2 (by decide) (by decide) (by decide) (by decide)
    (by decide) (by decide) (by decide) (by decide)
  rw [← demo_row] at h
  unfold rowRecord
  rw [if_neg (by decide), h]
  decide

end stratis

/-! ## The records of the two backends -/

namespace stratis

variable {σ : Type}

/-- A record `parseFilesystemFromProps` returns is present, has a name and a
device path, and its free size is its total size minus its used size, 0 when
the used size is the larger. -/
theorem parseFilesystemFromProps_some (pool : String) (props : dbus.Props)
    (r : Option Filesystem) (h : parseFilesystemFromProps pool props = .ok r) :
    ∃ fs, r = some fs ∧ fs.Name ≠ "" ∧ fs.DevicePath ≠ "" ∧ fs.Free = fs.Total - fs.Used := by
  unfold parseFilesystemFromProps at h
  simp only [] at h
  split_ifs at h with h1 h2 h3
  all_goals
    simp only [Except.ok.injEq] at h
    refine ⟨_, h.symm, h1, h2, ?_⟩
    first
      | (simp only []; done)
      | (simp only []; omega)

/-- The record of a property map that describes the filesystem of the details. -/
theorem parseFilesystemFromProps_details (pool : String) (props : dbus.Props) (d : Details)
    (hd : d.wellFormed = true) (hdev : d.Device ≠ "") (hprops : d.inProps props = true) :
    parseFilesystemFromProps pool props
      = .ok (some { Name := d.Name, Pool := pool, DevicePath := d.Device,
                    Total := sizeBytes d.Total.1 d.Total.2,
                    Used := sizeBytes d.Used.1 d.Used.2,
                    Free := sizeBytes d.Total.1 d.Total.2 - sizeBytes d.Used.1 d.Used.2,
                    SizeLimit := limitBytes d.Limit, UUID := stringProp props "Uuid" }) := by
  obtain ⟨_, _, hname, _, _, h6, h7, _, h9, _, _⟩ := (wellFormed_iff d).mp hd
  simp only [Details.inProps, Bool.and_eq_true, beq_iff_eq] at hprops
  obtain ⟨⟨⟨⟨hN, hD⟩, hS⟩, hU⟩, hL⟩ := hprops
  have hT : sizeBytes d.Total.1 d.Total.2 < 2 ^ 64 :=
    lt_trans ((isSize_iff _ _).mp h6).2 (by norm_num)
  have hUs : sizeBytes d.Used.1 d.Used.2 < 2 ^ 64 :=
    lt_trans ((isSize_iff _ _).mp h7).2 (by norm_num)
  have hsT := fmt.sscanUint64_toString _ hT
  have hsU := fmt.sscanUint64_toString _ hUs
  cases hl : d.Limit with
  | none =>
    rw [hl] at hL
    simp only [limitBytes, Option.map_none'] at hL
    simp [parseFilesystemFromProps, stringProp, hN, hname, hD, hdev, hS, hsT, hU, hsU, hL,
      extractOptionalString, limitBytes]
    omega
  | some l =>
    rw [hl] at hL h9
    simp only [limitBytes, Option.map_some'] at hL
    have hLs : sizeBytes l.1 l.2 < 2 ^ 64 :=
      lt_trans ((isSize_iff _ _).mp h9).2 (by norm_num)
    have hsL := fmt.sscanUint64_toString _ hLs
    simp [parseFilesystemFromProps, stringProp, hN, hname, hD, hdev, hS, hsT, hU, hsU, hL,
      extractOptionalString, limitBytes, hsL]
    omega

/-- The record of the row of the table for the details of a filesystem. -/
theorem parseFilesystemTableLine_row (p : Platform)
    (hp : ∀ n : ℕ, n < 2 ^ 53 → p.ParseFloat (toString n) = .ok (.finite (n : ℚ)))
    (d : Details) (hd : d.wellFormed = true) (hrow : d.fitsRow = true) (g1 g2 g3 g4 : ℕ) :
    parseFilesystemTableLine p (d.row g1 g2 g3 g4) = .ok d.record := by
  obtain ⟨_, _, _, _, _, h6, h7, h8, h9, _, _⟩ := (wellFormed_iff d).mp hd
  simp only [Details.fitsRow, Bool.and_eq_true] at hrow
  obtain ⟨⟨⟨⟨hpool, hname⟩, huuid⟩, hpre⟩, hpath⟩ := hrow
  have hdev : d.Device = "/dev/" ++ (⟨d.Device.data.drop 5⟩ : String) := by
    apply String.ext
    obtain ⟨r, hr⟩ := List.isPrefixOf_iff_prefix.mp hpre
    rw [← hr]
    rfl
  have h := parseFilesystemTableLine_tableRow p hp d.Pool d.Name ⟨d.Device.data.drop 5⟩ d.UUID
    d.Total.1 d.Used.1 d.Free.1 d.Total.2 d.Used.2 d.Free.2 d.Limit g1 g2 g3 g4
    hpool hname hpath huuid h6 h7 h8 h9
  rw [← hdev] at h
  exact h

end stratis

/-! ## Sizes written with a fraction -/

namespace strconv

/-- A rational nearer to the integer `m` than to any other integer rounds to `m`. -/
theorem roundHalfEven_near (q : ℚ) (m : ℤ) (h1 : (m : ℚ) - 1 / 2 < q) (h2 : q < m + 1 / 2) :
    roundHalfEven q = m := by
  unfold roundHalfEven
  simp only []
  by_cases hm : (m : ℚ) ≤ q
  · have hf : ⌊q⌋ = m := by
      rw [Int.floor_eq_iff]
      exact ⟨hm, by linarith⟩
    rw [hf, if_pos (by linarith)]
  · have hf : ⌊q⌋ = m - 1 := by
      rw [Int.floor_eq_iff]
      push_cast
      exact ⟨by linarith, by linarith [not_le.mp hm]⟩
    rw [hf]
    push_cast
    rw [if_neg (by linarith), if_pos (by linarith)]
    ring

/-- The float64 nearest to a rational `q` with 2^e ≤ q < 2^(e+1), e ≤ 52: the
integer `m` nearest to q * 2^(52-e), over 2^(52-e). -/
theorem roundFloat64_near (q : ℚ) (e : ℕ) (m : ℤ) (he : e ≤ 52)
    (hlo : (2 : ℚ) ^ e ≤ q) (hhi : q < 2 ^ (e + 1))
    (h1 : (m : ℚ) - 1 / 2 < q * 2 ^ (52 - e)) (h2 : q * 2 ^ (52 - e) < m + 1 / 2) :
    roundFloat64 q = (m : ℚ) / 2 ^ (52 - e) := by
  have hqpos : (0 : ℚ) < q := lt_of_lt_of_le (by positivity) hlo
  have hlog : Int.log 2 q = (e : ℤ) := by
    apply le_antisymm
    · have : Int.log 2 q < (e : ℤ) + 1 := by
        rw [← Int.lt_zpow_iff_log_lt (by norm_num) hqpos]
        have : (((2 : ℕ) : ℚ)) ^ ((e : ℤ) + 1) = 2 ^ (e + 1) := by
          rw [show ((e : ℤ) + 1) = ((e + 1 : ℕ) : ℤ) by push_cast; ring, zpow_natCast]
          norm_num
        rw [this]; exact hhi
      omega
    · rw [← Int.zpow_le_iff_le_log (by norm_num) hqpos]
      rw [zpow_natCast]
      exact_mod_cast hlo
  unfold roundFloat64
  rw [if_neg (not_le.mpr hqpos), hlog]
  have hmax : max (e : ℤ) (-1022) = (e : ℤ) := max_eq_left (by omega)
  simp only [hmax]
  have hpow : (2 : ℚ) ^ ((e : ℤ) - 52) = 1 / 2 ^ (52 - e) := by
    rw [show ((e : ℤ) - 52) = -((52 - e : ℕ) : ℤ) by omega, zpow_neg, zpow_natCast]
    simp
  rw [hpow]
  have hq : q / (1 / 2 ^ (52 - e)) = q * 2 ^ (52 - e) := by field_simp
  rw [hq, roundHalfEven_near _ m h1 h2]
  ring

end strconv

namespace stratis

/-- The size "2.01 GB" is parsed as 2009999999 bytes: the float64 nearest to
2.01 is below 2.01, and so is its product with 10^9, which `uint64` cuts. -/
theorem parseSize_fraction_GB : parseSize demo.platform "2.01 GB" = .ok 2009999999 := by
  have hq : strconv.readDecimal "2.01".data = some ((201 : ℚ) / 100) := by
    have t1 : List.takeWhile strconv.isDigit "2.01".data = ['2'] := by decide
    have t2 : List.dropWhile strconv.isDigit "2.01".data = ['.', '0', '1'] := by decide
    have t3 : (('.' : Char) == '.' && ['0', '1'].all strconv.isDigit &&
        !((['2'] : List Char).isEmpty && ['0', '1'].isEmpty)) = true := by decide
    have t4 : strconv.decimalValue (['2'] ++ ['0', '1']) = 201 := by decide
    unfold strconv.readDecimal
    simp only [t1, t2, t3, t4, if_true]
    norm_num
  have hr : strconv.roundFloat64 ((201 : ℚ) / 100) = (4526117625507348 : ℤ) / 2 ^ (52 - 1) :=
    strconv.roundFloat64_near _ 1 _ (by norm_num) (by norm_num) (by norm_num) (by norm_num)
      (by norm_num)
  have hpf : demo.platform.ParseFloat "2.01"
      = .ok (.finite ((4526117625507348 : ℤ) / 2 ^ (52 - 1))) := by
    show (match strconv.ParseFloat "2.01" with
      | .ok q => Except.ok (strconv.Float64.finite q)
      | .error err => .error err) = _
    unfold strconv.ParseFloat
    simp only [hq, hr]
    rw [if_neg (by unfold strconv.maxFloat64; norm_num)]
  have hmul : strconv.roundFloat64 ((4526117625507348 : ℤ) / 2 ^ (52 - 1) * ((1000 * 1000 * 1000 : ℕ) : ℚ))
      = (8430551039999999 : ℤ) / 2 ^ (52 - 30) :=
    strconv.roundFloat64_near _ 30 _ (by norm_num) (by norm_num) (by norm_num) (by norm_num)
      (by norm_num)
  have key := parseSize_fields demo.platform [] "2.01".data [' '] "GB".data []
    (.finite ((4526117625507348 : ℤ) / 2 ^ (52 - 1))) (1000 * 1000 * 1000)
    (by simp) (by decide) (by decide) (by decide) (by decide) (by decide) (by decide)
    (by simp) hpf (by decide)
  have hs : ("2.01 GB" : String) = ⟨[] ++ "2.01".data ++ [' '] ++ "GB".data ++ []⟩ := by decide
  rw [hs, key]
  simp only [strconv.Float64.mulNat, hmul]
  rw [if_neg (by norm_num), if_neg (by unfold strconv.maxFloat64; norm_num)]
  simp only [strconv.Float64.toUint64]
  rw [if_pos (by norm_num)]
  have hfl : ⌊((8430551039999999 : ℤ) : ℚ) / 2 ^ (52 - 30)⌋ = 2009999999 := by
    rw [Int.floor_eq_iff]
    norm_num
  rw [hfl]
  rfl

end stratis

namespace stratis

/-- The size "0 B". -/
theorem parseSize_zero_B : parseSize demo.platform "0 B" = .ok 0 :=
  parseSize_sizeText demo.platform 0 "B" 1 (demo_platform_whole 0 (by norm_num)) (by decide)
    (by norm_num)

/-- The size "1.005 KB" is parsed as 1004 bytes: the float64 nearest to 1.005 is
below 1.005, and so is its product with 1000, which `uint64` cuts. -/
theorem parseSize_fraction_KB : parseSize demo.platform "1.005 KB" = .ok 1004 := by
  have hq : strconv.readDecimal "1.005".data = some ((1005 : ℚ) / 1000) := by
    have t1 : List.takeWhile strconv.isDigit "1.005".data = ['1'] := by decide
    have t2 : List.dropWhile strconv.isDigit "1.005".data = ['.', '0', '0', '5'] := by decide
    have t3 : (('.' : Char) == '.' && ['0', '0', '5'].all strconv.isDigit &&
        !((['1'] : List Char).isEmpty && ['0', '0', '5'].isEmpty)) = true := by decide
    have t4 : strconv.decimalValue (['1'] ++ ['0', '0', '5']) = 1005 := by decide
    unfold strconv.readDecimal
    simp only [t1, t2, t3, t4, if_true]
    norm_num
  have hr : strconv.roundFloat64 ((1005 : ℚ) / 1000) = (4526117625507348 : ℤ) / 2 ^ (52 - 0) :=
    strconv.roundFloat64_near _ 0 _ (by norm_num) (by norm_num) (by norm_num) (by norm_num)
      (by norm_num)
  have hpf : demo.platform.ParseFloat "1.005"
      = .ok (.finite ((4526117625507348 : ℤ) / 2 ^ (52 - 0))) := by
    show (match strconv.ParseFloat "1.005" with
      | .ok q => Except.ok (strconv.Float64.finite q)
      | .error err => .error err) = _
    unfold strconv.ParseFloat
    simp only [hq, hr]
    rw [if_neg (by unfold strconv.maxFloat64; norm_num)]
  have hmul : strconv.roundFloat64
      ((4526117625507348 : ℤ) / 2 ^ (52 - 0) * ((1000 : ℕ) : ℚ))
      = (8840073487319039 : ℤ) / 2 ^ (52 - 9) :=
    strconv.roundFloat64_near _ 9 _ (by norm_num) (by norm_num) (by norm_num) (by norm_num)
      (by norm_num)
  have key := parseSize_fields demo.platform [] "1.005".data [' '] "KB".data []
    (.finite ((4526117625507348 : ℤ) / 2 ^ (52 - 0))) 1000
    (by simp) (by decide) (by decide) (by decide) (by decide) (by decide) (by decide)
    (by simp) hpf (by decide)
  have hs : ("1.005 KB" : String) = ⟨[] ++ "1.005".data ++ [' '] ++ "KB".data ++ []⟩ := by
    decide
  rw [hs, key]
  simp only [strconv.Float64.mulNat, hmul]
  rw [if_neg (by norm_num), if_neg (by unfold strconv.maxFloat64; norm_num)]
  simp only [strconv.Float64.toUint64]
  rw [if_pos (by norm_num)]
  have hfl : ⌊((8840073487319039 : ℤ) : ℚ) / 2 ^ (52 - 9)⌋ = 1004 := by
    rw [Int.floor_eq_iff]
    norm_num
  rw [hfl]
  rfl

/-- `parseSizeInfo` on a text of four parts without limit, from the sizes of the
parts. -/
theorem parseSizeInfo_parts (p : Platform) (s part0 part1 part2 part3 : String)
    (total used free : ℕ) (hs : strings.Split s " / " = [part0, part1, part2, part3])
    (ht : parseSize p (strings.TrimSpace part0) = .ok total)
    (hu : parseSize p (strings.TrimSpace part1) = .ok used)
    (hf : parseSize p (strings.TrimSpace part2) = .ok free)
    (hl : strings.TrimSpace part3 = "None") :
    parseSizeInfo p s = .ok (total, used, free, none) := by
  rw [parseSizeInfo, hs]
  simp only [ht, hu, hf, hl]
  rfl

/-- `parseFilesystemTableLine` on a line the expression matches, from its size
info. -/
theorem parseFilesystemTableLine_parts (p : Platform) (line : String)
    (pool name sizeInfo devicePath uuid : List Char) (sizes : ℕ × ℕ × ℕ × Option ℕ)
    (hm : matchTableLine line.data = some (pool, name, sizeInfo, devicePath, uuid))
    (hi : parseSizeInfo p ⟨sizeInfo⟩ = .ok sizes) :
    parseFilesystemTableLine p line
      = .ok { Name := ⟨name⟩, Pool := ⟨pool⟩, DevicePath := ⟨devicePath⟩, Total := sizes.1,
              Used := sizes.2.1, Free := sizes.2.2.1, SizeLimit := sizes.2.2.2,
              UUID := ⟨uuid⟩ } := by
  obtain ⟨total, used, free, limit⟩ := sizes
  rw [parseFilesystemTableLine, hm]
  simp only [hi]

/-- The table row with the sizes `1.005 KB / 1005 B / 0 B / None`: the total
size is cut to 1004 bytes. -/
theorem cutRow_record :
    parseFilesystemTableLine demo.platform demo.cutRow
      = .ok { Name := "vol1", Pool := "podman_vols",
              DevicePath := "/dev/stratis/podman_vols/vol1", Total := 1004, Used := 1005,
              Free := 0, SizeLimit := none, UUID := "uuid-1" } := by
  have hused : parseSize demo.platform "1005 B" = .ok 1005 := by
    have h := parseSize_sizeText demo.platform 1005 "B" 1
      (demo_platform_whole 1005 (by norm_num)) (by decide) (by norm_num)
    have e : sizeText 1005 "B" = "1005 B" := by decide
    rw [e] at h
    exact h
  have t1 : strings.TrimSpace "1.005 KB" = "1.005 KB" := by decide
  have t2 : strings.TrimSpace "1005 B" = "1005 B" := by decide
  have t3 : strings.TrimSpace "0 B" = "0 B" := by decide
  exact parseFilesystemTableLine_parts demo.platform demo.cutRow "podman_vols".data
    "vol1".data "1.005 KB / 1005 B / 0 B / None".data "/dev/stratis/podman_vols/vol1".data
    "uuid-1".data (1004, 1005, 0, none) (by decide)
    (parseSizeInfo_parts demo.platform _ "1.005 KB" "1005 B" "0 B" "None" 1004 1005 0
      (by decide) (by rw [t1]; exact parseSize_fraction_KB) (by rw [t2]; exact hused)
      (by rw [t3]; exact parseSize_zero_B) (by decide))

end stratis

/-! ## The two backends on the same filesystem -/

namespace stratis

/-- C21, as stated, fails for a size written with a fraction. The table row and
the detailed report with the total and free size `2.01 GB`, the used size
`0 B` and no limit, and the property map with Size "2010000000" and Used
(true, "0"), describe the same filesystem of 2010000000 bytes; both parsers of
the CLI backend return the total and free size 2009999999, the parser of the
bus backend 2010000000. -/
theorem backends_disagree_fraction :
    parseFilesystemTableLine demo.platform demo.fractionRow
      = .ok (demo.fractionRecord 2009999999) ∧
    parseDetailedOutput demo.platform demo.fractionReport
      = .ok (some (demo.fractionRecord 2009999999)) ∧
    parseFilesystemFromProps "podman_vols" demo.fractionProps
      = .ok (some (demo.fractionRecord 2010000000)) ∧
    (demo.fractionRecord 2009999999).Total ≠ (demo.fractionRecord 2010000000).Total := by
  refine ⟨?_, ?_, by decide, by decide⟩
  · have t1 : strings.TrimSpace "2.01 GB" = "2.01 GB" := by decide
    have t2 : strings.TrimSpace "0 B" = "0 B" := by decide
    exact parseFilesystemTableLine_parts demo.platform demo.fractionRow "podman_vols".data
      "vol1".data "2.01 GB / 0 B / 2.01 GB / None".data "/dev/stratis/podman_vols/vol1".data
      "uuid-1".data (2009999999, 0, 2009999999, none) (by decide)
      (parseSizeInfo_parts demo.platform _ "2.01 GB" "0 B" "2.01 GB" "None" 2009999999 0
        2009999999 (by decide) (by rw [t1]; exact parseSize_fraction_GB)
        (by rw [t2]; exact parseSize_zero_B) (by rw [t1]; exact parseSize_fraction_GB)
        (by decide))
  · have hlines : bufio.scanLines demo.fractionReport
        = ["UUID: uuid-1", "Name: vol1", "Pool: podman_vols",
           "Device: /dev/stratis/podman_vols/vol1",
           "\tLogical size of thin device: 2.01 GB",
           "\tTotal used (including XFS metadata): 0 B", "\tFree: 2.01 GB",
           "\tSize Limit: None"] := by decide
    have l1 : ∀ fs, detailedLine demo.platform fs "UUID: uuid-1" = { fs with UUID := "uuid-1" } :=
      fun fs => by
        rw [detailedLine_UUID demo.platform fs _ " uuid-1".data (by decide)]
        have : strings.TrimSpace ⟨" uuid-1".data⟩ = "uuid-1" := by decide
        rw [this]
    have l2 : ∀ fs, detailedLine demo.platform fs "Name: vol1" = { fs with Name := "vol1" } :=
      fun fs => by
        rw [detailedLine_Name demo.platform fs _ " vol1".data (by decide)]
        have : strings.TrimSpace ⟨" vol1".data⟩ = "vol1" := by decide
        rw [this]
    have l3 : ∀ fs, detailedLine demo.platform fs "Pool: podman_vols"
        = { fs with Pool := "podman_vols" } :=
      fun fs => by
        rw [detailedLine_Pool demo.platform fs _ " podman_vols".data (by decide)]
        have : strings.TrimSpace ⟨" podman_vols".data⟩ = "podman_vols" := by decide
        rw [this]
    have l4 : ∀ fs, detailedLine demo.platform fs "Device: /dev/stratis/podman_vols/vol1"
        = { fs with DevicePath := "/dev/stratis/podman_vols/vol1" } :=
      fun fs => by
        rw [detailedLine_Device demo.platform fs _ " /dev/stratis/podman_vols/vol1".data
          (by decide)]
        have : strings.TrimSpace ⟨" /dev/stratis/podman_vols/vol1".data⟩
            = "/dev/stratis/podman_vols/vol1" := by decide
        rw [this]
    have l5 : ∀ fs, detailedLine demo.platform fs "\tLogical size of thin device: 2.01 GB"
        = { fs with Total := 2009999999 } :=
      fun fs => detailedLine_LogicalSize demo.platform fs _ " 2.01 GB".data 2009999999
        (by decide) (by
          have : strings.TrimSpace ⟨" 2.01 GB".data⟩ = "2.01 GB" := by decide
          rw [this]; exact parseSize_fraction_GB)
    have l6 : ∀ fs, detailedLine demo.platform fs "\tTotal used (including XFS metadata): 0 B"
        = { fs with Used := 0 } :=
      fun fs => detailedLine_TotalUsed demo.platform fs _ " (including XFS metadata)".data
        " 0 B".data 0 (by decide) (by decide) (by
          have : strings.TrimSpace ⟨" 0 B".data⟩ = "0 B" := by decide
          rw [this]; exact parseSize_zero_B)
    have l7 : ∀ fs, detailedLine demo.platform fs "\tFree: 2.01 GB"
        = { fs with Free := 2009999999 } :=
      fun fs => detailedLine_Free demo.platform fs _ " 2.01 GB".data 2009999999
        (by decide) (by
          have : strings.TrimSpace ⟨" 2.01 GB".data⟩ = "2.01 GB" := by decide
          rw [this]; exact parseSize_fraction_GB)
    have l8 : ∀ fs, detailedLine demo.platform fs "\tSize Limit: None" = fs :=
      fun fs => (detailedLine_SizeLimit demo.platform fs _ " None".data (by decide)).1
        (by decide)
    rw [parseDetailedOutput]
    rw [hlines]
    simp only [List.foldl, l1, l2, l3, l4, l5, l6, l7, l8]
    rfl

/-- C21, amended: for a detailed report, a table row and a property map of the
bus that describe the same filesystem (the same name and device, the total size
T, the used size U, the free size T - U and the same size limit or none, the
sizes of the reports written as whole numbers with a unit and worth less than
2^53 bytes), `parseDetailedOutput`, `parseFilesystemTableLine` and
`parseFilesystemFromProps` return records with the same Name, DevicePath,
Total, Used, Free and SizeLimit: the two parsers of the CLI backend return the
record of the details, and the parser of the bus backend returns it with the
pool of its manager and the `Uuid` of the property map. `ParseFloat` is taken to
read a whole number below 2^53 as that number, and no line of the report is too
long for the scanner. -/
theorem backends_agree (p : Platform) (d : Details) (text : String) (g1 g2 g3 g4 : ℕ)
    (busPool : String) (props : dbus.Props)
    (hp : ∀ n : ℕ, n < 2 ^ 53 → p.ParseFloat (toString n) = .ok (.finite (n : ℚ)))
    (hd : d.wellFormed = true) (hrow : d.fitsRow = true)
    (hfree : sizeBytes d.Free.1 d.Free.2
      = sizeBytes d.Total.1 d.Total.2 - sizeBytes d.Used.1 d.Used.2)
    (hshort : ∀ piece ∈ strings.Split text "\n",
      piece.utf8ByteSize < bufio.MaxScanTokenSize)
    (hdesc : d.describedBy (reportLines text) = true)
    (hprops : d.inProps props = true) :
    parseDetailedOutput p text = .ok (some d.record) ∧
    parseFilesystemTableLine p (d.row g1 g2 g3 g4) = .ok d.record ∧
    parseFilesystemFromProps busPool props
      = .ok (some { d.record with Pool := busPool, UUID := stringProp props "Uuid" }) := by
  refine ⟨parseDetailedOutput_details p hp d hd text hshort hdesc,
    parseFilesystemTableLine_row p hp d hd hrow g1 g2 g3 g4, ?_⟩
  have hdev : d.Device ≠ "" := by
    simp only [Details.fitsRow, Bool.and_eq_true] at hrow
    intro e
    have h := hrow.1.2
    rw [e] at h
    exact absurd h (by decide)
  rw [parseFilesystemFromProps_details busPool props d hd hdev hprops]
  simp only [Details.record, hfree]

/-- C21 amended, on the filesystem `vol1` of the documentation: the detailed report and
the table row with `1 GiB / 74 MiB / 950 MiB / None` and the property map with
Size "1073741824", Used (true, "77594624") and SizeLimit (false, "") give the
same name, device, sizes and no limit. -/
theorem backends_agree_witness :
    (parseDetailedOutput demo.platform demo.detailedReport = .ok (some demo.details.record) ∧
     parseFilesystemTableLine demo.platform (demo.details.row 2 8 2 2)
       = .ok demo.details.record ∧
     parseFilesystemFromProps "podman_vols" demo.podmanVol1Props
       = .ok (some { demo.details.record with
           Pool := "podman_vols", UUID := stringProp demo.podmanVol1Props "Uuid" })) ∧
    demo.details.record = demo.vol1 ∧
    demo.details.row 2 8 2 2 =
      "podman_vols   vol1         1 GiB / 74 MiB / 950 MiB / None   /dev/stratis/podman_vols/vol1   5944af0c-f520-4773-9006-edcd79a66d50" :=
  ⟨backends_agree demo.platform demo.details demo.detailedReport 2 8 2 2 "podman_vols"
      demo.podmanVol1Props demo_platform_whole (by decide) (by decide) (by decide)
      demo_detailedReport_described.2.1 demo_detailedReport_described.2.2 (by decide),
   by decide, by decide⟩

/-- C22, as stated, fails: the parsers copy the sizes of their input without
comparing them. A property map with Size "100" and Used (true, "200") gives a
record with Total 100 and Used 200 (and Free 0); the table row with the sizes
`1 GiB / 2 GiB / 0 B / None` gives a record with Total 1073741824 and Used
2147483648. And a size written with a fraction is cut: the table row with the
sizes `1.005 KB / 1005 B / 0 B / None`, whose total size is its used size,
gives a record with Total 1004 and Used 1005. -/
theorem record_used_above_total :
    parseFilesystemFromProps "test-pool" demo.overusedProps
      = .ok (some { Name := "vol1", Pool := "test-pool",
                    DevicePath := "/dev/stratis/test-pool/vol1", Total := 100, Used := 200,
                    Free := 0, SizeLimit := none, UUID := "uuid-1" }) ∧
    demo.overusedDetails.row 0 0 0 0 =
      "podman_vols vol1 1 GiB / 2 GiB / 0 B / None /dev/stratis/podman_vols/vol1 5944af0c-f520-4773-9006-edcd79a66d50" ∧
    parseFilesystemTableLine demo.platform (demo.overusedDetails.row 0 0 0 0)
      = .ok demo.overusedDetails.record ∧
    demo.overusedDetails.record.Total = 1073741824 ∧
    demo.overusedDetails.record.Used = 2147483648 ∧
    ¬ (demo.overusedDetails.record.Total ≥ demo.overusedDetails.record.Used) ∧
    parseFilesystemTableLine demo.platform demo.cutRow
      = .ok { Name := "vol1", Pool := "podman_vols",
              DevicePath := "/dev/stratis/podman_vols/vol1", Total := 1004, Used := 1005,
              Free := 0, SizeLimit := none, UUID := "uuid-1" } := by
  refine ⟨by decide, by decide, ?_, by decide, by decide, by decide, cutRow_record⟩
  exact parseFilesystemTableLine_row demo.platform demo_platform_whole demo.overusedDetails
    (by decide) (by decide) 0 0 0 0

/-- C22, amended: no parser compares the total with the used size. For every
record `parseFilesystemFromProps` returns, Free is Total minus Used, 0 when Used
is the larger. For a property map, a table row and a detailed report that
describe the filesystem of the details `d`, whose sizes are written as whole
numbers with a unit and are worth less than 2^53 bytes (`ParseFloat` reading
whole numbers below 2^53 exactly, no line too long for the scanner), the record
has the total and the used size of `d`, so Total ≥ Used holds for the record
exactly when it holds for the input. -/
theorem record_total_used (p : Platform) (d : Details)
    (hp : ∀ n : ℕ, n < 2 ^ 53 → p.ParseFloat (toString n) = .ok (.finite (n : ℚ)))
    (hd : d.wellFormed = true) :
    (∀ (pool : String) (props : dbus.Props) (r : Filesystem),
      parseFilesystemFromProps pool props = .ok (some r) →
      r.Free = r.Total - r.Used ∧ (r.Total ≥ r.Used ∨ r.Free = 0)) ∧
    (∀ (pool : String) (props : dbus.Props), d.Device ≠ "" → d.inProps props = true →
      ∃ r, parseFilesystemFromProps pool props = .ok (some r) ∧
        r.Total = sizeBytes d.Total.1 d.Total.2 ∧ r.Used = sizeBytes d.Used.1 d.Used.2 ∧
        (r.Total ≥ r.Used ↔ sizeBytes d.Total.1 d.Total.2 ≥ sizeBytes d.Used.1 d.Used.2)) ∧
    (∀ g1 g2 g3 g4 : ℕ, d.fitsRow = true →
      ∃ r, parseFilesystemTableLine p (d.row g1 g2 g3 g4) = .ok r ∧
        r.Total = sizeBytes d.Total.1 d.Total.2 ∧ r.Used = sizeBytes d.Used.1 d.Used.2 ∧
        (r.Total ≥ r.Used ↔ sizeBytes d.Total.1 d.Total.2 ≥ sizeBytes d.Used.1 d.Used.2)) ∧
    (∀ text : String,
      (∀ piece ∈ strings.Split text "\n", piece.utf8ByteSize < bufio.MaxScanTokenSize) →
      d.describedBy (reportLines text) = true →
      ∃ r, parseDetailedOutput p text = .ok (some r) ∧
        r.Total = sizeBytes d.Total.1 d.Total.2 ∧ r.Used = sizeBytes d.Used.1 d.Used.2 ∧
        (r.Total ≥ r.Used ↔ sizeBytes d.Total.1 d.Total.2 ≥ sizeBytes d.Used.1 d.Used.2)) := by
  refine ⟨?_, ?_, ?_, ?_⟩
  · intro pool props r h
    obtain ⟨fs, hfs, _, _, hfree⟩ := parseFilesystemFromProps_some pool props _ h
    simp only [Option.some.injEq] at hfs
    subst hfs
    exact ⟨hfree, by omega⟩
  · intro pool props hdev hprops
    exact ⟨_, parseFilesystemFromProps_details pool props d hd hdev hprops, rfl, rfl, Iff.rfl⟩
  · intro g1 g2 g3 g4 hrow
    exact ⟨_, parseFilesystemTableLine_row p hp d hd hrow g1 g2 g3 g4, rfl, rfl, Iff.rfl⟩
  · intro text hshort hdesc
    exact ⟨_, parseDetailedOutput_details p hp d hd text hshort hdesc, rfl, rfl, Iff.rfl⟩

/-- C22 amended, on the filesystem `vol1` of the documentation, whose used size
is below its total size, and on the row whose used size is above it. -/
theorem record_total_used_witness :
    (∃ r, parseFilesystemTableLine demo.platform (demo.details.row 2 8 2 2) = .ok r ∧
      r.Total = sizeBytes 1 "GiB" ∧ r.Used = sizeBytes 74 "MiB" ∧
      (r.Total ≥ r.Used ↔ sizeBytes 1 "GiB" ≥ sizeBytes 74 "MiB")) ∧
    (∃ r, parseDetailedOutput demo.platform demo.detailedReport = .ok (some r) ∧
      r.Total = sizeBytes 1 "GiB" ∧ r.Used = sizeBytes 74 "MiB" ∧
      (r.Total ≥ r.Used ↔ sizeBytes 1 "GiB" ≥ sizeBytes 74 "MiB")) ∧
    (∃ r, parseFilesystemTableLine demo.platform (demo.overusedDetails.row 0 0 0 0) = .ok r ∧
      r.Total = sizeBytes 1 "GiB" ∧ r.Used = sizeBytes 2 "GiB" ∧
      (r.Total ≥ r.Used ↔ sizeBytes 1 "GiB" ≥ sizeBytes 2 "GiB")) ∧
    sizeBytes 1 "GiB" ≥ sizeBytes 74 "MiB" ∧ ¬ (sizeBytes 1 "GiB" ≥ sizeBytes 2 "GiB") :=
  ⟨(record_total_used demo.platform demo.details demo_platform_whole (by decide)).2.2.1
      2 8 2 2 (by decide),
   (record_total_used demo.platform demo.details demo_platform_whole (by decide)).2.2.2
      demo.detailedReport demo_detailedReport_described.2.1 demo_detailedReport_described.2.2,
   (record_total_used demo.platform demo.overusedDetails demo_platform_whole
      (by decide)).2.2.1 0 0 0 0 (by decide),
   by decide, by decide⟩

end stratis

/-! ## No record and no error -/

namespace driver

variable {σ : Type}

/-- `Mount` does not dereference a nil record when the lookup returns a record
or an error. -/
theorem Mount_no_panic (d : Driver σ) (name id : String) (s : σ)
    (h : (d.stratis.GetByName name s).1 ≠ .ok none) : (d.Mount name id s []).1 ≠ .panic := by
  rcases hget : d.stratis.GetByName name s with ⟨r, s1⟩
  rw [hget] at h
  rcases r with err | fs
  · by_cases hnf : err.isNotFound = true <;>
      simp [Driver.Mount, bind_apply, pure_apply, call_apply, hget, hnf]
  · cases fs with
    | none => exact absurd rfl h
    | some fs =>
      rcases hmp : d.mounter.GetMountPoint fs.DevicePath s1 with ⟨⟨existing, _ | err⟩, s2⟩
      swap
      · simp [Driver.Mount, bind_apply, pure_apply, call_apply, hget, hmp]
      · by_cases he : existing = ""
        · subst he
          rcases hprep : d.prepareMountPoint (d.mountPointPath name) s2
            [Call.getByName name, Call.getMountPoint fs.DevicePath] with ⟨e, s3, t3⟩
          cases e with
          | some err =>
            simp [Driver.Mount, bind_apply, pure_apply, call_apply, hget, hmp, hprep]
          | none =>
            rcases hm : d.mounter.Mount fs.DevicePath (d.mountPointPath name) "xfs" s3
              with ⟨e2, s4⟩
            cases e2 <;>
              simp [Driver.Mount, bind_apply, pure_apply, call_apply, hget, hmp, hprep, hm]
        · by_cases hc : existing = d.mountPointPath name
          · subst hc
            simp [Driver.Mount, bind_apply, pure_apply, call_apply, hget, hmp, he]
          · simp [Driver.Mount, bind_apply, pure_apply, call_apply, hget, hmp, he, hc]

/-- `Unmount` does not dereference a nil record when the lookup returns a record
or an error. -/
theorem Unmount_no_panic (d : Driver σ) (name id : String) (s : σ)
    (h : (d.stratis.GetByName name s).1 ≠ .ok none) : (d.Unmount name id s []).1 ≠ .panic := by
  rcases hget : d.stratis.GetByName name s with ⟨r, s1⟩
  rw [hget] at h
  rcases r with err | fs
  · by_cases hnf : err.isNotFound = true <;>
      simp [Driver.Unmount, bind_apply, pure_apply, call_apply, hget, hnf]
  · cases fs with
    | none => exact absurd rfl h
    | some fs =>
      rcases hmp : d.mounter.GetMountPoint fs.DevicePath s1 with ⟨⟨existing, _ | err⟩, s2⟩
      swap
      · simp [Driver.Unmount, bind_apply, pure_apply, call_apply, hget, hmp]
      · by_cases he : existing = ""
        · simp [Driver.Unmount, bind_apply, pure_apply, call_apply, hget, hmp, he]
        · by_cases hc : existing = d.mountPointPath name
          · subst hc
            rcases hu : d.mounter.Unmount (d.mountPointPath name) s2 with ⟨e, s3⟩
            cases e <;>
              simp [Driver.Unmount, bind_apply, pure_apply, call_apply, hget, hmp, he, hu]
          · simp [Driver.Unmount, bind_apply, pure_apply, call_apply, hget, hmp, he, hc]

/-- `Path` does not dereference a nil record when the lookup returns a record or
an error. -/
theorem Path_no_panic (d : Driver σ) (name : String) (s : σ)
    (h : (d.stratis.GetByName name s).1 ≠ .ok none) : (d.Path name s []).1 ≠ .panic := by
  rcases hget : d.stratis.GetByName name s with ⟨r, s1⟩
  rw [hget] at h
  rcases r with err | fs
  · by_cases hnf : err.isNotFound = true <;>
      simp [Driver.Path, bind_apply, pure_apply, call_apply, hget, hnf]
  · cases fs with
    | none => exact absurd rfl h
    | some fs =>
      rcases hmp : d.mounter.GetMountPoint fs.DevicePath s1 with ⟨⟨existing, _ | err⟩, s2⟩
      swap
      · simp [Driver.Path, bind_apply, pure_apply, call_apply, hget, hmp]
      · by_cases he : existing = ""
        · simp [Driver.Path, bind_apply, pure_apply, call_apply, hget, hmp, he]
        · by_cases hc : existing = d.mountPointPath name
          · subst hc
            simp [Driver.Path, bind_apply, pure_apply, call_apply, hget, hmp, he]
          · simp [Driver.Path, bind_apply, pure_apply, call_apply, hget, hmp, he, hc]

/-- `Get` does not dereference a nil record when the lookup returns a record or
an error. -/
theorem Get_no_panic (d : Driver σ) (name : String) (s : σ)
    (h : (d.stratis.GetByName name s).1 ≠ .ok none) : (d.Get name s []).1 ≠ .panic := by
  rcases hget : d.stratis.GetByName name s with ⟨r, s1⟩
  rw [hget] at h
  rcases r with err | fs
  · by_cases hnf : err.isNotFound = true <;>
      simp [Driver.Get, bind_apply, pure_apply, call_apply, hget, hnf]
  · cases fs with
    | none => exact absurd rfl h
    | some fs =>
      rcases hmp : d.mounter.GetMountPoint fs.DevicePath s1 with ⟨⟨existing, _ | err⟩, s2⟩ <;>
        simp [Driver.Get, bind_apply, pure_apply, call_apply, hget, hmp]

end driver

namespace stratis

variable {σ τ υ : Type}

/-- The loop of the bus `GetByName` returns a record or an error. -/
theorem scanFilesystem_ne_nil (pool poolPath name : String) (objects : dbus.ManagedObjects) :
    scanFilesystem pool poolPath name objects ≠ .ok none := by
  induction objects with
  | nil => simp [scanFilesystem]
  | cons o rest ih =>
    obtain ⟨path, interfaces⟩ := o
    unfold scanFilesystem
    repeat' split
    all_goals first
      | exact ih
      | (intro h
         obtain ⟨fs, hfs, _⟩ := parseFilesystemFromProps_some _ _ _ h
         cases hfs)

/-- The bus `GetByName` returns a record or an error. -/
theorem DBusManager_GetByName_ne_nil (m : DBusManager σ) (name : String) (st : BusState σ) :
    (m.GetByName name st).1 ≠ .ok none := by
  rcases hpool : m.findPoolPath st with ⟨r, st1⟩
  cases r with
  | error e => simp [DBusManager.GetByName, bus_bind_apply, bus_pure_apply, hpool]
  | ok poolPath =>
    rcases hobj : m.getManagedObjects st1 with ⟨r2, st2⟩
    cases r2 with
    | error e => simp [DBusManager.GetByName, bus_bind_apply, bus_pure_apply, hpool, hobj]
    | ok objects =>
      simp only [DBusManager.GetByName, bus_bind_apply, bus_pure_apply, hpool, hobj]
      exact scanFilesystem_ne_nil _ _ _ _

/-- The CLI `GetByName` returns a record or an error. -/
theorem CLIManager_GetByName_ne_nil (m : CLIManager σ) (p : Platform) (name : String) (s : σ) :
    (m.GetByName (parseDetailedOutput p) name s).1 ≠ .ok none := by
  unfold CLIManager.GetByName
  rcases m.stratis ["fs", "list", "--name=" ++ name, m.pool] s with ⟨⟨out, e⟩, s1⟩
  cases e with
  | some err =>
    simp only []
    split <;> simp
  | none =>
    simp only []
    unfold parseDetailedOutput
    simp only []
    split <;> simp

/-- C28: neither backend's `GetByName` returns no record and no error. Whenever
`parseDetailedOutput` returns without error, the record is present and has a
non-empty Name; whenever `parseFilesystemFromProps` returns without error, the
record is present and has a non-empty Name and a non-empty DevicePath; so
`GetByName` of the CLI manager and of the bus manager never return a nil record
without error. For a driver whose manager never does, `Mount`, `Unmount`,
`Path` and `Get` never dereference a nil record. -/
theorem GetByName_never_nil (p : Platform) (m : CLIManager σ) (bm : DBusManager τ)
    (d : driver.Driver υ) :
    (∀ (text : String) (r : Option Filesystem), parseDetailedOutput p text = .ok r →
      ∃ fs, r = some fs ∧ fs.Name ≠ "") ∧
    (∀ (pool : String) (props : dbus.Props) (r : Option Filesystem),
      parseFilesystemFromProps pool props = .ok r →
      ∃ fs, r = some fs ∧ fs.Name ≠ "" ∧ fs.DevicePath ≠ "") ∧
    (∀ (name : String) (s : σ), (m.GetByName (parseDetailedOutput p) name s).1 ≠ .ok none) ∧
    (∀ (name : String) (st : BusState τ), (bm.GetByName name st).1 ≠ .ok none) ∧
    ((∀ (name : String) (s : υ), (d.stratis.GetByName name s).1 ≠ .ok none) →
      ∀ (name id : String) (s : υ),
        (d.Mount name id s []).1 ≠ .panic ∧ (d.Unmount name id s []).1 ≠ .panic ∧
        (d.Path name s []).1 ≠ .panic ∧ (d.Get name s []).1 ≠ .panic) := by
  refine ⟨?_, ?_, ?_, ?_, ?_⟩
  · intro text r h
    unfold parseDetailedOutput at h
    simp only [] at h
    split_ifs at h with hn
    simp only [Except.ok.injEq] at h
    exact ⟨_, h.symm, hn⟩
  · intro pool props r h
    obtain ⟨fs, h1, h2, h3, _⟩ := parseFilesystemFromProps_some pool props r h
    exact ⟨fs, h1, h2, h3⟩
  · exact fun name s => CLIManager_GetByName_ne_nil m p name s
  · exact fun name st => DBusManager_GetByName_ne_nil bm name st
  · intro h name id s
    exact ⟨driver.Mount_no_panic d name id s (h name s),
      driver.Unmount_no_panic d name id s (h name s),
      driver.Path_no_panic d name s (h name s), driver.Get_no_panic d name s (h name s)⟩

/-- C28, in the small world: the lookup of the manager returns `vol1` or
NotFound, and the four operations on `vol1` and on `ghost` end without a
dereference of a nil record. -/
theorem GetByName_never_nil_witness :
    ((demo.driver.Mount "vol1" "client-1" demo.mountedElsewhere []).1 ≠ .panic ∧
     (demo.driver.Unmount "vol1" "client-1" demo.mountedElsewhere []).1 ≠ .panic ∧
     (demo.driver.Path "vol1" demo.mountedElsewhere []).1 ≠ .panic ∧
     (demo.driver.Get "vol1" demo.mountedElsewhere []).1 ≠ .panic) ∧
    (demo.driver.Mount "ghost" "client-1" demo.mountedElsewhere []).1 ≠ .panic ∧
    (demo.cliManager.GetByName (parseDetailedOutput demo.platform) "vol1" ()).1
      = .ok (some { emptyFilesystem with Name := "vol1" }) :=
  ⟨(GetByName_never_nil demo.platform demo.cliManager (demo.busManager 1 []) demo.driver).2.2.2.2
      (by
        intro name s
        simp only [demo.driver, demo.manager]
        split <;> simp) "vol1" "client-1" demo.mountedElsewhere,
   ((GetByName_never_nil demo.platform demo.cliManager (demo.busManager 1 [])
      demo.driver).2.2.2.2
      (by
        intro name s
        simp only [demo.driver, demo.manager]
        split <;> simp) "ghost" "client-1" demo.mountedElsewhere).1,
   by decide⟩

end stratis

/-! ## Create and the lookup before it -/

namespace driver

variable {σ τ υ : Type}

/-- C13: for a valid create request whose name `GetByName` resolves to an
existing filesystem, `Create` fails with the error "volume NAME already exists"
and makes no other call than this lookup. The `GetByName` of the two managers
of the program, the CLI manager and the bus manager, never answers with
neither a record nor an error; and after a lookup that did not answer so,
whenever `Create` calls the `Create` of the manager, `GetByName` has reported
NotFound. -/
theorem Create_duplicate (d : Driver σ) (conv : ℚ → Nat) (name : String)
    (options : List (String × String)) (s : σ) (p : stratis.Platform)
    (m : stratis.CLIManager τ) (bm : stratis.DBusManager υ) :
    (∀ (fs : stratis.Filesystem) (s1 : σ),
      validation.ValidateVolumeName name = .ok () →
      (optionValue options "size" = "" ∨
        ∃ size, parseSize conv (optionValue options "size") = .ok size) →
      d.stratis.GetByName name s = (.ok (some fs), s1) →
      d.Create conv name options s [] =
        (.error (.msg ("volume " ++ name ++ " already exists")), s1, [.getByName name])) ∧
    (∀ (n : String) (w : τ), (m.GetByName (stratis.parseDetailedOutput p) n w).1 ≠ .ok none) ∧
    (∀ (n : String) (st : stratis.BusState υ), (bm.GetByName n st).1 ≠ .ok none) ∧
    ((d.stratis.GetByName name s).1 ≠ .ok none →
      (∃ nm limit, Call.create nm limit ∈ (d.Create conv name options s []).2.2) →
      ∃ err s1, d.stratis.GetByName name s = (.error err, s1) ∧ err.isNotFound = true) := by
  refine ⟨?_, fun n w => stratis.CLIManager_GetByName_ne_nil m p n w,
    fun n st => stratis.DBusManager_GetByName_ne_nil bm n st, ?_⟩
  · intro fs s1 hv hsize hget
    rcases hsize with h0 | ⟨size, hp⟩
    · simp [Driver.Create, bind_apply, pure_apply, call_apply, hv, h0, hget]
    · by_cases h0 : optionValue options "size" = ""
      · simp [Driver.Create, bind_apply, pure_apply, call_apply, hv, h0, hget]
      · simp [Driver.Create, bind_apply, pure_apply, call_apply, hv, h0, hp, hget]
  · rintro hnil ⟨nm, limit, hmem⟩
    cases hv : validation.ValidateVolumeName name with
    | error e =>
      simp [Driver.Create, pure_apply, hv] at hmem
    | ok u =>
      rcases hget : d.stratis.GetByName name s with ⟨r, s1⟩
      rw [hget] at hnil
      cases r with
      | error err =>
        by_cases hnf : err.isNotFound = true
        · exact ⟨err, s1, rfl, hnf⟩
        · exfalso
          by_cases h0 : optionValue options "size" = ""
          · simp [Driver.Create, bind_apply, pure_apply, call_apply, hv, h0, hget, hnf] at hmem
          · cases hp : parseSize conv (optionValue options "size") with
            | error e =>
              simp [Driver.Create, bind_apply, pure_apply, call_apply, hv, h0, hp] at hmem
            | ok size =>
              simp [Driver.Create, bind_apply, pure_apply, call_apply, hv, h0, hp, hget,
                hnf] at hmem
      | ok fs =>
        cases fs with
        | none => exact absurd rfl hnil
        | some fs =>
          exfalso
          by_cases h0 : optionValue options "size" = ""
          · simp [Driver.Create, bind_apply, pure_apply, call_apply, hv, h0, hget] at hmem
          · cases hp : parseSize conv (optionValue options "size") with
            | error e =>
              simp [Driver.Create, bind_apply, pure_apply, call_apply, hv, h0, hp] at hmem
            | ok size =>
              simp [Driver.Create, bind_apply, pure_apply, call_apply, hv, h0, hp, hget]
                at hmem

/-- C13, in the small world: `vol1` exists and is not created again; the create
of `vol2` calls the `Create` of the manager, after a lookup that reported
NotFound. -/
theorem Create_duplicate_witness :
    demo.driver.Create (fun _ => 0) "vol1" [] [] [] =
      (.error (.msg ("volume " ++ "vol1" ++ " already exists")), [], [.getByName "vol1"]) ∧
    (demo.driver.Create (fun _ => 0) "vol2" [] [] []).2.2
      = [.getByName "vol2", .create "vol2" none] ∧
    (∃ err s1, demo.driver.stratis.GetByName "vol2" [] = (.error err, s1) ∧
      err.isNotFound = true) :=
  ⟨(Create_duplicate demo.driver (fun _ => 0) "vol1" [] [] demo.platform demo.cliManager
      (demo.busManager 1 [])).1 demo.vol1 [] (by decide) (Or.inl (by decide)) (by decide),
   by decide,
   (Create_duplicate demo.driver (fun _ => 0) "vol2" [] [] demo.platform demo.cliManager
      (demo.busManager 1 [])).2.2.2 (by decide) ⟨"vol2", none, by decide⟩⟩

end driver

/-! ## The table and the detailed report of the CLI backend -/

namespace bufio

/-- A short first line followed by a line of `MaxScanTokenSize` bytes or more:
the scanner yields the first line and nothing else. -/
theorem scanLines_header_long (header rest : String) (n : ℕ) (hnl : '\n' ∉ header.data)
    (hs : String.utf8Len header.data < MaxScanTokenSize) (h : MaxScanTokenSize ≤ n) :
    scanLines (header ++ "\n" ++ demo.longLine n ++ "\n" ++ rest)
      = [⟨dropCR header.data⟩] := by
  have hdata : (header ++ "\n" ++ demo.longLine n ++ "\n" ++ rest).data
      = header.data ++ '\n' :: (List.replicate n 'a' ++ '\n' :: rest.data) := by
    simp [demo.longLine]
  unfold scanLines
  rw [hdata, scanLinesFrom_line _ _ _ hnl, List.nil_append, if_neg (by omega),
    scanLinesFrom_long_line n _ h]
  rfl

end bufio

namespace stratis

/-- C24: `parseFilesystemTable` does not look at the error of its scanner, which
a line of 64 KiB ends. In the table with such a line between the header and the
row of the documentation, the row is a line after the first, is not blank and
gives a record, and `parseFilesystemTable` returns no record at all, without
error: the rows after the long line are lost silently. -/
theorem parseFilesystemTable_long_line :
    demo.longTableReport
      = demo.tableHeader ++ "\n" ++ demo.longLine bufio.MaxScanTokenSize ++ "\n"
          ++ (demo.tableRowLine ++ "\n") ∧
    rowRecord demo.platform demo.tableRowLine
      = some { Name := "vol1", Pool := "podman_vols",
               DevicePath := "/dev/stratis/podman_vols/vol1", Total := 1073741824,
               Used := 77594624, Free := 996147200, SizeLimit := none,
               UUID := "ad719e64-ae83-4997-bf2e-787c7824be0e" } ∧
    parseFilesystemTable demo.platform demo.longTableReport = .ok [] := by
  refine ⟨rfl, demo_rowRecord, ?_⟩
  rw [parseFilesystemTable_eq]
  unfold demo.longTableReport
  rw [bufio.scanLines_header_long _ _ _ (by decide) (by decide) (le_refl _)]
  rfl

/-- The result of `parseFilesystemTable`: for every text, it returns without
error, and its result is, in their order, the records of the lines the scanner
yields after the first that are not blank and that `parseFilesystemTableLine`
accepts; for a text none of whose lines has 64 KiB or more, these are the lines
of the text. A line after the first that is a row of the table (pool, name, the sizes
and the limit with slashes between them, a device under `/dev/` and a UUID,
the sizes written as whole numbers with a unit and worth less than 2^53 bytes,
`ParseFloat` reading such a number exactly) gives the record of its columns. -/
theorem parseFilesystemTable_spec (p : Platform) (text : String) :
    parseFilesystemTable p text = .ok ((bufio.scanLines text).tail.filterMap (rowRecord p)) ∧
    ((∀ piece ∈ strings.Split text "\n", piece.utf8ByteSize < bufio.MaxScanTokenSize) →
      parseFilesystemTable p text = .ok ((reportLines text).tail.filterMap (rowRecord p))) ∧
    (∀ (d : Details) (g1 g2 g3 g4 : ℕ),
      (∀ n : ℕ, n < 2 ^ 53 → p.ParseFloat (toString n) = .ok (.finite (n : ℚ))) →
      d.wellFormed = true → d.fitsRow = true →
      rowRecord p (d.row g1 g2 g3 g4) = some d.record) := by
  refine ⟨parseFilesystemTable_eq p text, ?_, ?_⟩
  · intro h
    rw [parseFilesystemTable_eq, scanLines_eq_reportLines text h]
  · intro d g1 g2 g3 g4 hp hd hrow
    have h := parseFilesystemTableLine_row p hp d hd hrow g1 g2 g3 g4
    obtain ⟨hs1, _, hs3, _⟩ := sizeInfoText_shape d.Total.1 d.Used.1 d.Free.1 d.Total.2 d.Used.2
      d.Free.2 d.Limit ((wellFormed_iff d).mp hd).2.2.2.2.2.1
      ((wellFormed_iff d).mp hd).2.2.2.2.2.2.1 ((wellFormed_iff d).mp hd).2.2.2.2.2.2.2.1
      ((wellFormed_iff d).mp hd).2.2.2.2.2.2.2.2.1
    have hne : strings.TrimSpace (d.row g1 g2 g3 g4) ≠ "" := by
      simp only [Details.fitsRow, Bool.and_eq_true] at hrow
      obtain ⟨hw1, hw2⟩ := (isWord_iff d.Pool).mp hrow.1.1.1.1
      have hdata : (d.row g1 g2 g3 g4).data = d.Pool.data ++
          ((gap g1).data ++ (d.Name.data ++ ((gap g2).data ++
          ((sizeInfoText (sizeText d.Total.1 d.Total.2) (sizeText d.Used.1 d.Used.2)
            (sizeText d.Free.1 d.Free.2) (limitText d.Limit)).data ++
          ((gap g3).data ++ (d.Device.data ++ ((gap g4).data ++ d.UUID.data))))))) := by
        simp [Details.row, tableRow]
      intro e
      have e2 := congrArg String.data e
      simp only [strings.TrimSpace] at e2
      rw [hdata] at e2
      cases hpd : d.Pool.data with
      | nil => exact hw1 hpd
      | cons c cs =>
        rw [hpd] at e2
        exact strings.trimSpaceRunes_cons_ne_nil c _ (hw2 c (by rw [hpd]; simp)) e2
    unfold rowRecord
    rw [if_neg hne, h]

set_option maxRecDepth 8000 in
/-- On the table of the documentation, the header is skipped and the row gives
the record of `vol1`. -/
theorem parseFilesystemTable_spec_witness :
    parseFilesystemTable demo.platform demo.tableReport
      = .ok ((reportLines demo.tableReport).tail.filterMap (rowRecord demo.platform)) ∧
    reportLines demo.tableReport = [demo.tableHeader, demo.tableRowLine] ∧
    rowRecord demo.platform (demo.details.row 2 8 2 2) = some demo.details.record :=
  ⟨(parseFilesystemTable_spec demo.platform demo.tableReport).2.1 (by decide),
   by decide,
   (parseFilesystemTable_spec demo.platform demo.tableReport).2.2 demo.details 2 8 2 2
     demo_platform_whole (by decide) (by decide)⟩

/-- A report without a line that starts with `Name:` gives no name. -/
theorem readName_without_line (lines : List String)
    (h : ∀ line ∈ lines, strings.HasPrefix (strings.TrimSpace line) "Name:" = false) :
    readName lines = "" := by
  unfold readName
  apply foldl_keeps (fun (name : String) (line : String) =>
      if strings.HasPrefix (strings.TrimSpace line) "Name:" then
        strings.TrimSpace ⟨(strings.TrimSpace line).data.drop 5⟩
      else name) id "" lines "" rfl
  intro l hl s
  left
  simp [h l hl]

/-- C25, as stated, fails twice. The report of the documentation with an empty
value in its `Name` line has the eight lines and is rejected; and the report of
the documentation after a first line of 64 KiB is rejected too, its `Name` line
being never read. -/
theorem parseDetailedOutput_rejects :
    parseDetailedOutput demo.platform demo.namelessReport
      = .error (.msg "failed to parse filesystem details") ∧
    demo.longDetailedReport = demo.longLine bufio.MaxScanTokenSize ++ "\n" ++ demo.detailedReport ∧
    parseDetailedOutput demo.platform demo.longDetailedReport
      = .error (.msg "failed to parse filesystem details") := by
  refine ⟨?_, rfl, ?_⟩
  · exact (parseDetailedOutput_error_iff demo.platform demo.namelessReport).1 (by decide)
  · apply (parseDetailedOutput_error_iff demo.platform demo.longDetailedReport).1
    unfold demo.longDetailedReport
    rw [bufio.scanLines_long_first_line _ _ (le_refl _)]
    rfl

/-- C25, amended: for every text whose lines, each shorter than 64 KiB, are
those of a detailed report with well-formed details (every line is the
'Key: value' line of one of the eight keys, possibly indented, or a line
without any of the keys, such as a blank line; every key has its line; the
name is not empty; the sizes are whole numbers with a unit, worth less than
2^53 bytes, which `ParseFloat` reads exactly), `parseDetailedOutput` returns the
record holding the eight values, with no size limit exactly when the value of
`Size Limit` is `None`. A report in which no line the scanner yields starts with
`Name:` is rejected. -/
theorem parseDetailedOutput_spec (p : Platform)
    (hp : ∀ n : ℕ, n < 2 ^ 53 → p.ParseFloat (toString n) = .ok (.finite (n : ℚ))) :
    (∀ (d : Details) (text : String), d.wellFormed = true →
      (∀ piece ∈ strings.Split text "\n", piece.utf8ByteSize < bufio.MaxScanTokenSize) →
      d.describedBy (reportLines text) = true →
      parseDetailedOutput p text = .ok (some d.record) ∧
      (d.record.SizeLimit = none ↔ d.value .SizeLimit = "None")) ∧
    (∀ text : String,
      (∀ line ∈ bufio.scanLines text,
        strings.HasPrefix (strings.TrimSpace line) "Name:" = false) →
      parseDetailedOutput p text = .error (.msg "failed to parse filesystem details")) := by
  constructor
  · intro d text hd hshort hdesc
    refine ⟨parseDetailedOutput_details p hp d hd text hshort hdesc, ?_⟩
    have h9 := ((wellFormed_iff d).mp hd).2.2.2.2.2.2.2.2.1
    cases hl : d.Limit with
    | none => simp [Details.record, Details.value, limitBytes, limitText, hl]
    | some l =>
      obtain ⟨n, unit⟩ := l
      rw [hl] at h9
      have := sizeText_ne_None n unit h9
      simp [Details.record, Details.value, limitBytes, limitText, hl, this]
  · intro text h
    exact (parseDetailedOutput_error_iff p text).1 (readName_without_line _ h)

/-- C25 amended, on the report of the documentation: Name vol1, Pool
podman_vols, Device /dev/stratis/podman_vols/vol1, Total 1073741824, Used
77594624, Free 996147200 and no limit; and a report without a `Name` line is
rejected. -/
theorem parseDetailedOutput_spec_witness :
    (parseDetailedOutput demo.platform demo.detailedReport = .ok (some demo.details.record) ∧
      (demo.details.record.SizeLimit = none ↔ demo.details.value .SizeLimit = "None")) ∧
    demo.details.record = demo.vol1 ∧
    parseDetailedOutput demo.platform "UUID: 5944af0c\nPool: podman_vols\n"
      = .error (.msg "failed to parse filesystem details") :=
  ⟨(parseDetailedOutput_spec demo.platform demo_platform_whole).1 demo.details
      demo.detailedReport (by decide) (by decide) (by decide),
   by decide,
   (parseDetailedOutput_spec demo.platform demo_platform_whole).2
      "UUID: 5944af0c\nPool: podman_vols\n" (by decide)⟩

end stratis
